import Mathlib

/-!
# Framing and handshake layer of signature-esp32

A shallow embedding of the transport framing code (`main/MQTT_communication.c`,
`main/UART_communication.c`) and of the envelope and handshake code (`main/main.c`),
followed by theorems about it.

Conventions of the embedding:
* a `uint8_t` is a `Fin 256`; a buffer is the list of its bytes, and its capacity is the
  length of that list; a pointer that the code tests against `NULL` is an `Option`;
* behaviour that C leaves undefined (a copy through `NULL`, an access past the end of a
  buffer) is the result `Except.error` with the kind of fault;
* everything the code gets from outside (the heap, the FreeRTOS queue, the UART driver, the
  signature library) is a parameter.
-/

namespace SignatureEsp32

/-- One `uint8_t`. -/
abbrev Byte := Fin 256

/-- Ways in which a run leaves defined behaviour. `outOfFuel` is not a behaviour of the
program: it is the result of a loop model whose iteration bound was too small. -/
inductive Fault where
  | nullDeref
  | outOfBounds
  | outOfFuel
  deriving DecidableEq, Repr

/-- The struct `message_struct_t` of `transport.h`: `content` is the buffer, `size` the number of
bytes of the frame. -/
structure message_struct_t where
  content : List Byte
  size : Nat
  deriving DecidableEq, Repr

/-- What the delivery context gets from outside: whether the `i`-th call of `malloc` (asked for
`n` bytes) returns a buffer, and whether the `i`-th call of `xQueueSend` returns `pdTRUE`. -/
structure Env where
  malloc_ok : Nat → Nat → Bool
  queue_ok : Nat → Bool

/-- The environment in which every allocation and every push succeeds. -/
def Env.allOk : Env := { malloc_ok := fun _ _ => true, queue_ok := fun _ => true }

/-- The environment that differs from `E` in one point: the `k`-th call of `xQueueSend` returns
`pdTRUE`. -/
def Env.delivering (E : Env) (k : Nat) : Env :=
  { E with queue_ok := fun i => if i = k then true else E.queue_ok i }

/-- The call `malloc(n)`: `NULL`, or a fresh buffer of `n` bytes (its content is unspecified in C,
here zeroes). -/
def malloc (ok : Bool) (n : Nat) : Option (List Byte) :=
  if ok then some (List.replicate n 0) else none

/-- The call `memcpy(dst + off, src, src.length)` inside a buffer `dst` that is large enough. -/
def memcpy (dst : List Byte) (off : Nat) (src : List Byte) : List Byte :=
  dst.take off ++ src ++ dst.drop (off + src.length)

/-- The expression `((uint16_t)hdr[0] << 8) | hdr[1]`. -/
def be16 (h0 h1 : Byte) : Nat := (h0.val <<< 8) ||| h1.val

/-- The file-scope variables of `MQTT_communication.c` that the event handler uses, together with
the content of `receive_queue` as far as the handler put it there (oldest first) and the number of
`malloc` and `xQueueSend` calls made so far. -/
structure MqttState where
  hdr0 : Byte
  hdr1 : Byte
  hdr_bytes : Nat
  msg_buf : Option (List Byte)
  msg_len : Nat
  msg_copied : Nat
  initialized : Bool
  receive_queue : List message_struct_t
  mallocs : Nat
  sends : Nat
  deriving DecidableEq, Repr

/-- The state at program start: `hdr_bytes = 0`, `msg_buf = NULL`, `msg_len = 0`,
`msg_copied = 0`, nothing received. -/
def MqttState.init : MqttState :=
  { hdr0 := 0, hdr1 := 0, hdr_bytes := 0, msg_buf := none, msg_len := 0, msg_copied := 0,
    initialized := false, receive_queue := [], mallocs := 0, sends := 0 }

/-- The loop `while (remaining > 0)` of the case `MQTT_EVENT_DATA`; the list is the bytes from
`p` on, so `remaining` is its length. The first argument bounds the number of iterations. -/
def data_loop (E : Env) : Nat → MqttState → List Byte → Except Fault MqttState
  | _, s, [] => .ok s
  | 0, _, _ :: _ => .error .outOfFuel
  | fuel + 1, s, b :: rest =>
    if s.hdr_bytes < 2 then
      -- hdr[hdr_bytes++] = *p++; remaining--;
      let s1 := { s with
        hdr0 := if s.hdr_bytes = 0 then b else s.hdr0
        hdr1 := if s.hdr_bytes = 0 then s.hdr1 else b
        hdr_bytes := s.hdr_bytes + 1 }
      if s1.hdr_bytes = 2 then
        let len := be16 s1.hdr0 s1.hdr1
        let buf := malloc (E.malloc_ok s1.mallocs len) len
        let s2 := { s1 with msg_len := len, msg_buf := buf, mallocs := s1.mallocs + 1 }
        match buf with
        | none => .ok { s2 with hdr_bytes := 0, msg_len := 0 } -- break
        | some _ => data_loop E fuel { s2 with msg_copied := 0 } rest -- continue
      else
        data_loop E fuel s1 rest -- continue
    else
      -- to_copy = msg_len - msg_copied, at most remaining; a negative to_copy is a huge size_t.
      -- memcpy(msg_buf + msg_copied, p, to_copy) needs a valid msg_buf whatever the count.
      if s.msg_len < s.msg_copied then .error .outOfBounds
      else
        let to_copy := min (s.msg_len - s.msg_copied) (b :: rest).length
        match s.msg_buf with
        | none => .error .nullDeref
        | some buf =>
          if buf.length < s.msg_copied + to_copy then .error .outOfBounds
          else
            let buf1 := memcpy buf s.msg_copied ((b :: rest).take to_copy)
            let s1 := { s with msg_buf := some buf1, msg_copied := s.msg_copied + to_copy }
            let rest1 := (b :: rest).drop to_copy
            if s1.msg_copied = s1.msg_len then
              let msg : message_struct_t := { content := buf1, size := s1.msg_len }
              -- on a failed xQueueSend the buffer is freed; the state is reset in both cases
              let q := if E.queue_ok s1.sends then s1.receive_queue ++ [msg] else s1.receive_queue
              data_loop E fuel
                { s1 with receive_queue := q, sends := s1.sends + 1, hdr_bytes := 0, msg_len := 0,
                          msg_buf := none, msg_copied := 0 } rest1
            else
              data_loop E fuel s1 rest1

/-- The values of `esp_mqtt_event_id_t` that `mqtt_event_handler` is registered for. -/
inductive esp_mqtt_event_id_t where
  | MQTT_EVENT_CONNECTED
  | MQTT_EVENT_DISCONNECTED
  | MQTT_EVENT_SUBSCRIBED
  | MQTT_EVENT_UNSUBSCRIBED
  | MQTT_EVENT_PUBLISHED
  | MQTT_EVENT_DATA (data : List Byte)
  | MQTT_EVENT_ERROR
  | MQTT_EVENT_OTHER
  deriving DecidableEq, Repr

open esp_mqtt_event_id_t

/-- The function `mqtt_event_handler`. An iteration of the data loop either takes a byte or
leaves a state with `hdr_bytes = 0`, so `2 * data_len + 1` iterations are enough. -/
def mqtt_event_handler (E : Env) (s : MqttState) : esp_mqtt_event_id_t → Except Fault MqttState
  | MQTT_EVENT_CONNECTED => .ok { s with initialized := true }
  | MQTT_EVENT_DISCONNECTED => .ok { s with msg_buf := none } -- if (msg_buf) free, NULL
  | MQTT_EVENT_SUBSCRIBED => .ok s
  | MQTT_EVENT_UNSUBSCRIBED => .ok s
  | MQTT_EVENT_PUBLISHED => .ok s
  | MQTT_EVENT_DATA data => data_loop E (2 * data.length + 1) s data
  | MQTT_EVENT_ERROR => .ok { s with msg_buf := none } -- if (msg_buf) free, NULL
  | MQTT_EVENT_OTHER => .ok s

/-- Handling a sequence of events in order, stopping at the first fault. -/
def mqtt_run (E : Env) : MqttState → List esp_mqtt_event_id_t → Except Fault MqttState
  | s, [] => .ok s
  | s, ev :: evs =>
    match mqtt_event_handler E s ev with
    | .ok s1 => mqtt_run E s1 evs
    | .error f => .error f

/-- The header `{ length >> 8, length & 0xFF }` that both `send_message` build from their
`uint16_t` argument. -/
def frame_hdr (length : Nat) : List Byte :=
  [Fin.ofNat (length >>> 8), Fin.ofNat (length &&& 0xFF)]

/-! ## Sending: `send_message` of the two transports -/

namespace MQTT

/-- The MQTT client as far as `send_message` uses it: the payloads handed to
`esp_mqtt_client_publish`, oldest first. -/
structure Client where
  published : List (List Byte)
  deriving DecidableEq, Repr

/-- The call `esp_mqtt_client_publish(client, SENDING_TOPIC, data, len, 0, 0)`; `ret` is the
value the SDK returns for it. Reading `len` bytes from a shorter buffer is a fault. -/
def esp_mqtt_client_publish (ret : Int) (c : Client) (data : List Byte) (len : Nat) :
    Except Fault (Int × Client) :=
  if data.length < len then .error .outOfBounds
  else .ok (ret, { published := c.published ++ [data.take len] })

/-- The function `send_message` of `MQTT_communication.c`. The parameter `length` is a `uint16_t`,
so the argument is reduced modulo `2 ^ 16`. `ret1` and `ret2` are what the two publish calls
return. -/
def send_message (ret1 ret2 : Int) (c : Client) (data : List Byte) (length : Nat) :
    Except Fault (Int × Client) :=
  let length := length % 65536
  let hdr := frame_hdr length
  match esp_mqtt_client_publish ret1 c hdr 2 with
  | .error f => .error f
  | .ok (_, c1) => esp_mqtt_client_publish ret2 c1 data length

end MQTT

namespace UART

/-- The UART port as far as `send_message` uses it: the bytes the driver took, in order, and the
number of `uart_write_bytes` calls made. -/
structure Port where
  wire : List Byte
  calls : Nat
  deriving DecidableEq, Repr

/-- The loop of `uart_write_all`, from the current value of `written`. `drv i n` is what the
`i`-th call of `uart_write_bytes` returns when asked to write `n` bytes; the driver takes that
many bytes from the front of what it was given. The first argument bounds the number of
iterations: the loop of the source does not end if the driver keeps returning 0. -/
def uart_write_loop (drv : Nat → Nat → Int) : Nat → Port → List Byte → Nat → Nat →
    Except Fault (Int × Port)
  | fuel, port, buf, len, written =>
    if written < len then
      match fuel with
      | 0 => .error .outOfFuel
      | fuel + 1 =>
        let n := drv port.calls (len - written)
        if n < 0 then .ok (-1, { port with calls := port.calls + 1 })
        else
          let taken := ((buf.drop written).take (len - written)).take n.toNat
          uart_write_loop drv fuel { wire := port.wire ++ taken, calls := port.calls + 1 }
            buf len (written + n.toNat)
    else .ok ((written : Int), port)

/-- The function `uart_write_all`. Handing over `len` bytes of a shorter buffer is a fault. -/
def uart_write_all (drv : Nat → Nat → Int) (fuel : Nat) (port : Port) (buf : List Byte)
    (len : Nat) : Except Fault (Int × Port) :=
  if buf.length < len then .error .outOfBounds
  else uart_write_loop drv fuel port buf len 0

/-- The function `send_message` of `UART_communication.c`. The parameter `length` is a
`uint16_t`, so the argument is reduced modulo `2 ^ 16`. A failed header write is only logged. -/
def send_message (drv : Nat → Nat → Int) (fuel : Nat) (port : Port) (data : List Byte)
    (length : Nat) : Except Fault (Int × Port) :=
  let length := length % 65536
  let hdr := frame_hdr length
  match uart_write_all drv fuel port hdr 2 with
  | .error f => .error f
  | .ok (_, port1) => uart_write_all drv fuel port1 data length

end UART

/-! ## Receiving: `receive_task` of the UART transport -/

namespace UART

/-- The UART driver and the tick counter as `receive_task` sees them: `ticks` are the values
that successive calls of `xTaskGetTickCount` return, `ready` the number of bytes that the driver
has for successive calls of `uart_read_bytes` before its 20 ms are over, and `line` the bytes of
the RX line that were not read yet, in order. -/
structure Driver where
  ticks : List Nat
  ready : List Nat
  line : List Byte
  deriving DecidableEq, Repr

/-- The loop of `uart_read_exact`; `got` is what the buffer holds so far and `start` the tick
count at entry. A call of `uart_read_bytes` asked for `len - got` bytes returns at most that
many, and a return value that is not positive leaves `got` as it is. The tick difference is a
32-bit unsigned subtraction. The result is `none` where the listed driver answers end before the
loop does. -/
def uart_read_loop (start to_ticks len : Nat) :
    List Nat → List Nat → List Byte → List Byte → Option (List Byte × Driver)
  | [], ready, line, got =>
    if got.length < len then none else some (got, { ticks := [], ready := ready, line := line })
  | now :: ticks, ready, line, got =>
    if got.length < len then
      if to_ticks < (now % 2 ^ 32 + 2 ^ 32 - start % 2 ^ 32) % 2 ^ 32 then
        some (got, { ticks := ticks, ready := ready, line := line }) -- break
      else
        match ready with
        | [] => none
        | r :: ready1 =>
          let n := min (len - got.length) (min r line.length)
          uart_read_loop start to_ticks len ticks ready1 (line.drop n) (got ++ line.take n)
    else some (got, { ticks := now :: ticks, ready := ready, line := line })

/-- The function `uart_read_exact`: the `len` bytes read, or `none` for the return value `-1`,
and the driver after the call. -/
def uart_read_exact (d : Driver) (len to_ticks : Nat) : Option (Option (List Byte) × Driver) :=
  match d.ticks with
  | [] => none
  | start :: ticks =>
    match uart_read_loop start to_ticks len ticks d.ready d.line [] with
    | none => none
    | some (got, d1) => some (if got.length = len then some got else none, d1)

/-- What `receive_task` works on: the driver, the content of `receive_queue` as far as the task
put it there (oldest first), and the number of `malloc` and `xQueueSend` calls made so far. -/
structure RxState where
  drv : Driver
  receive_queue : List message_struct_t
  mallocs : Nat
  sends : Nat
  deriving DecidableEq, Repr

/-- One iteration of the loop `for(;;)` of `receive_task`; `to_ticks` is `pdMS_TO_TICKS(5000)`.
The result is `none` where the listed driver answers end before the iteration does. -/
def receive_task_iter (E : Env) (to_ticks : Nat) (st : RxState) : Option RxState :=
  match uart_read_exact st.drv 2 to_ticks with
  | none => none
  | some (none, d1) => some { st with drv := d1 } -- timeout; try again
  | some (some hdr, d1) =>
    let len := be16 (hdr.getD 0 0) (hdr.getD 1 0)
    if len = 0 then some { st with drv := d1 } -- sanity check
    else
      match malloc (E.malloc_ok st.mallocs len) len with
      | none => some { st with drv := d1, mallocs := st.mallocs + 1 }
      | some _ =>
        match uart_read_exact d1 len to_ticks with
        | none => none
        | some (none, d2) => some { st with drv := d2, mallocs := st.mallocs + 1 } -- free(data)
        | some (some data, d2) =>
          let msg : message_struct_t := { content := data, size := len }
          -- on a failed xQueueSend the buffer is freed
          some { st with
            drv := d2, mallocs := st.mallocs + 1, sends := st.sends + 1,
            receive_queue :=
              if E.queue_ok st.sends then st.receive_queue ++ [msg] else st.receive_queue }

/-- The first `n` iterations of the loop `for(;;)` of `receive_task`. -/
def receive_task (E : Env) (to_ticks : Nat) : Nat → RxState → Option RxState
  | 0, st => some st
  | n + 1, st =>
    match receive_task_iter E to_ticks st with
    | none => none
    | some st1 => receive_task E to_ticks n st1

end UART

/-! ## The signature library seen from `dsa.c` -/

/-- The C type `enum DSA_ALGO`: an integer, of which 0..18 are the named values. -/
abbrev DSA_ALGO := Nat

def FALCON_512 : DSA_ALGO := 0
def FALCON_1024 : DSA_ALGO := 1
def FALCON_PADDED_512 : DSA_ALGO := 2
def FALCON_PADDED_1024 : DSA_ALGO := 3
def ML_DSA_44 : DSA_ALGO := 4
def ML_DSA_65 : DSA_ALGO := 5
def ML_DSA_87 : DSA_ALGO := 6
def SPHINCS_SHA2_128F : DSA_ALGO := 7
def SPHINCS_SHA2_128S : DSA_ALGO := 8
def SPHINCS_SHA2_192F : DSA_ALGO := 9
def SPHINCS_SHA2_192S : DSA_ALGO := 10
def SPHINCS_SHA2_256F : DSA_ALGO := 11
def SPHINCS_SHA2_256S : DSA_ALGO := 12
def SPHINCS_SHAKE_128F : DSA_ALGO := 13
def SPHINCS_SHAKE_128S : DSA_ALGO := 14
def SPHINCS_SHAKE_192F : DSA_ALGO := 15
def SPHINCS_SHAKE_192S : DSA_ALGO := 16
def SPHINCS_SHAKE_256F : DSA_ALGO := 17
def SPHINCS_SHAKE_256S : DSA_ALGO := 18

/-- The PQClean implementations that `dsa.c` links, one per `api.h`. -/
inductive Scheme where
  | FALCON512 | FALCON1024 | FALCONPADDED512 | FALCONPADDED1024
  | MLDSA44 | MLDSA65 | MLDSA87
  | SPHINCSSHA2128FSIMPLE | SPHINCSSHA2128SSIMPLE | SPHINCSSHA2192FSIMPLE
  | SPHINCSSHA2192SSIMPLE | SPHINCSSHA2256FSIMPLE | SPHINCSSHA2256SSIMPLE
  | SPHINCSSHAKE128FSIMPLE | SPHINCSSHAKE128SSIMPLE | SPHINCSSHAKE192FSIMPLE
  | SPHINCSSHAKE192SSIMPLE | SPHINCSSHAKE256FSIMPLE | SPHINCSSHAKE256SSIMPLE
  deriving DecidableEq, Repr

/-- The `switch (algo)` that every function of `dsa.c` starts with: the implementation a case
label selects, `none` for the `default` label. -/
def scheme_of : DSA_ALGO → Option Scheme
  | 0 => some .FALCON512
  | 1 => some .FALCON1024
  | 2 => some .FALCONPADDED512
  | 3 => some .FALCONPADDED1024
  | 4 => some .MLDSA44
  | 5 => some .MLDSA65
  | 6 => some .MLDSA87
  | 7 => some .SPHINCSSHA2128FSIMPLE
  | 8 => some .SPHINCSSHA2128SSIMPLE
  | 9 => some .SPHINCSSHA2192FSIMPLE
  | 10 => some .SPHINCSSHA2192SSIMPLE
  | 11 => some .SPHINCSSHA2256FSIMPLE
  | 12 => some .SPHINCSSHA2256SSIMPLE
  | 13 => some .SPHINCSSHAKE128FSIMPLE
  | 14 => some .SPHINCSSHAKE128SSIMPLE
  | 15 => some .SPHINCSSHAKE192FSIMPLE
  | 16 => some .SPHINCSSHAKE192SSIMPLE
  | 17 => some .SPHINCSSHAKE256FSIMPLE
  | 18 => some .SPHINCSSHAKE256SSIMPLE
  | _ => none

/-- The PQClean library, which is not part of the repository: the constants of each `api.h` and
the functions `crypto_sign_keypair`, `crypto_sign_signature` and `crypto_sign_verify`. Key
generation and signing draw random bytes; `rnd` stands for them. A signature is returned as the
bytes written to `sig`, its length being the value stored in `*siglen`; the library never writes
more than `CRYPTO_BYTES` bytes (`signature_fits`). -/
structure Provider where
  CRYPTO_PUBLICKEYBYTES : Scheme → Nat
  CRYPTO_SECRETKEYBYTES : Scheme → Nat
  CRYPTO_BYTES : Scheme → Nat
  crypto_sign_keypair : Scheme → Nat → Int × List Byte × List Byte
  crypto_sign_signature : Scheme → Nat → List Byte → List Byte → Int × List Byte
  crypto_sign_verify : Scheme → List Byte → List Byte → List Byte → Int
  signature_fits : ∀ s rnd m sk, (crypto_sign_signature s rnd m sk).2.length ≤ CRYPTO_BYTES s

/-- The function `get_signature_length`: its own `switch`, every case label returning the
`CRYPTO_BYTES` of its own `api.h`, the `default` label 0. -/
def get_signature_length (P : Provider) : DSA_ALGO → Nat
  | 0 => P.CRYPTO_BYTES .FALCON512
  | 1 => P.CRYPTO_BYTES .FALCON1024
  | 2 => P.CRYPTO_BYTES .FALCONPADDED512
  | 3 => P.CRYPTO_BYTES .FALCONPADDED1024
  | 4 => P.CRYPTO_BYTES .MLDSA44
  | 5 => P.CRYPTO_BYTES .MLDSA65
  | 6 => P.CRYPTO_BYTES .MLDSA87
  | 7 => P.CRYPTO_BYTES .SPHINCSSHA2128FSIMPLE
  | 8 => P.CRYPTO_BYTES .SPHINCSSHA2128SSIMPLE
  | 9 => P.CRYPTO_BYTES .SPHINCSSHA2192FSIMPLE
  | 10 => P.CRYPTO_BYTES .SPHINCSSHA2192SSIMPLE
  | 11 => P.CRYPTO_BYTES .SPHINCSSHA2256FSIMPLE
  | 12 => P.CRYPTO_BYTES .SPHINCSSHA2256SSIMPLE
  | 13 => P.CRYPTO_BYTES .SPHINCSSHAKE128FSIMPLE
  | 14 => P.CRYPTO_BYTES .SPHINCSSHAKE128SSIMPLE
  | 15 => P.CRYPTO_BYTES .SPHINCSSHAKE192FSIMPLE
  | 16 => P.CRYPTO_BYTES .SPHINCSSHAKE192SSIMPLE
  | 17 => P.CRYPTO_BYTES .SPHINCSSHAKE256FSIMPLE
  | 18 => P.CRYPTO_BYTES .SPHINCSSHAKE256SSIMPLE
  | _ => 0

/-- The function `get_public_key_length`: its own `switch`, every case label returning the
`CRYPTO_PUBLICKEYBYTES` of its own `api.h`, the `default` label 0. -/
def get_public_key_length (P : Provider) : DSA_ALGO → Nat
  | 0 => P.CRYPTO_PUBLICKEYBYTES .FALCON512
  | 1 => P.CRYPTO_PUBLICKEYBYTES .FALCON1024
  | 2 => P.CRYPTO_PUBLICKEYBYTES .FALCONPADDED512
  | 3 => P.CRYPTO_PUBLICKEYBYTES .FALCONPADDED1024
  | 4 => P.CRYPTO_PUBLICKEYBYTES .MLDSA44
  | 5 => P.CRYPTO_PUBLICKEYBYTES .MLDSA65
  | 6 => P.CRYPTO_PUBLICKEYBYTES .MLDSA87
  | 7 => P.CRYPTO_PUBLICKEYBYTES .SPHINCSSHA2128FSIMPLE
  | 8 => P.CRYPTO_PUBLICKEYBYTES .SPHINCSSHA2128SSIMPLE
  | 9 => P.CRYPTO_PUBLICKEYBYTES .SPHINCSSHA2192FSIMPLE
  | 10 => P.CRYPTO_PUBLICKEYBYTES .SPHINCSSHA2192SSIMPLE
  | 11 => P.CRYPTO_PUBLICKEYBYTES .SPHINCSSHA2256FSIMPLE
  | 12 => P.CRYPTO_PUBLICKEYBYTES .SPHINCSSHA2256SSIMPLE
  | 13 => P.CRYPTO_PUBLICKEYBYTES .SPHINCSSHAKE128FSIMPLE
  | 14 => P.CRYPTO_PUBLICKEYBYTES .SPHINCSSHAKE128SSIMPLE
  | 15 => P.CRYPTO_PUBLICKEYBYTES .SPHINCSSHAKE192FSIMPLE
  | 16 => P.CRYPTO_PUBLICKEYBYTES .SPHINCSSHAKE192SSIMPLE
  | 17 => P.CRYPTO_PUBLICKEYBYTES .SPHINCSSHAKE256FSIMPLE
  | 18 => P.CRYPTO_PUBLICKEYBYTES .SPHINCSSHAKE256SSIMPLE
  | _ => 0

/-- The function `get_secret_key_length`: its own `switch`, every case label returning the
`CRYPTO_SECRETKEYBYTES` of its own `api.h`, the `default` label 0. -/
def get_secret_key_length (P : Provider) : DSA_ALGO → Nat
  | 0 => P.CRYPTO_SECRETKEYBYTES .FALCON512
  | 1 => P.CRYPTO_SECRETKEYBYTES .FALCON1024
  | 2 => P.CRYPTO_SECRETKEYBYTES .FALCONPADDED512
  | 3 => P.CRYPTO_SECRETKEYBYTES .FALCONPADDED1024
  | 4 => P.CRYPTO_SECRETKEYBYTES .MLDSA44
  | 5 => P.CRYPTO_SECRETKEYBYTES .MLDSA65
  | 6 => P.CRYPTO_SECRETKEYBYTES .MLDSA87
  | 7 => P.CRYPTO_SECRETKEYBYTES .SPHINCSSHA2128FSIMPLE
  | 8 => P.CRYPTO_SECRETKEYBYTES .SPHINCSSHA2128SSIMPLE
  | 9 => P.CRYPTO_SECRETKEYBYTES .SPHINCSSHA2192FSIMPLE
  | 10 => P.CRYPTO_SECRETKEYBYTES .SPHINCSSHA2192SSIMPLE
  | 11 => P.CRYPTO_SECRETKEYBYTES .SPHINCSSHA2256FSIMPLE
  | 12 => P.CRYPTO_SECRETKEYBYTES .SPHINCSSHA2256SSIMPLE
  | 13 => P.CRYPTO_SECRETKEYBYTES .SPHINCSSHAKE128FSIMPLE
  | 14 => P.CRYPTO_SECRETKEYBYTES .SPHINCSSHAKE128SSIMPLE
  | 15 => P.CRYPTO_SECRETKEYBYTES .SPHINCSSHAKE192FSIMPLE
  | 16 => P.CRYPTO_SECRETKEYBYTES .SPHINCSSHAKE192SSIMPLE
  | 17 => P.CRYPTO_SECRETKEYBYTES .SPHINCSSHAKE256FSIMPLE
  | 18 => P.CRYPTO_SECRETKEYBYTES .SPHINCSSHAKE256SSIMPLE
  | _ => 0

/-- The function `dsa_signature` on the message `m[0 .. mlen)`: the status, and the bytes written
to `sig` (`none` in the `default` case, which leaves `sig` and `*siglen` alone). -/
def dsa_signature (P : Provider) (algo : DSA_ALGO) (rnd : Nat) (m : List Byte) (mlen : Nat)
    (sk : List Byte) : Int × Option (List Byte) :=
  match scheme_of algo with
  | some s =>
    let r := P.crypto_sign_signature s rnd (m.take mlen) sk
    (r.1, some r.2)
  | none => (-1, none)

/-- The function `dsa_verify` on the signature `sig` and the message `m` (each the exact range the
caller passes as pointer and length). -/
def dsa_verify (P : Provider) (algo : DSA_ALGO) (sig : List Byte) (m : List Byte)
    (pk : List Byte) : Int :=
  match scheme_of algo with
  | some s => P.crypto_sign_verify s sig m pk
  | none => -1

/-! ## `main.c` -/

/-- The length of a C string: the number of bytes before the first NUL. -/
def strlen : List Byte → Nat
  | [] => 0
  | b :: bs => if b = 0 then 0 else strlen bs + 1

/-- The call `memcmp(a, b, n)`: 0 when the first `n` bytes agree, else the difference of the first
pair that differs. The C contract requires `n` readable bytes on both sides; where a list is
shorter the model reports a difference. -/
def memcmp : List Byte → List Byte → Nat → Int
  | _, _, 0 => 0
  | a :: as, b :: bs, n + 1 => if a = b then memcmp as bs n else (a.val : Int) - (b.val : Int)
  | _, _, _ + 1 => 1

/-- The string `"Test message for DSA"` with its terminating NUL. -/
def message : List Byte :=
  [0x54, 0x65, 0x73, 0x74, 0x20, 0x6d, 0x65, 0x73, 0x73, 0x61, 0x67, 0x65, 0x20, 0x66, 0x6f,
   0x72, 0x20, 0x44, 0x53, 0x41, 0]

/-- The string `"ready"` with its terminating NUL. -/
def ready_message : List Byte := [0x72, 0x65, 0x61, 0x64, 0x79, 0]

/-- The string `"ack"` with its terminating NUL. -/
def ack_message : List Byte := [0x61, 0x63, 0x6b, 0]

/-- The string `"failed"` with its terminating NUL. -/
def failed_message : List Byte := [0x66, 0x61, 0x69, 0x6c, 0x65, 0x64, 0]

/-- One past the largest `size_t` of the 32-bit targets. -/
def SIZE_MOD : Nat := 2 ^ 32

/-- Subtraction of two `size_t` values, which wraps around. -/
def size_sub (a b : Nat) : Nat := if b ≤ a then a - b else SIZE_MOD - (b - a)

/-- What `crypto_sign_message` leaves behind: the value returned, the bytes written to `sm` from
`sm[0]` on, and the value stored in `*smlen` (`none` when nothing is stored). -/
structure SignOut where
  ret : Int
  sm : List Byte
  smlen : Option Nat
  deriving DecidableEq, Repr

/-- The function `crypto_sign_message`; `malloc_ok` tells whether its `malloc` succeeds. The
status of `dsa_signature` is not looked at. `signature_len` starts at 0 and keeps that value when
`dsa_signature` stores nothing. -/
def crypto_sign_message (P : Provider) (malloc_ok : Bool) (rnd : Nat) (m : List Byte)
    (mlen : Nat) (sk : List Byte) (algo : DSA_ALGO) : Except Fault SignOut :=
  match malloc malloc_ok (get_signature_length P algo) with
  | none => .ok { ret := -1, sm := [], smlen := none }
  | some signature =>
    let hdr : List Byte := [Fin.ofNat ((mlen % 65536) >>> 8), Fin.ofNat ((mlen % 65536) &&& 0xFF)]
    let sig := ((dsa_signature P algo rnd m mlen sk).2).getD []
    let signature_len := sig.length
    if m.length < mlen ∨ signature.length < signature_len then .error .outOfBounds
    else .ok { ret := 0, sm := hdr ++ m.take mlen ++ sig, smlen := some (2 + mlen + signature_len) }

/-- One call of `dsa_verify` made by `crypto_open_message`: the signature and message ranges and
the key it was given. -/
structure VerifyCall where
  sig : List Byte
  m : List Byte
  pk : List Byte
  deriving DecidableEq, Repr

/-- What `crypto_open_message` leaves behind: the value returned, the value stored in `*mlen`,
the bytes copied to `m` (`none` when the copy is not reached), and the calls of `dsa_verify`. -/
structure OpenOut where
  ret : Int
  mlen : Nat
  m : Option (List Byte)
  verify_calls : List VerifyCall
  deriving DecidableEq, Repr

/-- The function `crypto_open_message` on the buffer `sm` with the length argument `smlen`;
`malloc_ok` tells whether its `malloc` succeeds. Reading `sm[0]`, `sm[1]` past the end of `sm`,
copying more than the scratch buffer holds, and reading the signature range past the end of `sm`
are faults. -/
def crypto_open_message (P : Provider) (malloc_ok : Bool) (sm : List Byte) (smlen : Nat)
    (pk : List Byte) (algo : DSA_ALGO) : Except Fault OpenOut :=
  match sm with
  | h0 :: h1 :: _ =>
    let mlen := be16 h0 h1
    let signature_len := size_sub (size_sub smlen mlen) 2
    match malloc malloc_ok (get_signature_length P algo) with
    | none => .ok { ret := -1, mlen := mlen, m := none, verify_calls := [] }
    | some signature =>
      if signature.length < signature_len ∨ sm.length < 2 + mlen + signature_len then
        .error .outOfBounds
      else
        let sig := (sm.drop (2 + mlen)).take signature_len
        let msg := (sm.drop 2).take mlen
        let call : VerifyCall := { sig := sig, m := msg, pk := pk }
        if dsa_verify P algo sig msg pk < 0 then
          .ok { ret := -1, mlen := mlen, m := none, verify_calls := [call] }
        else
          .ok { ret := 0, mlen := mlen, m := some msg, verify_calls := [call] }
  | _ => .error .outOfBounds

/-- The C type `enum ROLE`. -/
inductive ROLE where
  | ALICE
  | BOB
  deriving DecidableEq, Repr

/-- One call `send_message(data, length)` made by `main.c`. -/
structure SendCall where
  data : List Byte
  length : Nat
  deriving DecidableEq, Repr

/-- The payload of the frame that a call of `send_message` puts on the wire. -/
def SendCall.payload (c : SendCall) : List Byte := c.data.take (c.length % 65536)

/-- What a run of `synchronize` over a finite list of poll results leaves behind: whether the
function returned (it is still in its loop otherwise), the calls of `send_message` in order, and
the poll results it did not get to. -/
structure SyncOut where
  returned : Bool
  sent : List SendCall
  rest : List (Option message_struct_t)
  deriving DecidableEq, Repr

/-- The loop of `case ALICE` in `synchronize`. Each element of the list is the result of one
`xQueueReceive(receive_queue, &messageReceived, portMAX_DELAY)`: a frame, or `none` when the call
returns without one. -/
def synchronize_ALICE : List (Option message_struct_t) → SyncOut
  | [] => { returned := false, sent := [], rest := [] }
  | none :: polls => synchronize_ALICE polls
  | some messageReceived :: polls =>
    if messageReceived.size = strlen ready_message
        ∧ memcmp ready_message messageReceived.content messageReceived.size = 0 then
      -- send ack, delay, isMessageReceived = true, free
      { returned := true, sent := [{ data := ack_message, length := strlen ack_message }],
        rest := polls }
    else
      synchronize_ALICE polls -- free

/-- The conversion `%s` of `printf` on the buffer `content`: it reads the bytes up to the first
NUL; in a buffer that holds no NUL it reads past the end. -/
def printf_s (content : List Byte) : Except Fault Unit :=
  if (0 : Byte) ∈ content then .ok () else .error .outOfBounds

/-- The loop of `case BOB` in `synchronize`. Each element of the list is the result of one
`xQueueReceive(receive_queue, &messageReceived, pdMS_TO_TICKS(3000))`: a frame, or `none` for a
timeout. A frame that is not `"ack"` is printed with `printf("Got %s\n", ...)` before it is
freed. -/
def synchronize_BOB : List (Option message_struct_t) → Except Fault SyncOut
  | [] => .ok { returned := false, sent := [], rest := [] }
  | none :: polls =>
    -- send ready, delay, next iteration
    match synchronize_BOB polls with
    | .error f => .error f
    | .ok r =>
      .ok { r with sent := { data := ready_message, length := strlen ready_message } :: r.sent }
  | some messageReceived :: polls =>
    if messageReceived.size = strlen ack_message
        ∧ memcmp ack_message messageReceived.content messageReceived.size = 0 then
      .ok { returned := true, sent := [], rest := polls } -- isMessageReceived = true, free
    else
      match printf_s messageReceived.content with
      | .error f => .error f
      | .ok _ =>
        -- free, send ready, delay, next iteration
        match synchronize_BOB polls with
        | .error f => .error f
        | .ok r =>
          .ok { r with
            sent := { data := ready_message, length := strlen ready_message } :: r.sent }

/-- The function `synchronize`. -/
def synchronize (role : ROLE) (polls : List (Option message_struct_t)) :
    Except Fault SyncOut :=
  match role with
  | .ALICE => .ok (synchronize_ALICE polls)
  | .BOB => synchronize_BOB polls

/-- The frame that the receiving side builds for a payload: a buffer of exactly its bytes. -/
def frame (payload : List Byte) : message_struct_t :=
  { content := payload, size := payload.length }


/-- The array `algorithms` of `main.c`. -/
def algorithms : List DSA_ALGO :=
  [FALCON_512, FALCON_1024, FALCON_PADDED_512, FALCON_PADDED_1024, ML_DSA_44, ML_DSA_65,
   ML_DSA_87, SPHINCS_SHA2_128F, SPHINCS_SHA2_128S, SPHINCS_SHA2_192F, SPHINCS_SHA2_192S,
   SPHINCS_SHA2_256F, SPHINCS_SHA2_256S, SPHINCS_SHAKE_128F, SPHINCS_SHAKE_128S,
   SPHINCS_SHAKE_192F, SPHINCS_SHAKE_192S, SPHINCS_SHAKE_256F, SPHINCS_SHAKE_256S]

/-- A small stand-in for the signature library, used to run the code on concrete inputs: keys of
one byte, signatures of two bytes; the signature of `m` under the key `[k]` is `[k, k + |m|]`. -/
def toyProvider : Provider where
  CRYPTO_PUBLICKEYBYTES := fun _ => 1
  CRYPTO_SECRETKEYBYTES := fun _ => 1
  CRYPTO_BYTES := fun _ => 2
  crypto_sign_keypair := fun _ rnd => (0, [Fin.ofNat rnd], [Fin.ofNat rnd])
  crypto_sign_signature := fun _ _ m sk => (0, [sk.headD 0, sk.headD 0 + Fin.ofNat m.length])
  crypto_sign_verify := fun _ sig m pk =>
    if sig = [pk.headD 0, pk.headD 0 + Fin.ofNat m.length] then 0 else -1
  signature_fits := by intro _ _ _ _; simp

/-! ## `main.c`: one algorithm, and the catalogue -/

/-- What `alloc_space_for_dsa` leaves in `*pk`, `*sk`, `*pk_len`, `*sk_len` and `*sig_len`. -/
structure KeySpace where
  pk : Option (List Byte)
  sk : Option (List Byte)
  pk_len : Nat
  sk_len : Nat
  sig_len : Nat
  deriving DecidableEq, Repr

/-- The function `alloc_space_for_dsa` of `dsa.c`; `pk0` and `sk0` are the values of `*pk` and
`*sk` at the call, `pk_ok` and `sk_ok` tell whether the two `malloc` succeed. Every case label of
its `switch` stores the three constants of its own `api.h`; the `default` label stores 0 three
times and returns before the allocations. -/
def alloc_space_for_dsa (P : Provider) (pk_ok sk_ok : Bool) (algo : DSA_ALGO)
    (pk0 sk0 : Option (List Byte)) : KeySpace :=
  let lens : Option (Nat × Nat × Nat) :=
    match algo with
    | 0 => some (P.CRYPTO_PUBLICKEYBYTES .FALCON512,
        P.CRYPTO_SECRETKEYBYTES .FALCON512,
        P.CRYPTO_BYTES .FALCON512)
    | 1 => some (P.CRYPTO_PUBLICKEYBYTES .FALCON1024,
        P.CRYPTO_SECRETKEYBYTES .FALCON1024,
        P.CRYPTO_BYTES .FALCON1024)
    | 2 => some (P.CRYPTO_PUBLICKEYBYTES .FALCONPADDED512,
        P.CRYPTO_SECRETKEYBYTES .FALCONPADDED512,
        P.CRYPTO_BYTES .FALCONPADDED512)
    | 3 => some (P.CRYPTO_PUBLICKEYBYTES .FALCONPADDED1024,
        P.CRYPTO_SECRETKEYBYTES .FALCONPADDED1024,
        P.CRYPTO_BYTES .FALCONPADDED1024)
    | 4 => some (P.CRYPTO_PUBLICKEYBYTES .MLDSA44,
        P.CRYPTO_SECRETKEYBYTES .MLDSA44,
        P.CRYPTO_BYTES .MLDSA44)
    | 5 => some (P.CRYPTO_PUBLICKEYBYTES .MLDSA65,
        P.CRYPTO_SECRETKEYBYTES .MLDSA65,
        P.CRYPTO_BYTES .MLDSA65)
    | 6 => some (P.CRYPTO_PUBLICKEYBYTES .MLDSA87,
        P.CRYPTO_SECRETKEYBYTES .MLDSA87,
        P.CRYPTO_BYTES .MLDSA87)
    | 7 => some (P.CRYPTO_PUBLICKEYBYTES .SPHINCSSHA2128FSIMPLE,
        P.CRYPTO_SECRETKEYBYTES .SPHINCSSHA2128FSIMPLE,
        P.CRYPTO_BYTES .SPHINCSSHA2128FSIMPLE)
    | 8 => some (P.CRYPTO_PUBLICKEYBYTES .SPHINCSSHA2128SSIMPLE,
        P.CRYPTO_SECRETKEYBYTES .SPHINCSSHA2128SSIMPLE,
        P.CRYPTO_BYTES .SPHINCSSHA2128SSIMPLE)
    | 9 => some (P.CRYPTO_PUBLICKEYBYTES .SPHINCSSHA2192FSIMPLE,
        P.CRYPTO_SECRETKEYBYTES .SPHINCSSHA2192FSIMPLE,
        P.CRYPTO_BYTES .SPHINCSSHA2192FSIMPLE)
    | 10 => some (P.CRYPTO_PUBLICKEYBYTES .SPHINCSSHA2192SSIMPLE,
        P.CRYPTO_SECRETKEYBYTES .SPHINCSSHA2192SSIMPLE,
        P.CRYPTO_BYTES .SPHINCSSHA2192SSIMPLE)
    | 11 => some (P.CRYPTO_PUBLICKEYBYTES .SPHINCSSHA2256FSIMPLE,
        P.CRYPTO_SECRETKEYBYTES .SPHINCSSHA2256FSIMPLE,
        P.CRYPTO_BYTES .SPHINCSSHA2256FSIMPLE)
    | 12 => some (P.CRYPTO_PUBLICKEYBYTES .SPHINCSSHA2256SSIMPLE,
        P.CRYPTO_SECRETKEYBYTES .SPHINCSSHA2256SSIMPLE,
        P.CRYPTO_BYTES .SPHINCSSHA2256SSIMPLE)
    | 13 => some (P.CRYPTO_PUBLICKEYBYTES .SPHINCSSHAKE128FSIMPLE,
        P.CRYPTO_SECRETKEYBYTES .SPHINCSSHAKE128FSIMPLE,
        P.CRYPTO_BYTES .SPHINCSSHAKE128FSIMPLE)
    | 14 => some (P.CRYPTO_PUBLICKEYBYTES .SPHINCSSHAKE128SSIMPLE,
        P.CRYPTO_SECRETKEYBYTES .SPHINCSSHAKE128SSIMPLE,
        P.CRYPTO_BYTES .SPHINCSSHAKE128SSIMPLE)
    | 15 => some (P.CRYPTO_PUBLICKEYBYTES .SPHINCSSHAKE192FSIMPLE,
        P.CRYPTO_SECRETKEYBYTES .SPHINCSSHAKE192FSIMPLE,
        P.CRYPTO_BYTES .SPHINCSSHAKE192FSIMPLE)
    | 16 => some (P.CRYPTO_PUBLICKEYBYTES .SPHINCSSHAKE192SSIMPLE,
        P.CRYPTO_SECRETKEYBYTES .SPHINCSSHAKE192SSIMPLE,
        P.CRYPTO_BYTES .SPHINCSSHAKE192SSIMPLE)
    | 17 => some (P.CRYPTO_PUBLICKEYBYTES .SPHINCSSHAKE256FSIMPLE,
        P.CRYPTO_SECRETKEYBYTES .SPHINCSSHAKE256FSIMPLE,
        P.CRYPTO_BYTES .SPHINCSSHAKE256FSIMPLE)
    | 18 => some (P.CRYPTO_PUBLICKEYBYTES .SPHINCSSHAKE256SSIMPLE,
        P.CRYPTO_SECRETKEYBYTES .SPHINCSSHAKE256SSIMPLE,
        P.CRYPTO_BYTES .SPHINCSSHAKE256SSIMPLE)
    | _ => none
  match lens with
  | some (pk_len, sk_len, sig_len) =>
    { pk_len := pk_len, sk_len := sk_len, sig_len := sig_len
      pk := malloc pk_ok pk_len
      sk := malloc sk_ok sk_len }
  | none => { pk := pk0, sk := sk0, pk_len := 0, sk_len := 0, sig_len := 0 }

/-- The function `dsa_keygen`: the status, and the bytes written to `pk` and to `sk` (`none` in
the `default` case, which writes nothing). -/
def dsa_keygen (P : Provider) (algo : DSA_ALGO) (rnd : Nat) :
    Int × Option (List Byte × List Byte) :=
  match scheme_of algo with
  | some s =>
    let r := P.crypto_sign_keypair s rnd
    (r.1, some (r.2.1, r.2.2))
  | none => (-1, none)

/-- The content of the buffer `buf` after the signature library wrote `bytes` to its start. The
library is given buffers of the sizes its `api.h` asks for and stays inside them. -/
def lib_write (buf bytes : List Byte) : List Byte := bytes ++ buf.drop bytes.length

/-- Writing `bytes` to the start of the buffer `buf`; past its end is a fault. -/
def write_buf (buf bytes : List Byte) : Except Fault (List Byte) :=
  if buf.length < bytes.length then .error .outOfBounds else .ok (memcpy buf 0 bytes)

/-- The loop `while(!isMessageReceived)` around `xQueueReceive(receive_queue, &messageReceived,
pdMS_TO_TICKS(1000))` that takes whatever frame comes first: the frame and the poll results that
follow it, or `none` when every poll of the list times out (the loop is then still running). -/
def wait_frame : List (Option message_struct_t) →
    Option (message_struct_t × List (Option message_struct_t))
  | [] => none
  | none :: polls => wait_frame polls
  | some messageReceived :: polls => some (messageReceived, polls)

/-- What the signer gets from outside during one `test_dsa_Alice`: the outcome of the four
allocations (`pk`, `sk`, `signed_message`, the scratch buffer of `crypto_sign_message`) and the
random bytes of key generation and signing. -/
structure AliceEnv where
  pk_ok : Bool
  sk_ok : Bool
  rnd_keygen : Nat
  sm_ok : Bool
  scratch_ok : Bool
  rnd_sign : Nat
  deriving DecidableEq, Repr

/-- What a run of `test_dsa_Alice` over a finite list of poll results leaves behind: the value
returned (`none` while it is still in its wait loop), the calls of `send_message` in order, and
the poll results it did not get to. -/
structure AliceOut where
  ret : Option Bool
  sent : List SendCall
  rest : List (Option message_struct_t)
  deriving DecidableEq, Repr

/-- The function `test_dsa_Alice`. Each element of `polls` is the result of one
`xQueueReceive` with the 1000 ms timeout: a frame, or `none` for a timeout. -/
def test_dsa_Alice (P : Provider) (e : AliceEnv) (algo : DSA_ALGO)
    (polls : List (Option message_struct_t)) : Except Fault AliceOut :=
  let ks := alloc_space_for_dsa P e.pk_ok e.sk_ok algo none none
  match ks.pk, ks.sk with
  | some pk, some sk =>
    if ks.pk_len = 0 ∨ ks.sk_len = 0 ∨ ks.sig_len = 0 then
      .ok { ret := some false, sent := [], rest := polls }
    else
      -- Generate key: dsa_keygen writes the pair to pk and sk
      let kg := dsa_keygen P algo e.rnd_keygen
      let pk1 := lib_write pk ((kg.2.map Prod.fst).getD [])
      let sk1 := lib_write sk ((kg.2.map Prod.snd).getD [])
      if kg.1 ≠ 0 then .ok { ret := some false, sent := [], rest := polls }
      else
        -- Send pk
        let sent_pk : SendCall := { data := pk1, length := ks.pk_len }
        -- Sign message
        match malloc e.sm_ok (strlen message + ks.sig_len) with
        | none => .ok { ret := some false, sent := [sent_pk], rest := polls }
        | some signed_message =>
          match crypto_sign_message P e.scratch_ok e.rnd_sign message (strlen message) sk1 algo with
          | .error f => .error f
          | .ok so =>
            -- the three memcpy of crypto_sign_message go to signed_message
            match write_buf signed_message so.sm with
            | .error f => .error f
            | .ok signed_message1 =>
              if so.ret ≠ 0 then .ok { ret := some false, sent := [sent_pk], rest := polls }
              else
                let actual_sm_size := so.smlen.getD (strlen message + ks.sig_len)
                -- Send signed message
                let sent_sm : SendCall := { data := signed_message1, length := actual_sm_size }
                -- Wait for message
                match wait_frame polls with
                | none => .ok { ret := none, sent := [sent_pk, sent_sm], rest := [] }
                | some (messageReceived, rest) =>
                  -- Verify message
                  if strlen message ≠ messageReceived.size
                      ∨ memcmp message messageReceived.content messageReceived.size ≠ 0 then
                    .ok { ret := some false, sent := [sent_pk, sent_sm], rest := rest }
                  else
                    .ok { ret := some true, sent := [sent_pk, sent_sm], rest := rest }
  | _, _ => .ok { ret := some false, sent := [], rest := polls }

/-- The first loop of `test_dsa_Bob`: frames of another size than `pk_len` are freed; the result
is the first frame of that size and the poll results that follow it, or `none` when no such frame
is in the list (the loop is then still running). -/
def wait_pk (pk_len : Nat) : List (Option message_struct_t) →
    Option (message_struct_t × List (Option message_struct_t))
  | [] => none
  | none :: polls => wait_pk pk_len polls
  | some messageReceived :: polls =>
    if messageReceived.size = pk_len then some (messageReceived, polls)
    else wait_pk pk_len polls

/-- What the verifier gets from outside during one `test_dsa_Bob`: the outcome of the two
allocations (`message_to_send`, the scratch buffer of `crypto_open_message`). -/
structure BobEnv where
  msg_ok : Bool
  scratch_ok : Bool
  deriving DecidableEq, Repr

/-- What a run of `test_dsa_Bob` over a finite list of poll results leaves behind: whether it
returned (it is still in one of its wait loops otherwise), the calls of `send_message` in order,
and the poll results it did not get to. -/
structure BobOut where
  returned : Bool
  sent : List SendCall
  rest : List (Option message_struct_t)
  deriving DecidableEq, Repr

/-- The part of `test_dsa_Bob` after its two wait loops (from `// Decrypt message` on), with the
public key `pk` and the frame `signed` that the loops took: the calls of `send_message` it
makes. The copy that `crypto_open_message` makes to `message_to_send` is a fault when it is
longer than the `strlen(message) + 20` bytes of that buffer. -/
def test_dsa_Bob_reply (P : Provider) (e : BobEnv) (algo : DSA_ALGO) (pk : List Byte)
    (signed : message_struct_t) : Except Fault (List SendCall) :=
  let send_failed : SendCall := { data := failed_message, length := strlen failed_message }
  match malloc e.msg_ok (strlen message + 20) with
  | none => .ok [send_failed]
  | some message_to_send =>
    match crypto_open_message P e.scratch_ok signed.content signed.size pk algo with
    | .error f => .error f
    | .ok oo =>
      match write_buf message_to_send (oo.m.getD []) with
      | .error f => .error f
      | .ok message_to_send1 =>
        if oo.ret ≠ 0 then .ok [send_failed]
        else .ok [{ data := message_to_send1, length := oo.mlen }]

/-- The function `test_dsa_Bob`. Each element of `polls` is the result of one `xQueueReceive`
with the 1000 ms timeout: a frame, or `none` for a timeout. -/
def test_dsa_Bob (P : Provider) (e : BobEnv) (algo : DSA_ALGO)
    (polls : List (Option message_struct_t)) : Except Fault BobOut :=
  let pk_len := get_public_key_length P algo
  -- Wait for pk
  match wait_pk pk_len polls with
  | none => .ok { returned := false, sent := [], rest := [] }
  | some (pk_frame, polls1) =>
    -- Wait for signed message
    match wait_frame polls1 with
    | none => .ok { returned := false, sent := [], rest := [] }
    | some (signed, rest) =>
      match test_dsa_Bob_reply P e algo pk_frame.content signed with
      | .error f => .error f
      | .ok sent => .ok { returned := true, sent := sent, rest := rest }

/-- What a run of `test_dsa_alice_bob` leaves behind: whether it got to print
`All algorithms done`, the pass or fail lines it printed (the algorithm and `true` for passed),
the calls of `send_message`, and the poll results it did not get to. -/
structure RunOut where
  finished : Bool
  outcomes : List (DSA_ALGO × Bool)
  sent : List SendCall
  rest : List (Option message_struct_t)
  deriving DecidableEq, Repr

/-- The loop `for(int i = 0; i < num_algorithms; i++)` of `case ALICE` from index `i` on, the
list being the entries `algorithms[i ..]`; `aenv i` is what the `i`-th `test_dsa_Alice` gets
from outside. -/
def alice_catalogue (P : Provider) (aenv : Nat → AliceEnv) :
    Nat → List DSA_ALGO → List (Option message_struct_t) → Except Fault RunOut
  | _, [], polls => .ok { finished := true, outcomes := [], sent := [], rest := polls }
  | i, algo :: algos, polls =>
    match test_dsa_Alice P (aenv i) algo polls with
    | .error f => .error f
    | .ok r =>
      match r.ret with
      | none => .ok { finished := false, outcomes := [], sent := r.sent, rest := r.rest }
      | some passed =>
        match alice_catalogue P aenv (i + 1) algos r.rest with
        | .error f => .error f
        | .ok t =>
          .ok { t with outcomes := (algo, passed) :: t.outcomes, sent := r.sent ++ t.sent }

/-- The loop `for(int i = 0; i < num_algorithms; i++)` of `case BOB` from index `i` on. -/
def bob_catalogue (P : Provider) (benv : Nat → BobEnv) :
    Nat → List DSA_ALGO → List (Option message_struct_t) → Except Fault RunOut
  | _, [], polls => .ok { finished := true, outcomes := [], sent := [], rest := polls }
  | i, algo :: algos, polls =>
    match test_dsa_Bob P (benv i) algo polls with
    | .error f => .error f
    | .ok r =>
      if r.returned then
        match bob_catalogue P benv (i + 1) algos r.rest with
        | .error f => .error f
        | .ok t => .ok { t with sent := r.sent ++ t.sent }
      else .ok { finished := false, outcomes := [], sent := r.sent, rest := r.rest }

/-- The function `test_dsa_alice_bob`: the handshake, then the catalogue in the given role. -/
def test_dsa_alice_bob (P : Provider) (aenv : Nat → AliceEnv) (benv : Nat → BobEnv)
    (role : ROLE) (polls : List (Option message_struct_t)) : Except Fault RunOut :=
  match synchronize role polls with
  | .error f => .error f
  | .ok sync =>
    if sync.returned then
      let run :=
        match role with
        | .ALICE => alice_catalogue P aenv 0 algorithms sync.rest
        | .BOB => bob_catalogue P benv 0 algorithms sync.rest
      match run with
      | .error f => .error f
      | .ok t => .ok { t with sent := sync.sent ++ t.sent }
    else .ok { finished := false, outcomes := [], sent := sync.sent, rest := sync.rest }

/-- A second stand-in for the signature library, whose signatures are two bytes shorter than
`CRYPTO_BYTES`: keys of one byte, `CRYPTO_BYTES = 4`, the signature of `m` under the key `[k]`
is `[k, k + |m|]`. -/
def slackProvider : Provider where
  CRYPTO_PUBLICKEYBYTES := fun _ => 1
  CRYPTO_SECRETKEYBYTES := fun _ => 1
  CRYPTO_BYTES := fun _ => 4
  crypto_sign_keypair := fun _ rnd => (0, [Fin.ofNat rnd], [Fin.ofNat rnd])
  crypto_sign_signature := fun _ _ m sk => (0, [sk.headD 0, sk.headD 0 + Fin.ofNat m.length])
  crypto_sign_verify := fun _ sig m pk =>
    if sig = [pk.headD 0, pk.headD 0 + Fin.ofNat m.length] then 0 else -1
  signature_fits := by intro _ _ _ _; simp

/-- A stand-in for a signature library whose signing fails: `crypto_sign_signature` returns -1
and stores a length of 0; the rest is as in `slackProvider`. -/
def failingSignProvider : Provider where
  CRYPTO_PUBLICKEYBYTES := fun _ => 1
  CRYPTO_SECRETKEYBYTES := fun _ => 1
  CRYPTO_BYTES := fun _ => 4
  crypto_sign_keypair := fun _ rnd => (0, [Fin.ofNat rnd], [Fin.ofNat rnd])
  crypto_sign_signature := fun _ _ _ _ => (-1, [])
  crypto_sign_verify := fun _ _ _ _ => -1
  signature_fits := by intro _ _ _ _; simp

/-- A stand-in for a signature library whose key generation fails for one scheme:
`crypto_sign_keypair` of Falcon-512 returns -1. Public keys have one byte for Falcon-512 and
two bytes for every other scheme; the rest is as in `slackProvider`. -/
def keygenFailProvider : Provider where
  CRYPTO_PUBLICKEYBYTES := fun s => if s = .FALCON512 then 1 else 2
  CRYPTO_SECRETKEYBYTES := fun _ => 1
  CRYPTO_BYTES := fun _ => 4
  crypto_sign_keypair := fun s rnd =>
    if s = .FALCON512 then (-1, [], [])
    else (0, [Fin.ofNat rnd, Fin.ofNat rnd], [Fin.ofNat rnd])
  crypto_sign_signature := fun _ _ m sk => (0, [sk.headD 0, sk.headD 0 + Fin.ofNat m.length])
  crypto_sign_verify := fun _ sig m pk =>
    if sig = [pk.headD 0, pk.headD 0 + Fin.ofNat m.length] then 0 else -1
  signature_fits := by intro _ _ _ _; simp

/-- An environment of the signer in which every allocation succeeds. -/
def AliceEnv.allOk : AliceEnv :=
  { pk_ok := true, sk_ok := true, rnd_keygen := 5, sm_ok := true, scratch_ok := true,
    rnd_sign := 0 }

/-- An environment of the verifier in which every allocation succeeds. -/
def BobEnv.allOk : BobEnv := { msg_ok := true, scratch_ok := true }

/-- The number of frames among a list of poll results. -/
def pending_frames (polls : List (Option message_struct_t)) : Nat :=
  polls.countP Option.isSome

/-- The frame `m` stands in the byte stream `c`: its size is the length of its content and the
big-endian value of two adjacent bytes of `c`, and its content is the bytes that follow them. -/
def Framed (c : List Byte) (m : message_struct_t) : Prop :=
  m.size = m.content.length
    ∧ ∃ (pre post : List Byte) (h0 h1 : Byte),
        c = pre ++ h0 :: h1 :: (m.content ++ post) ∧ m.size = be16 h0 h1

/-- Every allocation and every push succeeds in `E`. -/
def Env.AllOk (E : Env) : Prop :=
  (∀ i n, E.malloc_ok i n = true) ∧ ∀ i, E.queue_ok i = true

/-- The wire encoding of a payload, as `send_message` writes it: the header of its length, then
its bytes. -/
def wire_of (payload : List Byte) : List Byte := frame_hdr payload.length ++ payload

/-- The bytes of the frame in progress that the state of the reassembly loop holds: nothing, one
header byte, or the header and the payload bytes copied so far. -/
def residue (s : MqttState) : List Byte :=
  match s.hdr_bytes with
  | 0 => []
  | 1 => [s.hdr0]
  | _ => s.hdr0 :: s.hdr1 :: (s.msg_buf.getD []).take s.msg_copied

/-- The byte stream that the frames of a queue were read from when nothing was dropped. -/
def stream_of (q : List message_struct_t) : List Byte :=
  (q.map (fun m => frame_hdr m.size ++ m.content)).flatten

/-- The relation between the bytes `c` received so far and the state of the reassembly loop:
every frame in the queue stands in `c`; `c` ends with the part of a frame that the state holds
(nothing, one header byte, or a header and the payload bytes copied so far); and when every
allocation and push succeeds, `c` is exactly the encodings of the queued frames followed by that
part. -/
def CodecInv (E : Env) (c : List Byte) (s : MqttState) : Prop :=
  (∀ m ∈ s.receive_queue, Framed c m)
    ∧ ((s.hdr_bytes = 0 ∧ s.msg_buf = none)
      ∨ (s.hdr_bytes = 1 ∧ s.msg_buf = none ∧ ∃ pre, c = pre ++ [s.hdr0])
      ∨ (s.hdr_bytes = 2 ∧ ∃ buf, s.msg_buf = some buf ∧ buf.length = s.msg_len
          ∧ s.msg_len = be16 s.hdr0 s.hdr1 ∧ s.msg_copied ≤ s.msg_len
          ∧ (s.msg_copied = s.msg_len → s.msg_len = 0)
          ∧ ∃ pre, c = pre ++ s.hdr0 :: s.hdr1 :: buf.take s.msg_copied))
    ∧ (E.AllOk → c = stream_of s.receive_queue ++ residue s)

/-! ## Auxiliary facts -/

/-- The `switch` of `get_signature_length` has the case labels of `scheme_of`. -/
theorem get_signature_length_def (P : Provider) (algo : Nat) :
    get_signature_length P algo
      = match scheme_of algo with
        | some s => P.CRYPTO_BYTES s
        | none => 0 := by
  by_cases ha : algo < 19
  · interval_cases algo <;> rfl
  · obtain ⟨n, rfl⟩ : ∃ n, algo = n + 19 := ⟨algo - 19, by omega⟩
    rfl

/-- The `switch` of `get_public_key_length` has the case labels of `scheme_of`. -/
theorem get_public_key_length_def (P : Provider) (algo : Nat) :
    get_public_key_length P algo
      = match scheme_of algo with
        | some s => P.CRYPTO_PUBLICKEYBYTES s
        | none => 0 := by
  by_cases ha : algo < 19
  · interval_cases algo <;> rfl
  · obtain ⟨n, rfl⟩ : ∃ n, algo = n + 19 := ⟨algo - 19, by omega⟩
    rfl

/-- The `switch` of `get_secret_key_length` has the case labels of `scheme_of`. -/
theorem get_secret_key_length_def (P : Provider) (algo : Nat) :
    get_secret_key_length P algo
      = match scheme_of algo with
        | some s => P.CRYPTO_SECRETKEYBYTES s
        | none => 0 := by
  by_cases ha : algo < 19
  · interval_cases algo <;> rfl
  · obtain ⟨n, rfl⟩ : ∃ n, algo = n + 19 := ⟨algo - 19, by omega⟩
    rfl

/-- The `switch` of `alloc_space_for_dsa` has the case labels of `scheme_of`. -/
theorem alloc_space_for_dsa_def (P : Provider) (pk_ok sk_ok : Bool) (algo : Nat)
    (pk0 sk0 : Option (List Byte)) :
    alloc_space_for_dsa P pk_ok sk_ok algo pk0 sk0
      = match scheme_of algo with
        | some s =>
          { pk_len := P.CRYPTO_PUBLICKEYBYTES s
            sk_len := P.CRYPTO_SECRETKEYBYTES s
            sig_len := P.CRYPTO_BYTES s
            pk := malloc pk_ok (P.CRYPTO_PUBLICKEYBYTES s)
            sk := malloc sk_ok (P.CRYPTO_SECRETKEYBYTES s) }
        | none => { pk := pk0, sk := sk0, pk_len := 0, sk_len := 0, sig_len := 0 } := by
  by_cases ha : algo < 19
  · interval_cases algo <;> rfl
  · obtain ⟨n, rfl⟩ : ∃ n, algo = n + 19 := ⟨algo - 19, by omega⟩
    rfl

theorem be16_eq (h0 h1 : Byte) : be16 h0 h1 = h0.val * 256 + h1.val := by
  unfold be16
  have h := Nat.mul_add_lt_is_or (show h1.val < 2 ^ 8 from h1.isLt) h0.val
  rw [Nat.shiftLeft_eq, Nat.mul_comm, ← h]

theorem be16_lt (h0 h1 : Byte) : be16 h0 h1 < 65536 := by
  rw [be16_eq]
  have := h0.isLt
  have := h1.isLt
  omega

theorem be16_hdr (n : Nat) (hn : n ≤ 65535) :
    be16 (Fin.ofNat (n >>> 8)) (Fin.ofNat (n &&& 0xFF)) = n := by
  rw [be16_eq]
  have h1 : n >>> 8 = n / 256 := by rw [Nat.shiftRight_eq_div_pow]
  have h2 : n &&& 0xFF = n % 256 := by
    have := Nat.and_pow_two_sub_one_eq_mod n 8
    simpa using this
  simp only [Fin.ofNat, Fin.val_mk, h1, h2]
  omega

theorem memcmp_eq_zero (a b : List Byte) (n : Nat) :
    memcmp a b n = 0 ↔ n ≤ a.length ∧ n ≤ b.length ∧ a.take n = b.take n := by
  induction n generalizing a b with
  | zero => simp [memcmp]
  | succ n ih =>
    cases a with
    | nil => simp [memcmp]
    | cons x xs =>
      cases b with
      | nil => simp [memcmp]
      | cons y ys =>
        by_cases hxy : x = y
        · subst hxy
          simp [memcmp, ih]
        · have hv : (x.val : Int) - (y.val : Int) ≠ 0 := by
            intro h
            apply hxy
            apply Fin.ext
            omega
          simp [memcmp, hxy, hv]

theorem strlen_ready : strlen ready_message = 5 := by decide

theorem strlen_ack : strlen ack_message = 3 := by decide

/-- A frame passes the test of `case ALICE` exactly when its payload is `"ready"`. -/
theorem is_ready_frame (f : List Byte) :
    ((frame f).size = strlen ready_message
      ∧ memcmp ready_message (frame f).content (frame f).size = 0)
      ↔ f = [0x72, 0x65, 0x61, 0x64, 0x79] := by
  rw [memcmp_eq_zero, strlen_ready]
  simp only [frame]
  constructor
  · rintro ⟨h5, -, -, ht⟩
    rw [h5] at ht
    rw [← List.take_length f, h5, ← ht]
    rfl
  · rintro rfl
    decide

/-- A frame passes the test of `case BOB` exactly when its payload is `"ack"`. -/
theorem is_ack_frame (f : List Byte) :
    ((frame f).size = strlen ack_message
      ∧ memcmp ack_message (frame f).content (frame f).size = 0)
      ↔ f = [0x61, 0x63, 0x6b] := by
  rw [memcmp_eq_zero, strlen_ack]
  simp only [frame]
  constructor
  · rintro ⟨h3, -, -, ht⟩
    rw [h3] at ht
    rw [← List.take_length f, h3, ← ht]
    rfl
  · rintro rfl
    decide

theorem uart_write_loop_progress (drv : Nat → Nat → Int)
    (hdrv : ∀ i n, 0 < n → 0 < drv i n ∧ drv i n ≤ n) (buf : List Byte) (len : Nat)
    (hbuf : len ≤ buf.length) :
    ∀ (fuel : Nat) (port : UART.Port) (written : Nat), written ≤ len → len - written ≤ fuel →
      ∃ r, UART.uart_write_loop drv fuel port buf len written = .ok r ∧ r.1 = (len : Int)
        ∧ r.2.wire = port.wire ++ (buf.drop written).take (len - written) := by
  intro fuel
  induction fuel with
  | zero =>
    intro port written hw hf
    have : written = len := by omega
    subst this
    unfold UART.uart_write_loop
    simp
  | succ fuel ih =>
    intro port written hw hf
    unfold UART.uart_write_loop
    by_cases hlt : written < len
    · obtain ⟨hpos, hle⟩ := hdrv port.calls (len - written) (by omega)
      have hnn : ¬ drv port.calls (len - written) < 0 := by omega
      simp only [hlt, if_true, hnn, if_false]
      set n := (drv port.calls (len - written)).toNat with hn
      have hn1 : 0 < n := by omega
      have hn2 : n ≤ len - written := by omega
      obtain ⟨r, hr, hr1, hr2⟩ := ih
        { wire := port.wire ++ ((buf.drop written).take (len - written)).take n,
          calls := port.calls + 1 } (written + n) (by omega) (by omega)
      refine ⟨r, hr, hr1, ?_⟩
      rw [hr2]
      simp only [List.append_assoc, List.append_cancel_left_eq]
      rw [List.take_take, min_eq_left hn2]
      have : len - written = n + (len - (written + n)) := by omega
      conv_rhs => rw [this, List.take_add, List.drop_drop]
    · have : written = len := by omega
      subst this
      simp


/-! ## Encoding (C3) -/

/-- C3. For every buffer `data` and every `length` in 0..65535 not beyond the buffer, both
`send_message` hand to their transport the header `[length >> 8, length & 0xFF]` followed by the
first `length` bytes of `data`, and the header decodes to `length`: the MQTT one publishes the
header and then the payload; the UART one, with a driver that takes at least one byte per call
and reports no error, puts the header and then the payload on the wire and returns `length`.
For the payload `[1, 2, 3]` the bytes written are `[0, 3, 1, 2, 3]`. -/
theorem send_message_encodes (data : List Byte) (length : Nat) (hlen : length ≤ 65535)
    (hdata : length ≤ data.length) :
    (∀ (ret1 ret2 : Int) (c : MQTT.Client),
        MQTT.send_message ret1 ret2 c data length
          = .ok (ret2, { published := c.published ++ [frame_hdr length, data.take length] }))
    ∧ (∀ (drv : Nat → Nat → Int) (fuel : Nat) (port : UART.Port),
        (∀ i n, 0 < n → 0 < drv i n ∧ drv i n ≤ n) → 2 ≤ fuel → length ≤ fuel →
        ∃ r, UART.send_message drv fuel port data length = .ok r ∧ r.1 = (length : Int)
          ∧ r.2.wire = port.wire ++ (frame_hdr length ++ data.take length))
    ∧ frame_hdr length = [Fin.ofNat (length >>> 8), Fin.ofNat (length &&& 0xFF)]
    ∧ (∃ h0 h1, frame_hdr length = [h0, h1] ∧ be16 h0 h1 = length)
    ∧ MQTT.send_message 0 0 { published := [] } [0x01, 0x02, 0x03] 3
        = .ok (0, { published := [[0x00, 0x03], [0x01, 0x02, 0x03]] })
    ∧ UART.send_message (fun _ n => (n : Int)) 3 { wire := [], calls := 0 } [0x01, 0x02, 0x03] 3
        = .ok (3, { wire := [0x00, 0x03, 0x01, 0x02, 0x03], calls := 2 }) := by
  have hmod : length % 65536 = length := Nat.mod_eq_of_lt (by omega)
  refine ⟨?_, ?_, rfl, ⟨_, _, rfl, be16_hdr length hlen⟩, by rfl, by rfl⟩
  · intro ret1 ret2 c
    have h2 : ¬ (frame_hdr length).length < 2 := by simp [frame_hdr]
    have h3 : ¬ data.length < length := by omega
    simp [MQTT.send_message, MQTT.esp_mqtt_client_publish, hmod, h2, h3, frame_hdr]
  · intro drv fuel port hdrv hf2 hf
    have hh : (frame_hdr length).length = 2 := by simp [frame_hdr]
    obtain ⟨r1, hr1, -, hw1⟩ := uart_write_loop_progress drv hdrv (frame_hdr length) 2
      (by omega) fuel port 0 (by omega) (by omega)
    obtain ⟨r2, hr2, hv2, hw2⟩ := uart_write_loop_progress drv hdrv data length
      hdata fuel r1.2 0 (by omega) (by omega)
    refine ⟨r2, ?_, hv2, ?_⟩
    · have h2 : ¬ (frame_hdr length).length < 2 := by omega
      have h3 : ¬ data.length < length := by omega
      simp only [UART.send_message, UART.uart_write_all, hmod, h2, h3, if_false, hr1]
      exact hr2
    · rw [hw2, hw1]
      have : List.take 2 (frame_hdr length) = frame_hdr length := by
        rw [← hh, List.take_length]
      simp [this]

/-- C3, at the payload `[0x41, 0x42]` with `length = 2`. -/
theorem send_message_encodes_witness :
    (∀ (ret1 ret2 : Int) (c : MQTT.Client),
        MQTT.send_message ret1 ret2 c [0x41, 0x42] 2
          = .ok (ret2, { published := c.published ++ [frame_hdr 2, [0x41, 0x42]] }))
    ∧ frame_hdr 2 = [0x00, 0x02] :=
  ⟨(send_message_encodes [0x41, 0x42] 2 (by decide) (by decide)).1, by decide⟩

/-! ## Envelopes (C5 to C8) -/

theorem get_signature_length_scheme (P : Provider) (algo : DSA_ALGO) (s : Scheme)
    (hs : scheme_of algo = some s) : get_signature_length P algo = P.CRYPTO_BYTES s := by
  simp [get_signature_length_def, hs]

theorem dsa_signature_some (P : Provider) (algo : DSA_ALGO) (rnd : Nat) (m : List Byte)
    (mlen : Nat) (sk : List Byte) (st : Int) (sig : List Byte)
    (h : dsa_signature P algo rnd m mlen sk = (st, some sig)) :
    sig.length ≤ get_signature_length P algo := by
  unfold dsa_signature at h
  cases hs : scheme_of algo with
  | none => simp [hs] at h
  | some s =>
    simp only [hs, Prod.mk.injEq, Option.some.injEq] at h
    rw [get_signature_length_scheme P algo s hs, ← h.2]
    exact P.signature_fits s rnd (m.take mlen) sk

theorem crypto_sign_message_ok (P : Provider) (rnd : Nat) (m : List Byte) (mlen : Nat)
    (sk : List Byte) (algo : DSA_ALGO) (st : Int) (sig : List Byte) (hm : mlen ≤ m.length)
    (hsig : dsa_signature P algo rnd m mlen sk = (st, some sig)) :
    crypto_sign_message P true rnd m mlen sk algo
      = .ok { ret := 0,
              sm := [Fin.ofNat ((mlen % 65536) >>> 8), Fin.ofNat ((mlen % 65536) &&& 0xFF)]
                      ++ m.take mlen ++ sig,
              smlen := some (2 + mlen + sig.length) } := by
  have hfit := dsa_signature_some P algo rnd m mlen sk st sig hsig
  have h1 : ¬ m.length < mlen := by omega
  have h2 : ¬ get_signature_length P algo < sig.length := by omega
  simp [crypto_sign_message, malloc, hsig, h1, h2]

/-- C5. For every message `m[0 .. mlen)` with `mlen <= 65535` and every signature `sig` that
`dsa_signature` produces for it, `crypto_sign_message` with a successful scratch allocation
returns 0, stores `2 + mlen + siglen` in `*smlen` and writes
`[mlen >> 8, mlen & 0xFF] ++ m ++ sig` to `sm`. -/
theorem crypto_sign_message_envelope (P : Provider) (rnd : Nat) (m : List Byte) (mlen : Nat)
    (sk : List Byte) (algo : DSA_ALGO) (st : Int) (sig : List Byte)
    (hm : mlen ≤ m.length) (hlen : mlen ≤ 65535)
    (hsig : dsa_signature P algo rnd m mlen sk = (st, some sig)) :
    crypto_sign_message P true rnd m mlen sk algo
      = .ok { ret := 0,
              sm := [Fin.ofNat (mlen >>> 8), Fin.ofNat (mlen &&& 0xFF)] ++ m.take mlen ++ sig,
              smlen := some (2 + mlen + sig.length) } := by
  have hmod : mlen % 65536 = mlen := Nat.mod_eq_of_lt (by omega)
  have h := crypto_sign_message_ok P rnd m mlen sk algo st sig hm hsig
  rw [hmod] at h
  exact h

/-- C5, at the two-byte message `[0x68, 0x69]` signed by the stand-in library. -/
theorem crypto_sign_message_envelope_witness :
    crypto_sign_message toyProvider true 0 [0x68, 0x69] 2 [5] FALCON_512
      = .ok { ret := 0, sm := [0x00, 0x02, 0x68, 0x69, 5, 7], smlen := some 6 } :=
  crypto_sign_message_envelope toyProvider 0 [0x68, 0x69] 2 [5] FALCON_512 0 [5, 7]
    (by decide) (by decide) (by rfl)


/-- C6 as stated, with no condition on the allocation or on the size of the signature part, does
not hold. With the allocation succeeding, the envelope `[0, 0, 9, 9, 9]` is in range (empty
message, three signature bytes), but the signature part is longer than the scratch buffer of
`get_signature_length(algo) = 2` bytes and the copy into it runs past its end. With the
allocation failing, `crypto_open_message` returns -1 on the in-range envelope
`[0, 1, 0x41, 5, 6]` and never calls `dsa_verify`, which would accept it. -/
theorem crypto_open_message_split_unconditional_fails :
    ¬ (∀ (P : Provider) (h0 h1 : Byte) (body pk : List Byte) (algo : DSA_ALGO),
        be16 h0 h1 + 2 ≤ (h0 :: h1 :: body).length →
        ∃ o, crypto_open_message P true (h0 :: h1 :: body) (h0 :: h1 :: body).length pk algo
              = .ok o
          ∧ o.verify_calls = [{ sig := body.drop (be16 h0 h1), m := body.take (be16 h0 h1),
                                pk := pk }]
          ∧ (dsa_verify P algo (body.drop (be16 h0 h1)) (body.take (be16 h0 h1)) pk = 0 →
              o.ret = 0 ∧ o.mlen = be16 h0 h1 ∧ o.m = some (body.take (be16 h0 h1))))
    ∧ crypto_open_message toyProvider false [0, 1, 0x41, 5, 6] 5 [5] FALCON_512
        = .ok { ret := -1, mlen := 1, m := none, verify_calls := [] }
    ∧ dsa_verify toyProvider FALCON_512 [5, 6] [0x41] [5] = 0 := by
  refine ⟨?_, by rfl, by rfl⟩
  intro h
  obtain ⟨o, ho, -, -⟩ := h toyProvider 0 0 [9, 9, 9] [5] FALCON_512 (by decide)
  have ho2 : crypto_open_message toyProvider true [0, 0, 9, 9, 9] 5 [5] FALCON_512
      = .error .outOfBounds := by rfl
  have ho3 : (Except.error Fault.outOfBounds : Except Fault OpenOut) = Except.ok o :=
    ho2.symm.trans ho
  cases ho3

theorem crypto_open_message_in_range (P : Provider) (h0 h1 : Byte) (body pk : List Byte)
    (algo : DSA_ALGO) (hrange : be16 h0 h1 ≤ body.length)
    (hfit : body.length - be16 h0 h1 ≤ get_signature_length P algo) :
    crypto_open_message P true (h0 :: h1 :: body) (body.length + 2) pk algo
      = .ok { ret := if dsa_verify P algo (body.drop (be16 h0 h1)) (body.take (be16 h0 h1)) pk < 0
                     then -1 else 0,
              mlen := be16 h0 h1,
              m := if dsa_verify P algo (body.drop (be16 h0 h1)) (body.take (be16 h0 h1)) pk < 0
                   then none else some (body.take (be16 h0 h1)),
              verify_calls := [{ sig := body.drop (be16 h0 h1), m := body.take (be16 h0 h1),
                                 pk := pk }] } := by
  have hs1 : size_sub (body.length + 2) (be16 h0 h1) = body.length + 2 - be16 h0 h1 := by
    unfold size_sub; rw [if_pos (by omega)]
  have hs2 : size_sub (body.length + 2 - be16 h0 h1) 2 = body.length - be16 h0 h1 := by
    unfold size_sub; rw [if_pos (by omega)]; omega
  have hsig : List.take (body.length - be16 h0 h1) (List.drop (be16 h0 h1) body)
      = List.drop (be16 h0 h1) body := by
    apply List.take_of_length_le; simp
  have hc1 : ¬ get_signature_length P algo < body.length - be16 h0 h1 := by omega
  have hc2 : ¬ body.length + 1 + 1 < 2 + be16 h0 h1 + (body.length - be16 h0 h1) := by omega
  simp only [crypto_open_message, malloc, List.length_cons, hs1, hs2, if_true,
    List.length_replicate, hc1, hc2, or_self, if_false]
  have hd : List.drop (2 + be16 h0 h1) (h0 :: h1 :: body) = List.drop (be16 h0 h1) body := by
    rw [Nat.add_comm]; rfl
  have hd2 : List.drop 2 (h0 :: h1 :: body) = body := rfl
  rw [hd, hd2, hsig]
  split <;> rfl

/-- C6, amended. For every envelope `sm` of length `smlen >= 2` whose header value `mlen`
satisfies `mlen + 2 <= smlen` and whose signature part `smlen - 2 - mlen` fits the scratch buffer
of `get_signature_length(algo)` bytes: when the scratch allocation succeeds,
`crypto_open_message` calls `dsa_verify` once, with the message `sm[2 .. 2+mlen)` and the
signature `sm[2+mlen .. smlen)`, and if that call returns a non-negative status it returns 0 with
`*mlen = mlen` and `sm[2 .. 2+mlen)` copied to the output, otherwise -1 with nothing copied; when
the allocation fails it returns -1 without calling `dsa_verify`. -/
theorem crypto_open_message_split (P : Provider) (h0 h1 : Byte) (body pk : List Byte)
    (algo : DSA_ALGO) (hrange : be16 h0 h1 + 2 ≤ (h0 :: h1 :: body).length)
    (hfit : (h0 :: h1 :: body).length - 2 - be16 h0 h1 ≤ get_signature_length P algo) :
    crypto_open_message P true (h0 :: h1 :: body) (h0 :: h1 :: body).length pk algo
      = .ok { ret := if dsa_verify P algo (body.drop (be16 h0 h1)) (body.take (be16 h0 h1)) pk < 0
                     then -1 else 0,
              mlen := be16 h0 h1,
              m := if dsa_verify P algo (body.drop (be16 h0 h1)) (body.take (be16 h0 h1)) pk < 0
                   then none else some (body.take (be16 h0 h1)),
              verify_calls := [{ sig := body.drop (be16 h0 h1), m := body.take (be16 h0 h1),
                                 pk := pk }] }
    ∧ (body.drop (be16 h0 h1)).length = (h0 :: h1 :: body).length - 2 - be16 h0 h1
    ∧ crypto_open_message P false (h0 :: h1 :: body) (h0 :: h1 :: body).length pk algo
      = .ok { ret := -1, mlen := be16 h0 h1, m := none, verify_calls := [] } := by
  simp only [List.length_cons] at hrange hfit
  refine ⟨?_, by simp, by simp [crypto_open_message, malloc]⟩
  have hl : (h0 :: h1 :: body).length = body.length + 2 := rfl
  rw [hl]
  exact crypto_open_message_in_range P h0 h1 body pk algo (by omega) (by omega)

/-- C6 amended, at the envelope `[0, 1, 0x41, 5, 6]` (message `[0x41]`, signature `[5, 6]`). -/
theorem crypto_open_message_split_witness :
    crypto_open_message toyProvider true [0, 1, 0x41, 5, 6] 5 [5] FALCON_512
      = .ok { ret := 0, mlen := 1, m := some [0x41],
              verify_calls := [{ sig := [5, 6], m := [0x41], pk := [5] }] } :=
  (crypto_open_message_split toyProvider 0 1 [0x41, 5, 6] [5] FALCON_512
    (by decide) (by decide)).1

/-- C7. For every algorithm of the catalogue, every key pair and every message `m[0 .. mlen)`
with `mlen <= 65535`: if `dsa_verify` accepts, under `pk`, the signature that `dsa_signature`
makes of the message under `sk`, and the allocations succeed, then `crypto_sign_message` returns 0
and `crypto_open_message`, applied to the envelope and the length it produced, returns 0 and
recovers `mlen` and the bytes `m[0 .. mlen)`. -/
theorem crypto_open_sign_round_trip (P : Provider) (algo : DSA_ALGO) (halgo : algo ∈ algorithms)
    (rnd : Nat) (m pk sk : List Byte) (mlen : Nat) (hm : mlen ≤ m.length) (hlen : mlen ≤ 65535)
    (hverify : ∀ sig, (dsa_signature P algo rnd m mlen sk).2 = some sig →
      dsa_verify P algo sig (m.take mlen) pk = 0) :
    ∃ so n oo, crypto_sign_message P true rnd m mlen sk algo = .ok so ∧ so.ret = 0
      ∧ so.smlen = some n ∧ n = so.sm.length
      ∧ crypto_open_message P true so.sm n pk algo = .ok oo
      ∧ oo.ret = 0 ∧ oo.mlen = mlen ∧ oo.m = some (m.take mlen) := by
  have hs : ∃ s, scheme_of algo = some s := by
    simp only [algorithms, List.mem_cons, List.mem_singleton, List.mem_nil_iff, or_false] at halgo
    rcases halgo with h | h | h | h | h | h | h | h | h | h | h | h | h | h | h | h | h | h | h <;>
      subst h <;> exact ⟨_, rfl⟩
  obtain ⟨s, hs⟩ := hs
  have hsig : dsa_signature P algo rnd m mlen sk
      = ((P.crypto_sign_signature s rnd (m.take mlen) sk).1,
         some (P.crypto_sign_signature s rnd (m.take mlen) sk).2) := by
    simp [dsa_signature, hs]
  set sig := (P.crypto_sign_signature s rnd (m.take mlen) sk).2 with hsigdef
  have hfit := dsa_signature_some P algo rnd m mlen sk _ sig hsig
  have hsign := crypto_sign_message_ok P rnd m mlen sk algo _ sig hm hsig
  rw [Nat.mod_eq_of_lt (show mlen < 65536 by omega)] at hsign
  have hv := hverify sig (by rw [hsig])
  have hb : be16 (Fin.ofNat (mlen >>> 8)) (Fin.ofNat (mlen &&& 0xFF)) = mlen :=
    be16_hdr mlen hlen
  have htl : (m.take mlen).length = mlen := by simp [hm]
  have hopen := crypto_open_message_in_range P (Fin.ofNat (mlen >>> 8))
    (Fin.ofNat (mlen &&& 0xFF)) (m.take mlen ++ sig) pk algo (by rw [hb]; simp [htl])
    (by rw [hb]; simp [htl]; omega)
  rw [hb] at hopen
  have hdrop : List.drop mlen (m.take mlen ++ sig) = sig := by
    rw [List.drop_append_of_le_length (by omega), List.drop_of_length_le (by omega)]
    rfl
  have htake : List.take mlen (m.take mlen ++ sig) = m.take mlen := by
    rw [List.take_append_of_le_length (by omega), List.take_of_length_le (by omega)]
  rw [hdrop, htake, hv] at hopen
  have hl : (m.take mlen ++ sig).length + 2 = 2 + mlen + sig.length := by simp [htl]; omega
  rw [hl] at hopen
  have hopen2 : crypto_open_message P true
      ([Fin.ofNat (mlen >>> 8), Fin.ofNat (mlen &&& 0xFF)] ++ m.take mlen ++ sig)
      (2 + mlen + sig.length) pk algo
      = .ok { ret := 0, mlen := mlen, m := some (m.take mlen),
              verify_calls := [{ sig := sig, m := m.take mlen, pk := pk }] } := by
    simpa using hopen
  refine ⟨_, 2 + mlen + sig.length,
    { ret := 0, mlen := mlen, m := some (m.take mlen),
      verify_calls := [{ sig := sig, m := m.take mlen, pk := pk }] },
    hsign, rfl, rfl, ?_, hopen2, rfl, rfl, rfl⟩
  simp [htl]; omega

/-- C7, at the message `[0x68, 0x69]` and the key pair `([5], [5])` of the stand-in library. -/
theorem crypto_open_sign_round_trip_witness :
    ∃ so n oo, crypto_sign_message toyProvider true 0 [0x68, 0x69] 2 [5] FALCON_512 = .ok so
      ∧ so.ret = 0 ∧ so.smlen = some n ∧ n = so.sm.length
      ∧ crypto_open_message toyProvider true so.sm n [5] FALCON_512 = .ok oo
      ∧ oo.ret = 0 ∧ oo.mlen = 2 ∧ oo.m = some [0x68, 0x69] :=
  crypto_open_sign_round_trip toyProvider FALCON_512 (by decide) 0 [0x68, 0x69] [5] [5] 2
    (by decide) (by decide) (by intro sig h; cases h; rfl)

/-- C8 on the code. The envelope `[0x00, 0x05, 0x41]` of length 3 announces a message of 5 bytes:
`crypto_open_message` does not return a failure status; it computes
`smlen - mlen - 2 = 2^32 - 4` and copies that many bytes into the scratch buffer, past its end.
On an envelope of fewer than 2 bytes it reads the header past the end of the envelope. -/
theorem crypto_open_message_out_of_range :
    size_sub (size_sub 3 (be16 0x00 0x05)) 2 = 4294967292
    ∧ crypto_open_message toyProvider true [0x00, 0x05, 0x41] 3 [5] FALCON_512
        = .error .outOfBounds
    ∧ crypto_open_message toyProvider true [0x00] 1 [5] FALCON_512 = .error .outOfBounds
    ∧ (∀ o : OpenOut, crypto_open_message toyProvider true [0x00, 0x05, 0x41] 3 [5] FALCON_512
        ≠ .ok o) := by
  refine ⟨by decide, by rfl, by rfl, ?_⟩
  intro o h
  have h2 : crypto_open_message toyProvider true [0x00, 0x05, 0x41] 3 [5] FALCON_512
      = .error .outOfBounds := by rfl
  rw [h2] at h
  cases h


/-! ## Handshake (C9, C10) -/

theorem synchronize_ALICE_skip (pre : List (Option (List Byte)))
    (hpre : ∀ f, some f ∈ pre → f ≠ [0x72, 0x65, 0x61, 0x64, 0x79])
    (tail : List (Option message_struct_t)) :
    synchronize_ALICE (pre.map (Option.map frame) ++ tail) = synchronize_ALICE tail := by
  induction pre with
  | nil => rfl
  | cons p pre ih =>
    have ih2 := ih (fun f hf => hpre f (List.mem_cons_of_mem _ hf))
    cases p with
    | none => simpa [synchronize_ALICE] using ih2
    | some f =>
      have hne : f ≠ [0x72, 0x65, 0x61, 0x64, 0x79] := hpre f (List.mem_cons_self _ _)
      have hno := (is_ready_frame f).not.mpr hne
      simp only [List.map_cons, Option.map_some', List.cons_append, synchronize_ALICE, hno,
        if_false]
      exact ih2

/-- C9. For every sequence of results of `xQueueReceive`, `synchronize(ALICE)` frees every frame
whose payload is not the 5 bytes `"ready"` without sending; at the first frame whose payload is
`"ready"` it calls `send_message` once, with the 3 bytes `"ack"`, and returns, so that this is the
only frame it sends and the frames that follow stay in the inbox. While no `"ready"` has come it
sends nothing and stays in its loop. -/
theorem synchronize_ALICE_handshake (pre : List (Option (List Byte)))
    (post : List (Option message_struct_t))
    (hpre : ∀ f, some f ∈ pre → f ≠ [0x72, 0x65, 0x61, 0x64, 0x79]) :
    synchronize .ALICE
        (pre.map (Option.map frame) ++ some (frame [0x72, 0x65, 0x61, 0x64, 0x79]) :: post)
      = .ok { returned := true, sent := [{ data := ack_message, length := 3 }], rest := post }
    ∧ (({ data := ack_message, length := 3 } : SendCall).payload = [0x61, 0x63, 0x6b])
    ∧ synchronize .ALICE (pre.map (Option.map frame))
      = .ok { returned := false, sent := [], rest := [] } := by
  refine ⟨?_, by decide, ?_⟩
  · show Except.ok (synchronize_ALICE _) = _
    rw [synchronize_ALICE_skip pre hpre]
    rfl
  · show Except.ok (synchronize_ALICE _) = _
    have h := synchronize_ALICE_skip pre hpre []
    rw [List.append_nil] at h
    rw [h]
    rfl

/-- C9, at the inbox `"ack"`, timeout, `"ready"`, `"ready"`. -/
theorem synchronize_ALICE_handshake_witness :
    synchronize .ALICE
        [some (frame [0x61, 0x63, 0x6b]), none, some (frame [0x72, 0x65, 0x61, 0x64, 0x79]),
         some (frame [0x72, 0x65, 0x61, 0x64, 0x79])]
      = .ok { returned := true, sent := [{ data := ack_message, length := 3 }],
              rest := [some (frame [0x72, 0x65, 0x61, 0x64, 0x79])] } :=
  (synchronize_ALICE_handshake [some [0x61, 0x63, 0x6b], none]
    [some (frame [0x72, 0x65, 0x61, 0x64, 0x79])]
    (by intro f hf; simp at hf; rw [hf]; decide)).1

/-- On a frame, `printf_s` is defined exactly when the payload holds a NUL. -/
theorem printf_s_frame (f : List Byte) (h : (0 : Byte) ∈ f) :
    printf_s (frame f).content = .ok () := by
  simp [printf_s, frame, h]

/-- A timeout in `synchronize(BOB)`: one `"ready"` is sent and the loop goes on. -/
theorem synchronize_BOB_none (polls : List (Option message_struct_t)) :
    synchronize_BOB (none :: polls)
      = (synchronize_BOB polls).map (fun r =>
          { r with sent := { data := ready_message, length := 5 } :: r.sent }) := by
  simp only [synchronize_BOB]
  cases synchronize_BOB polls <;> rfl

/-- A frame other than `"ack"` in `synchronize(BOB)`, printed without a fault: one `"ready"` is
sent and the loop goes on. -/
theorem synchronize_BOB_other (m : message_struct_t) (polls : List (Option message_struct_t))
    (hno : ¬ (m.size = strlen ack_message ∧ memcmp ack_message m.content m.size = 0))
    (hp : printf_s m.content = .ok ()) :
    synchronize_BOB (some m :: polls)
      = (synchronize_BOB polls).map (fun r =>
          { r with sent := { data := ready_message, length := 5 } :: r.sent }) := by
  simp only [synchronize_BOB, hno, if_false, hp]
  cases synchronize_BOB polls <;> rfl

theorem synchronize_BOB_skip (pre : List (Option (List Byte)))
    (hpre : ∀ f, some f ∈ pre → f ≠ [0x61, 0x63, 0x6b])
    (hnul : ∀ f, some f ∈ pre → (0 : Byte) ∈ f)
    (tail : List (Option message_struct_t)) :
    synchronize_BOB (pre.map (Option.map frame) ++ tail)
      = (synchronize_BOB tail).map (fun r =>
          { r with
            sent := List.replicate pre.length { data := ready_message, length := 5 }
                      ++ r.sent }) := by
  induction pre with
  | nil =>
    simp only [List.map_nil, List.nil_append]
    cases synchronize_BOB tail <;> simp [Except.map]
  | cons p pre ih =>
    have ih2 := ih (fun f hf => hpre f (List.mem_cons_of_mem _ hf))
      (fun f hf => hnul f (List.mem_cons_of_mem _ hf))
    cases p with
    | none =>
      simp only [List.map_cons, Option.map_none', List.cons_append]
      rw [synchronize_BOB_none, ih2]
      cases synchronize_BOB tail <;> simp [Except.map, List.replicate_succ]
    | some f =>
      have hne : f ≠ [0x61, 0x63, 0x6b] := hpre f (List.mem_cons_self _ _)
      have hno := (is_ack_frame f).not.mpr hne
      have hpr := printf_s_frame f (hnul f (List.mem_cons_self _ _))
      simp only [List.map_cons, Option.map_some', List.cons_append]
      rw [synchronize_BOB_other _ _ hno hpr, ih2]
      cases synchronize_BOB tail <;> simp [Except.map, List.replicate_succ]

/-- C10. For every sequence of results of the 3000 ms `xQueueReceive` in which each frame that
comes before the first `"ack"` holds a NUL byte, `synchronize(BOB)` returns at the first frame
whose payload is the 3 bytes `"ack"` and sends nothing at or after that poll; for each earlier
poll, a timeout or any other frame, it calls `send_message` exactly once, with the 5 bytes
`"ready"`; while no `"ack"` has come it stays in its loop. For a frame without a NUL byte this
fails: such a frame is printed with `%s` before it is freed, which reads past the end of its
buffer; so it is for the frame `[5, 5]` followed by `"ack"`. -/
theorem synchronize_BOB_handshake (pre : List (Option (List Byte)))
    (post : List (Option message_struct_t))
    (hpre : ∀ f, some f ∈ pre → f ≠ [0x61, 0x63, 0x6b])
    (hnul : ∀ f, some f ∈ pre → (0 : Byte) ∈ f) :
    synchronize .BOB (pre.map (Option.map frame) ++ some (frame [0x61, 0x63, 0x6b]) :: post)
      = .ok { returned := true,
              sent := List.replicate pre.length { data := ready_message, length := 5 },
              rest := post }
    ∧ (({ data := ready_message, length := 5 } : SendCall).payload
        = [0x72, 0x65, 0x61, 0x64, 0x79])
    ∧ synchronize .BOB (pre.map (Option.map frame))
      = .ok { returned := false,
              sent := List.replicate pre.length { data := ready_message, length := 5 },
              rest := [] }
    ∧ synchronize .BOB [some (frame [5, 5]), some (frame [0x61, 0x63, 0x6b])]
      = .error .outOfBounds := by
  refine ⟨?_, by decide, ?_, by rfl⟩
  · show synchronize_BOB _ = _
    rw [synchronize_BOB_skip pre hpre hnul]
    have : synchronize_BOB (some (frame [0x61, 0x63, 0x6b]) :: post)
        = .ok { returned := true, sent := [], rest := post } := by rfl
    rw [this]
    simp [Except.map]
  · show synchronize_BOB _ = _
    have h := synchronize_BOB_skip pre hpre hnul []
    rw [List.append_nil] at h
    rw [h]
    simp [synchronize_BOB, Except.map]

/-- C10, at the polls timeout, the frame `[0x72, 0x00]`, `"ack"`, `"ack"`. -/
theorem synchronize_BOB_handshake_witness :
    synchronize .BOB
        [none, some (frame [0x72, 0x00]), some (frame [0x61, 0x63, 0x6b]),
         some (frame [0x61, 0x63, 0x6b])]
      = .ok { returned := true,
              sent := [{ data := ready_message, length := 5 },
                       { data := ready_message, length := 5 }],
              rest := [some (frame [0x61, 0x63, 0x6b])] } :=
  (synchronize_BOB_handshake [none, some [0x72, 0x00]]
    [some (frame [0x61, 0x63, 0x6b])]
    (by intro f hf; simp at hf; rw [hf]; decide)
    (by intro f hf; simp at hf; rw [hf]; decide)).1


/-! ## Reassembly (C1, C2, C4) -/

theorem Framed.append {c : List Byte} {m : message_struct_t} (h : Framed c m) (d : List Byte) :
    Framed (c ++ d) m := by
  obtain ⟨hs, pre, post, h0, h1, hc, hv⟩ := h
  exact ⟨hs, pre, post ++ d, h0, h1, by simp [hc], hv⟩

theorem memcpy_length (dst : List Byte) (off : Nat) (src : List Byte)
    (h : off + src.length ≤ dst.length) : (memcpy dst off src).length = dst.length := by
  simp [memcpy]
  omega

theorem memcpy_take (dst : List Byte) (off : Nat) (src : List Byte)
    (h : off + src.length ≤ dst.length) :
    (memcpy dst off src).take (off + src.length) = dst.take off ++ src := by
  have h1 : (dst.take off ++ src).length = off + src.length := by simp; omega
  unfold memcpy
  rw [List.take_append_of_le_length (by omega), List.take_of_length_le (by omega)]

theorem frame_hdr_be16 (h0 h1 : Byte) : frame_hdr (be16 h0 h1) = [h0, h1] := by
  have e0 := h0.isLt
  have e1 := h1.isLt
  have hs : (be16 h0 h1) >>> 8 = h0.val := by
    rw [be16_eq, Nat.shiftRight_eq_div_pow]; omega
  have ha : (be16 h0 h1) &&& 0xFF = h1.val := by
    have := Nat.and_pow_two_sub_one_eq_mod (be16 h0 h1) 8
    rw [be16_eq] at this ⊢
    simp only [Nat.reducePow, Nat.add_one_sub_one] at this
    omega
  simp only [frame_hdr, hs, ha]
  congr 1
  · apply Fin.ext; simp [Fin.ofNat, Nat.mod_eq_of_lt e0]
  · congr 1
    apply Fin.ext; simp [Fin.ofNat, Nat.mod_eq_of_lt e1]

theorem CodecInv_init (E : Env) : CodecInv E [] MqttState.init :=
  ⟨by simp [MqttState.init], Or.inl ⟨rfl, rfl⟩, fun _ => rfl⟩

theorem data_loop_nil (E : Env) (fuel : Nat) (s : MqttState) :
    data_loop E fuel s [] = .ok s := by
  cases fuel <;> rfl

theorem data_loop_payload (E : Env) (fuel : Nat) (s : MqttState) (b : Byte)
    (rest buf : List Byte) (to_copy : Nat)
    (htc : to_copy = min (s.msg_len - s.msg_copied) (b :: rest).length)
    (h2 : 2 ≤ s.hdr_bytes) (hcl : s.msg_copied ≤ s.msg_len) (hb : s.msg_buf = some buf)
    (hfit : s.msg_copied + to_copy ≤ buf.length) :
    data_loop E (fuel + 1) s (b :: rest)
      = if s.msg_copied + to_copy = s.msg_len then
          data_loop E fuel
            { s with
              msg_buf := none, msg_copied := 0, hdr_bytes := 0, msg_len := 0,
              sends := s.sends + 1,
              receive_queue :=
                if E.queue_ok s.sends then
                  s.receive_queue
                    ++ [{ content := memcpy buf s.msg_copied ((b :: rest).take to_copy),
                          size := s.msg_len }]
                else s.receive_queue }
            ((b :: rest).drop to_copy)
        else
          data_loop E fuel
            { s with msg_buf := some (memcpy buf s.msg_copied ((b :: rest).take to_copy)),
                     msg_copied := s.msg_copied + to_copy }
            ((b :: rest).drop to_copy) := by
  subst htc
  have h1 : ¬ s.hdr_bytes < 2 := by omega
  have h3 : ¬ s.msg_len < s.msg_copied := by omega
  have h4 : ¬ buf.length < s.msg_copied + min (s.msg_len - s.msg_copied) (b :: rest).length := by
    omega
  simp only [data_loop, h1, h3, hb, h4, if_false]

theorem data_loop_inv (E : Env) :
    ∀ (fuel : Nat) (s : MqttState) (data c : List Byte), CodecInv E c s →
      2 * data.length + (if s.hdr_bytes = 2 then 1 else 0) ≤ fuel →
      ∃ s1, data_loop E fuel s data = .ok s1 ∧ CodecInv E (c ++ data) s1 := by
  intro fuel
  induction fuel with
  | zero =>
    intro s data c hinv hf
    have : data = [] := by
      cases data with
      | nil => rfl
      | cons b rest => simp at hf
    subst this
    exact ⟨s, rfl, by simpa using hinv⟩
  | succ fuel ih =>
    intro s data c hinv hf
    cases data with
    | nil => exact ⟨s, rfl, by simpa using hinv⟩
    | cons b rest =>
      obtain ⟨hq, hst, hex⟩ := hinv
      rcases hst with ⟨h0, hb⟩ | ⟨h1, hb, pre, hc⟩ | ⟨h2, buf, hb, hbl, hlen, hcl, hz, pre, hc⟩
      · -- first header byte
        simp only [h0, if_neg (by decide : ¬ (0 : Nat) = 2), List.length_cons] at hf
        have := ih { s with hdr0 := b, hdr_bytes := 1 } rest (c ++ [b])
          ⟨fun m hm => (hq m hm).append _, Or.inr (Or.inl ⟨rfl, hb, c, rfl⟩),
           fun ha => by
            have hx := hex ha
            simp only [residue, h0, List.append_nil] at hx
            simp [residue, ← hx]⟩
          (by simp; omega)
        obtain ⟨s1, hs1, hi1⟩ := this
        refine ⟨s1, ?_, by simpa using hi1⟩
        rw [← hs1]
        simp [data_loop, h0]
      · -- second header byte
        simp only [h1, if_neg (by decide : ¬ (1 : Nat) = 2), List.length_cons] at hf
        cases hm : E.malloc_ok s.mallocs (be16 s.hdr0 b) with
        | false =>
          refine ⟨_, by simp [data_loop, h1, malloc, hm]; rfl, ?_⟩
          refine ⟨fun m hm => (hq m hm).append _, Or.inl ⟨rfl, rfl⟩, fun ha => ?_⟩
          have hx := ha.1 s.mallocs (be16 s.hdr0 b)
          rw [hm] at hx
          cases hx
        | true =>
          have := ih { s with hdr1 := b, hdr_bytes := 2, msg_len := be16 s.hdr0 b,
                              msg_buf := some (List.replicate (be16 s.hdr0 b) 0),
                              mallocs := s.mallocs + 1, msg_copied := 0 } rest (c ++ [b])
            ⟨fun m hm => (hq m hm).append _, Or.inr (Or.inr ⟨rfl, _, rfl, by simp, rfl,
              Nat.zero_le _, fun h => h.symm, pre, by simp [hc]⟩),
             fun ha => by
              have hx := hex ha
              simp only [residue, h1] at hx
              simp [residue, hx]⟩
            (by simp; omega)
          obtain ⟨s1, hs1, hi1⟩ := this
          refine ⟨s1, ?_, by simpa using hi1⟩
          rw [← hs1]
          simp [data_loop, h1, malloc, hm]
      · -- payload bytes
        simp only [h2, if_true, List.length_cons] at hf
        obtain ⟨to_copy, htc⟩ : ∃ t, t = min (s.msg_len - s.msg_copied) (b :: rest).length :=
          ⟨_, rfl⟩
        have hl : (b :: rest).length = rest.length + 1 := rfl
        have htc1 : to_copy ≤ s.msg_len - s.msg_copied := by rw [htc]; exact min_le_left _ _
        have htc2 : to_copy ≤ rest.length + 1 := by rw [htc]; exact min_le_right _ _
        have htc3 : to_copy = s.msg_len - s.msg_copied ∨ to_copy = rest.length + 1 := by
          rw [htc, hl]; omega
        have hsrc : ((b :: rest).take to_copy).length = to_copy := by
          rw [List.length_take, hl]; omega
        have hfit : s.msg_copied + to_copy ≤ buf.length := by omega
        have hbuf1 := memcpy_take buf s.msg_copied ((b :: rest).take to_copy)
          (by rw [hsrc]; exact hfit)
        rw [hsrc] at hbuf1
        have hlen1 := memcpy_length buf s.msg_copied ((b :: rest).take to_copy)
          (by rw [hsrc]; exact hfit)
        have hcsplit : c ++ b :: rest
            = (c ++ (b :: rest).take to_copy) ++ (b :: rest).drop to_copy := by
          rw [List.append_assoc, List.take_append_drop]
        rw [data_loop_payload E fuel s b rest buf to_copy htc (by omega) hcl hb hfit]
        by_cases hdone : s.msg_copied + to_copy = s.msg_len
        · -- the frame is complete
          rw [if_pos hdone]
          have hfull : memcpy buf s.msg_copied ((b :: rest).take to_copy)
              = buf.take s.msg_copied ++ (b :: rest).take to_copy := by
            have hall := List.take_of_length_le
              (show (memcpy buf s.msg_copied ((b :: rest).take to_copy)).length
                ≤ s.msg_copied + to_copy by omega)
            rw [hall] at hbuf1
            exact hbuf1
          have hframed : Framed (c ++ (b :: rest).take to_copy)
              { content := memcpy buf s.msg_copied ((b :: rest).take to_copy),
                size := s.msg_len } := by
            refine ⟨?_, pre, [], s.hdr0, s.hdr1, ?_, hlen⟩
            · show s.msg_len = (memcpy buf s.msg_copied ((b :: rest).take to_copy)).length
              omega
            · show c ++ (b :: rest).take to_copy = pre ++ s.hdr0 :: s.hdr1
                  :: (memcpy buf s.msg_copied ((b :: rest).take to_copy) ++ [])
              rw [hfull, hc]
              simp
          have hlen2 : ((b :: rest).drop to_copy).length ≤ rest.length + 1 := by
            rw [List.length_drop, hl]; omega
          have hq2 : ∀ m ∈ (if E.queue_ok s.sends = true then
                s.receive_queue
                  ++ [{ content := memcpy buf s.msg_copied ((b :: rest).take to_copy),
                        size := s.msg_len }]
              else s.receive_queue), Framed (c ++ (b :: rest).take to_copy) m := by
            intro m hm
            split at hm
            · rcases List.mem_append.mp hm with hm | hm
              · exact (hq m hm).append _
              · rw [List.mem_singleton.mp hm]; exact hframed
            · exact (hq m hm).append _
          obtain ⟨s1, hs1, hi1⟩ := ih
            { s with
              msg_buf := none, msg_copied := 0, hdr_bytes := 0, msg_len := 0,
              sends := s.sends + 1,
              receive_queue :=
                if E.queue_ok s.sends then
                  s.receive_queue
                    ++ [{ content := memcpy buf s.msg_copied ((b :: rest).take to_copy),
                          size := s.msg_len }]
                else s.receive_queue }
            ((b :: rest).drop to_copy) (c ++ (b :: rest).take to_copy)
            ⟨hq2, Or.inl ⟨rfl, rfl⟩, fun ha => by
              have hx := hex ha
              simp only [residue, h2, hb, Option.getD_some] at hx
              have hh : frame_hdr s.msg_len = [s.hdr0, s.hdr1] := by
                rw [hlen]; exact frame_hdr_be16 _ _
              simp only [ha.2 s.sends, if_true, residue, stream_of, List.map_append,
                List.flatten_append, List.map_cons, List.map_nil, List.flatten_cons,
                List.flatten_nil, List.append_nil, hfull, hh]
              rw [hx]
              simp [stream_of]⟩
            (by simp only [if_neg (by decide : ¬ (0 : Nat) = 2)]; omega)
          exact ⟨s1, hs1, by rw [hcsplit]; exact hi1⟩
        · -- the chunk ends inside the payload
          rw [if_neg hdone]
          have htc4 : to_copy = rest.length + 1 := by omega
          have hdrop : (b :: rest).drop to_copy = [] := by
            apply List.drop_of_length_le; rw [hl]; omega
          have htake : (b :: rest).take to_copy = b :: rest := by
            apply List.take_of_length_le; rw [hl]; omega
          rw [hdrop]
          refine ⟨_, data_loop_nil E fuel _, ?_⟩
          refine ⟨fun m hm => (hq m hm).append _, Or.inr (Or.inr ⟨h2, _, rfl, ?_, hlen,
              ?_, fun h => absurd h hdone, pre, ?_⟩), fun ha => ?_⟩
          · show (memcpy buf s.msg_copied ((b :: rest).take to_copy)).length = s.msg_len
            omega
          · show s.msg_copied + to_copy ≤ s.msg_len
            omega
          · show c ++ b :: rest = pre ++ s.hdr0 :: s.hdr1
                :: (memcpy buf s.msg_copied ((b :: rest).take to_copy)).take
                    (s.msg_copied + to_copy)
            rw [hbuf1, htake, hc]
            simp
          · have hx := hex ha
            simp only [residue, h2, hb, Option.getD_some] at hx
            simp only [residue, h2, Option.getD_some]
            rw [hbuf1, htake, hx]
            simp

theorem mqtt_run_inv (E : Env) (chunks : List (List Byte)) :
    ∀ (s : MqttState) (c : List Byte), CodecInv E c s →
      ∃ s1, mqtt_run E s (chunks.map MQTT_EVENT_DATA) = .ok s1
        ∧ CodecInv E (c ++ chunks.flatten) s1 := by
  induction chunks with
  | nil => intro s c h; exact ⟨s, rfl, by simpa using h⟩
  | cons d ds ih =>
    intro s c h
    obtain ⟨s1, hs1, hi1⟩ := data_loop_inv E (2 * d.length + 1) s d c h (by split <;> omega)
    obtain ⟨s2, hs2, hi2⟩ := ih s1 (c ++ d) hi1
    refine ⟨s2, ?_, by simpa using hi2⟩
    simp only [List.map_cons, mqtt_run, mqtt_event_handler, hs1]
    exact hs2

/-- C2. From the empty state, for every byte stream, every way of cutting it into data events and
every outcome of the allocations and pushes, the reassembly loop ends without a fault, and every
frame it has put in the inbox has a size equal to the length of its content and to the big-endian
value of two adjacent bytes of the stream, its content being exactly the bytes that follow these
two bytes in the stream. In particular (all allocations and pushes succeeding) no frame is in the
inbox after `[0x00, 0x03, 0x01]`, and exactly the frame `[0x01, 0x02, 0x03]` after a further
`[0x02, 0x03]`. -/
theorem no_partial_frame_exposed (E : Env) (chunks : List (List Byte)) :
    (∃ s, mqtt_run E MqttState.init (chunks.map MQTT_EVENT_DATA) = .ok s
      ∧ ∀ m ∈ s.receive_queue, m.size = m.content.length
          ∧ ∃ (pre post : List Byte) (h0 h1 : Byte),
              chunks.flatten = pre ++ h0 :: h1 :: (m.content ++ post) ∧ m.size = be16 h0 h1)
    ∧ (mqtt_run Env.allOk MqttState.init [MQTT_EVENT_DATA [0x00, 0x03, 0x01]]).map
        (fun s => s.receive_queue) = .ok []
    ∧ (mqtt_run Env.allOk MqttState.init
          [MQTT_EVENT_DATA [0x00, 0x03, 0x01], MQTT_EVENT_DATA [0x02, 0x03]]).map
        (fun s => s.receive_queue) = .ok [{ content := [0x01, 0x02, 0x03], size := 3 }] := by
  refine ⟨?_, by rfl, by rfl⟩
  obtain ⟨s, hs, hq, -⟩ := mqtt_run_inv E chunks MqttState.init [] (CodecInv_init E)
  exact ⟨s, hs, by simpa [Framed] using hq⟩


theorem wire_of_length (p : List Byte) : (wire_of p).length = p.length + 2 := by
  simp [wire_of, frame_hdr]

theorem frame_hdr_inj (a b : Nat) (ha : a ≤ 65535) (hb : b ≤ 65535)
    (h : frame_hdr a = frame_hdr b) : a = b := by
  have h1 := be16_hdr a ha
  have h2 := be16_hdr b hb
  simp only [frame_hdr, List.cons.injEq, and_true] at h
  rw [h.1, h.2] at h1
  omega

/-- A stream of encoded payloads that starts with the encodings of the frames `q` starts with
the payloads of `q`. -/
theorem parse_unique (q : List message_struct_t) :
    ∀ (ps : List (List Byte)) (r : List Byte),
      (∀ m ∈ q, m.size = m.content.length ∧ m.size ≤ 65535) →
      (∀ p ∈ ps, p.length ≤ 65535) →
      stream_of q ++ r = (ps.map wire_of).flatten →
      ∃ ps2, ps = q.map (fun m => m.content) ++ ps2 ∧ r = (ps2.map wire_of).flatten := by
  induction q with
  | nil => intro ps r _ _ h; exact ⟨ps, rfl, by simpa [stream_of] using h⟩
  | cons m q ih =>
    intro ps r hq hps h
    obtain ⟨hm1, hm2⟩ := hq m (List.mem_cons_self _ _)
    cases ps with
    | nil =>
      have hl := congrArg List.length h
      simp [stream_of, frame_hdr] at hl
    | cons p ps =>
      have hp := hps p (List.mem_cons_self _ _)
      have h2 : frame_hdr m.size ++ (m.content ++ (stream_of q ++ r))
          = frame_hdr p.length ++ (p ++ (ps.map wire_of).flatten) := by
        simpa [stream_of, wire_of] using h
      obtain ⟨hh, ht⟩ := List.append_inj h2 (by simp [frame_hdr])
      have hsz : m.size = p.length := frame_hdr_inj _ _ hm2 hp hh
      obtain ⟨hc, ht2⟩ := List.append_inj ht (by omega)
      obtain ⟨ps2, hps2, hr⟩ := ih ps r (fun x hx => hq x (List.mem_cons_of_mem _ hx))
        (fun x hx => hps x (List.mem_cons_of_mem _ hx)) ht2
      exact ⟨ps2, by simp [hc, hps2], hr⟩

theorem flatten_wire_eq_nil (ps : List (List Byte)) (h : (ps.map wire_of).flatten = []) :
    ps = [] := by
  cases ps with
  | nil => rfl
  | cons p ps =>
    have hl := congrArg List.length h
    simp [wire_of, frame_hdr] at hl

/-- When the part of a frame that the state holds is a sequence of whole encoded payloads, it is
empty, or it is the header of one empty payload. -/
theorem residue_parse (E : Env) (c : List Byte) (s : MqttState) (hinv : CodecInv E c s)
    (ps : List (List Byte)) (hps : ∀ p ∈ ps, p.length ≤ 65535)
    (h : residue s = (ps.map wire_of).flatten) :
    (ps = [] ∧ s.hdr_bytes = 0 ∧ s.msg_buf = none) ∨ (ps = [[]] ∧ s.hdr_bytes = 2) := by
  obtain ⟨-, hst, -⟩ := hinv
  rcases hst with ⟨h0, hb⟩ | ⟨h1, -, -⟩ | ⟨h2, buf, hb, hbl, hlen, hcl, hz, -⟩
  · simp only [residue, h0] at h
    exact Or.inl ⟨flatten_wire_eq_nil ps h.symm, h0, hb⟩
  · simp only [residue, h1] at h
    cases ps with
    | nil => simp at h
    | cons p ps =>
      have hl := congrArg List.length h
      simp [wire_of, frame_hdr] at hl
  · simp only [residue, h2, hb, Option.getD_some] at h
    cases ps with
    | nil => simp at h
    | cons p ps =>
      have hp := hps p (List.mem_cons_self _ _)
      have h3 : [s.hdr0, s.hdr1] ++ buf.take s.msg_copied
          = frame_hdr p.length ++ (p ++ (ps.map wire_of).flatten) := by
        simpa [wire_of] using h
      obtain ⟨hh, ht⟩ := List.append_inj h3 (by simp [frame_hdr])
      have hv : be16 s.hdr0 s.hdr1 = p.length := by
        have := be16_hdr p.length hp
        simp only [frame_hdr, List.cons.injEq, and_true] at hh
        rw [← hh.1, ← hh.2] at this
        exact this
      have hl := congrArg List.length ht
      simp only [List.length_take, List.length_append] at hl
      have hpz : p.length = 0 := by
        have : s.msg_copied = s.msg_len := by omega
        have := hz this
        omega
      have hrest : (ps.map wire_of).flatten = [] := by
        apply List.eq_nil_of_length_eq_zero
        have : s.msg_copied = 0 := by omega
        omega
      refine Or.inr ⟨?_, h2⟩
      rw [flatten_wire_eq_nil ps hrest, List.eq_nil_of_length_eq_zero hpz]

theorem map_frame_content (q : List message_struct_t)
    (hq : ∀ m ∈ q, m.size = m.content.length) :
    (q.map (fun m => m.content)).map frame = q := by
  induction q with
  | nil => rfl
  | cons m q ih =>
    have hm := hq m (List.mem_cons_self _ _)
    simp only [List.map_cons, ih (fun x hx => hq x (List.mem_cons_of_mem _ hx))]
    congr 1
    cases m
    simp only [frame] at hm ⊢
    simp [hm]

/-- The framing round trip that the reassembly loop does provide. For every sequence of payloads
of at most 65535 bytes and every way of cutting the concatenation of their encodings into data
events, with every allocation and push succeeding, the loop, started in the empty state, ends
without a fault in one of two ways: back in the empty state with exactly the payloads in the
inbox, in order; or, when the last payload is empty, with `hdr_bytes = 2` and all payloads but
that last one in the inbox. -/
theorem framing_round_trip (E : Env) (hE : E.AllOk) (payloads : List (List Byte))
    (hlen : ∀ p ∈ payloads, p.length ≤ 65535) (chunks : List (List Byte))
    (hchunks : chunks.flatten = (payloads.map wire_of).flatten) :
    ∃ s, mqtt_run E MqttState.init (chunks.map MQTT_EVENT_DATA) = .ok s
      ∧ ((s.hdr_bytes = 0 ∧ s.msg_buf = none ∧ s.receive_queue = payloads.map frame)
        ∨ (s.hdr_bytes = 2 ∧ ∃ front, payloads = front ++ [[]]
            ∧ s.receive_queue = front.map frame)) := by
  obtain ⟨s, hs, hinv⟩ := mqtt_run_inv E chunks MqttState.init [] (CodecInv_init E)
  refine ⟨s, hs, ?_⟩
  have hinv2 := hinv
  obtain ⟨hq, -, hex⟩ := hinv
  have hx := hex hE
  rw [List.nil_append, hchunks] at hx
  have hq1 : ∀ m ∈ s.receive_queue, m.size = m.content.length ∧ m.size ≤ 65535 := by
    intro m hm
    obtain ⟨h1, -, -, h0, h1', -, hv⟩ := hq m hm
    have := be16_lt h0 h1'
    exact ⟨h1, by omega⟩
  obtain ⟨ps2, hps2, hr⟩ := parse_unique s.receive_queue payloads (residue s) hq1 hlen hx.symm
  have hmf := map_frame_content s.receive_queue (fun m hm => (hq1 m hm).1)
  have hps2len : ∀ p ∈ ps2, p.length ≤ 65535 := by
    intro p hp
    exact hlen p (by rw [hps2]; exact List.mem_append_right _ hp)
  rcases residue_parse E _ s hinv2 ps2 hps2len hr with ⟨h1, h2, h3⟩ | ⟨h1, h2⟩
  · left
    refine ⟨h2, h3, ?_⟩
    rw [hps2, h1, List.append_nil, hmf]
  · right
    exact ⟨h2, _, by rw [hps2, h1], hmf.symm⟩

/-- The round trip at the payloads `[1, 2, 3]`, `[9]`, cut as `[0, 3, 1]`, `[2, 3, 0]`,
`[1, 9]`. -/
theorem framing_round_trip_witness :
    ∃ s, mqtt_run Env.allOk MqttState.init
          ([[0x00, 0x03, 0x01], [0x02, 0x03, 0x00], [0x01, 0x09]].map MQTT_EVENT_DATA) = .ok s
      ∧ ((s.hdr_bytes = 0 ∧ s.msg_buf = none
            ∧ s.receive_queue = [[0x01, 0x02, 0x03], [0x09]].map frame)
        ∨ (s.hdr_bytes = 2 ∧ ∃ front, [[0x01, 0x02, 0x03], [0x09]] = front ++ [[]]
            ∧ s.receive_queue = front.map frame)) :=
  framing_round_trip Env.allOk ⟨fun _ _ => rfl, fun _ => rfl⟩ [[0x01, 0x02, 0x03], [0x09]]
    (by decide) [[0x00, 0x03, 0x01], [0x02, 0x03, 0x00], [0x01, 0x09]] (by decide)

/-- C1 on the code. The wire encoding of the single empty payload is `[0x00, 0x00]`. Fed from the
empty state, as one chunk or byte by byte, with the allocation succeeding, it pushes nothing: the
loop ends with `hdr_bytes = 2` and the empty frame waiting for a further byte. For the payloads
`[7]`, `[]` only `[7]` is pushed. The empty frame comes out when a later byte arrives: for the
payloads `[]`, `[7]` both are pushed. Where `malloc(0)` returns `NULL` the empty frame counts as
a failed allocation, and the rest of the chunk is dropped with it. -/
theorem trailing_empty_frame_not_pushed :
    frame_hdr 0 ++ [] = [0x00, 0x00]
    ∧ (mqtt_run Env.allOk MqttState.init [MQTT_EVENT_DATA [0x00, 0x00]]).map
        (fun s => (s.receive_queue, s.hdr_bytes, s.msg_buf)) = .ok ([], 2, some [])
    ∧ (mqtt_run Env.allOk MqttState.init [MQTT_EVENT_DATA [0x00], MQTT_EVENT_DATA [0x00]]).map
        (fun s => (s.receive_queue, s.hdr_bytes, s.msg_buf)) = .ok ([], 2, some [])
    ∧ (mqtt_run Env.allOk MqttState.init [MQTT_EVENT_DATA [0x00, 0x01, 0x07, 0x00, 0x00]]).map
        (fun s => (s.receive_queue, s.hdr_bytes)) = .ok ([frame [0x07]], 2)
    ∧ (mqtt_run Env.allOk MqttState.init [MQTT_EVENT_DATA [0x00, 0x00, 0x00, 0x01, 0x07]]).map
        (fun s => (s.receive_queue, s.hdr_bytes)) = .ok ([frame [], frame [0x07]], 0)
    ∧ (mqtt_run { malloc_ok := fun _ n => decide (n ≠ 0), queue_ok := fun _ => true }
          MqttState.init [MQTT_EVENT_DATA [0x00, 0x00, 0x00, 0x01, 0x07]]).map
        (fun s => (s.receive_queue, s.hdr_bytes)) = .ok ([], 0) := by
  refine ⟨by rfl, by rfl, by rfl, by rfl, by rfl, by rfl⟩

/-- C4 on the code. `MQTT_EVENT_DISCONNECTED` and `MQTT_EVENT_ERROR` set `msg_buf` to `NULL` and
leave `hdr_bytes`, `hdr`, `msg_len` and `msg_copied` as they are. After the partial header
`[0x00]` and a disconnect (or error), the fresh frame `[0x00, 0x01, 0xAA]` is read with the stale
byte as the first header byte: an empty frame is pushed instead of `[0xAA]`, and the loop ends
with `hdr_bytes = 2`, waiting for a payload of `0x01AA` bytes. After the header and partial
payload `[0x00, 0x02, 0x05]` and a disconnect (or error), the first byte of the fresh frame is
copied through the `NULL` pointer. -/
theorem disconnect_keeps_partial_state :
    (∀ (E : Env) (s : MqttState),
        mqtt_event_handler E s MQTT_EVENT_DISCONNECTED = .ok { s with msg_buf := none }
        ∧ mqtt_event_handler E s MQTT_EVENT_ERROR = .ok { s with msg_buf := none })
    ∧ (mqtt_run Env.allOk MqttState.init [MQTT_EVENT_DATA [0x00, 0x01, 0xAA]]).map
        (fun s => (s.receive_queue, s.hdr_bytes)) = .ok ([frame [0xAA]], 0)
    ∧ (mqtt_run Env.allOk MqttState.init
          [MQTT_EVENT_DATA [0x00], MQTT_EVENT_DISCONNECTED,
           MQTT_EVENT_DATA [0x00, 0x01, 0xAA]]).map
        (fun s => (s.receive_queue, s.hdr_bytes, s.msg_len)) = .ok ([frame []], 2, 0x01AA)
    ∧ (mqtt_run Env.allOk MqttState.init
          [MQTT_EVENT_DATA [0x00], MQTT_EVENT_ERROR, MQTT_EVENT_DATA [0x00, 0x01, 0xAA]]).map
        (fun s => (s.receive_queue, s.hdr_bytes, s.msg_len)) = .ok ([frame []], 2, 0x01AA)
    ∧ mqtt_run Env.allOk MqttState.init
          [MQTT_EVENT_DATA [0x00, 0x02, 0x05], MQTT_EVENT_DISCONNECTED,
           MQTT_EVENT_DATA [0x00, 0x01, 0xAA]] = .error .nullDeref
    ∧ mqtt_run Env.allOk MqttState.init
          [MQTT_EVENT_DATA [0x00, 0x02, 0x05], MQTT_EVENT_ERROR,
           MQTT_EVENT_DATA [0x00, 0x01, 0xAA]] = .error .nullDeref := by
  refine ⟨fun E s => ⟨rfl, rfl⟩, by rfl, by rfl, by rfl, by rfl, by rfl⟩

/-! ## The signer (C11, C14, C15, C16) -/

theorem strlen_message : strlen message = 20 := by decide

theorem strlen_failed : strlen failed_message = 6 := by decide

/-- A frame passes the comparison at the end of `test_dsa_Alice` exactly when its payload is the
20 bytes of the test message. -/
theorem is_message_frame (f : List Byte) :
    ¬ (strlen message ≠ (frame f).size
        ∨ memcmp message (frame f).content (frame f).size ≠ 0)
      ↔ f = message.take 20 := by
  rw [not_or, not_not, not_not, memcmp_eq_zero, strlen_message]
  simp only [frame]
  constructor
  · rintro ⟨h20, -, -, ht⟩
    rw [← h20] at ht
    rw [ht, List.take_of_length_le (by omega)]
  · rintro rfl
    decide

theorem wait_frame_timeouts (k : Nat) (tail : List (Option message_struct_t)) :
    wait_frame (List.replicate k none ++ tail) = wait_frame tail := by
  induction k with
  | zero => rfl
  | succ k ih => simpa [List.replicate_succ, wait_frame] using ih

theorem wait_frame_only_timeouts (k : Nat) : wait_frame (List.replicate k none) = none := by
  have h := wait_frame_timeouts k []
  rw [List.append_nil] at h
  rw [h]
  rfl

/-- The run of `test_dsa_Alice` when the key allocation, the key generation, the envelope
allocation and `crypto_sign_message` succeed and the envelope fits its buffer: the public key and
the envelope are sent, then the wait loop decides. -/
theorem test_dsa_Alice_waits (P : Provider) (e : AliceEnv) (algo : DSA_ALGO) (s : Scheme)
    (hs : scheme_of algo = some s) (hpk : e.pk_ok = true) (hsk : e.sk_ok = true)
    (hpkl : P.CRYPTO_PUBLICKEYBYTES s ≠ 0) (hskl : P.CRYPTO_SECRETKEYBYTES s ≠ 0)
    (hsigl : P.CRYPTO_BYTES s ≠ 0) (hkg : (P.crypto_sign_keypair s e.rnd_keygen).1 = 0)
    (hsm : e.sm_ok = true) (hscratch : e.scratch_ok = true)
    (hfit : ∀ sk, (P.crypto_sign_signature s e.rnd_sign (message.take 20) sk).2.length + 2
              ≤ P.CRYPTO_BYTES s) :
    ∃ c1 c2 : SendCall, ∀ polls,
      test_dsa_Alice P e algo polls
        = .ok (match wait_frame polls with
               | none => { ret := none, sent := [c1, c2], rest := [] }
               | some (m, rest) =>
                 { ret := some (decide (¬ (strlen message ≠ m.size
                                          ∨ memcmp message m.content m.size ≠ 0))),
                   sent := [c1, c2], rest := rest }) := by
  obtain ⟨sk1, hsk1⟩ : ∃ sk1, sk1 = lib_write (List.replicate (P.CRYPTO_SECRETKEYBYTES s) 0)
      (P.crypto_sign_keypair s e.rnd_keygen).2.2 := ⟨_, rfl⟩
  obtain ⟨sig, hsig⟩ : ∃ sig, sig = (P.crypto_sign_signature s e.rnd_sign (message.take 20) sk1).2 :=
    ⟨_, rfl⟩
  have hds : dsa_signature P algo e.rnd_sign message 20 sk1
      = ((P.crypto_sign_signature s e.rnd_sign (message.take 20) sk1).1, some sig) := by
    simp [dsa_signature, hs, hsig]
  have hsign := crypto_sign_message_ok P e.rnd_sign message 20 sk1 algo _ sig (by decide) hds
  have hfit2 : sig.length + 2 ≤ P.CRYPTO_BYTES s := by rw [hsig]; exact hfit sk1
  refine ⟨{ data := lib_write (List.replicate (P.CRYPTO_PUBLICKEYBYTES s) 0)
              (P.crypto_sign_keypair s e.rnd_keygen).2.1,
            length := P.CRYPTO_PUBLICKEYBYTES s },
          { data := memcpy (List.replicate (20 + P.CRYPTO_BYTES s) 0) 0
              ([Fin.ofNat ((20 % 65536) >>> 8), Fin.ofNat ((20 % 65536) &&& 0xFF)]
                ++ message.take 20 ++ sig),
            length := 2 + 20 + sig.length }, ?_⟩
  intro polls
  have hw : ¬ (20 + P.CRYPTO_BYTES s < 2 + 20 + sig.length) := by omega
  simp only [test_dsa_Alice, alloc_space_for_dsa_def, hs, malloc, hpk, hsk, if_true, hpkl, hskl,
    hsigl, or_self, if_false, dsa_keygen, hkg, ne_eq, not_true_eq_false, hsm, strlen_message,
    hscratch, Option.map_some', Option.getD_some, ← hsk1, hsign, write_buf,
    List.length_replicate, List.length_append, List.length_cons, List.length_nil,
    List.length_take]
  have hl : min 20 message.length = 20 := by decide
  simp only [hl]
  rw [if_neg (by omega)]
  simp only [Option.getD_some]
  cases hwf : wait_frame polls with
  | none => rfl
  | some mr =>
    obtain ⟨m, rest⟩ := mr
    simp only
    split <;> simp_all

/-- C11. When the key allocation, the key generation, the envelope allocation and
`crypto_sign_message` succeed and the signature is at least two bytes shorter than
`CRYPTO_BYTES`, `test_dsa_Alice` returns at the first frame that arrives after the envelope was
sent, after any number of expired polls: it returns `true` if and only if that frame has the 20
bytes of the test message as payload, and `false` for every other frame, the 6 bytes `"failed"`
among them. For a longer signature this fails: with a library whose signatures have the full
`CRYPTO_BYTES`, all of these succeeding (`crypto_sign_message` returns 0 and stores the length
24), the envelope does not fit the 22 bytes of `signed_message`, and the call leaves defined
behaviour before anything is compared. -/
theorem test_dsa_Alice_completion (P : Provider) (e : AliceEnv) (algo : DSA_ALGO) (s : Scheme)
    (hs : scheme_of algo = some s) (hpk : e.pk_ok = true) (hsk : e.sk_ok = true)
    (hpkl : P.CRYPTO_PUBLICKEYBYTES s ≠ 0) (hskl : P.CRYPTO_SECRETKEYBYTES s ≠ 0)
    (hsigl : P.CRYPTO_BYTES s ≠ 0) (hkg : (P.crypto_sign_keypair s e.rnd_keygen).1 = 0)
    (hsm : e.sm_ok = true) (hscratch : e.scratch_ok = true)
    (hfit : ∀ sk, (P.crypto_sign_signature s e.rnd_sign (message.take 20) sk).2.length + 2
              ≤ P.CRYPTO_BYTES s)
    (k : Nat) (payload : List Byte) (post : List (Option message_struct_t)) :
    (∃ r, test_dsa_Alice P e algo (List.replicate k none ++ some (frame payload) :: post) = .ok r
      ∧ (r.ret = some true ↔ payload = message.take 20)
      ∧ (payload ≠ message.take 20 → r.ret = some false)
      ∧ r.rest = post ∧ r.sent.length = 2)
    ∧ (message.take 20).length = strlen message
    ∧ failed_message.take (strlen failed_message) ≠ message.take 20
    ∧ (crypto_sign_message toyProvider true 0 message (strlen message) [5] FALCON_512).map
        (fun o => (o.ret, o.smlen)) = .ok (0, some 24)
    ∧ test_dsa_Alice toyProvider AliceEnv.allOk FALCON_512 [some (frame (message.take 20))]
        = .error .outOfBounds := by
  refine ⟨?_, by decide, by decide, by rfl, by rfl⟩
  obtain ⟨c1, c2, h⟩ := test_dsa_Alice_waits P e algo s hs hpk hsk hpkl hskl hsigl hkg hsm
    hscratch hfit
  have hw : wait_frame (List.replicate k none ++ some (frame payload) :: post)
      = some (frame payload, post) := by
    rw [wait_frame_timeouts]; rfl
  refine ⟨_, h _, ?_, ?_, ?_, ?_⟩
  · rw [hw]
    simp only [Option.some.injEq, decide_eq_true_eq]
    exact is_message_frame payload
  · intro hne
    rw [hw]
    simp only [Option.some.injEq, decide_eq_false_iff_not]
    exact fun hc => hne ((is_message_frame payload).mp hc)
  · rw [hw]
  · rw [hw]; rfl

/-- C11, at the stand-in library with two bytes of slack, two expired polls and the echo. -/
theorem test_dsa_Alice_completion_witness :
    ∃ r, test_dsa_Alice slackProvider AliceEnv.allOk FALCON_512
          (List.replicate 2 none ++ some (frame (message.take 20)) :: []) = .ok r
      ∧ (r.ret = some true ↔ message.take 20 = message.take 20)
      ∧ (message.take 20 ≠ message.take 20 → r.ret = some false)
      ∧ r.rest = [] ∧ r.sent.length = 2 :=
  (test_dsa_Alice_completion slackProvider AliceEnv.allOk FALCON_512 .FALCON512 rfl rfl rfl
    (by decide) (by decide) (by decide) rfl rfl rfl (by intro sk; simp [slackProvider])
    2 (message.take 20) []).1

/-- C14. If the key buffers are not both allocated, or one of the three lengths is 0, or
`dsa_keygen` returns a non-zero status, `test_dsa_Alice` returns `false` without a call of
`send_message` and without taking anything from the inbox. -/
theorem test_dsa_Alice_keygen_failure (P : Provider) (e : AliceEnv) (algo : DSA_ALGO)
    (polls : List (Option message_struct_t))
    (h : (alloc_space_for_dsa P e.pk_ok e.sk_ok algo none none).pk = none
      ∨ (alloc_space_for_dsa P e.pk_ok e.sk_ok algo none none).sk = none
      ∨ (alloc_space_for_dsa P e.pk_ok e.sk_ok algo none none).pk_len = 0
      ∨ (alloc_space_for_dsa P e.pk_ok e.sk_ok algo none none).sk_len = 0
      ∨ (alloc_space_for_dsa P e.pk_ok e.sk_ok algo none none).sig_len = 0
      ∨ (dsa_keygen P algo e.rnd_keygen).1 ≠ 0) :
    test_dsa_Alice P e algo polls = .ok { ret := some false, sent := [], rest := polls } := by
  unfold test_dsa_Alice
  generalize alloc_space_for_dsa P e.pk_ok e.sk_ok algo none none = ks at h
  obtain ⟨pk, sk, pk_len, sk_len, sig_len⟩ := ks
  simp only at h
  cases pk with
  | none => rfl
  | some pk =>
    cases sk with
    | none => rfl
    | some sk =>
      simp only
      by_cases hz : pk_len = 0 ∨ sk_len = 0 ∨ sig_len = 0
      · rw [if_pos hz]
      · rw [if_neg hz]
        have hk : (dsa_keygen P algo e.rnd_keygen).1 ≠ 0 := by
          rcases h with h | h | h | h | h | h
          · cases h
          · cases h
          · exact absurd (Or.inl h) hz
          · exact absurd (Or.inr (Or.inl h)) hz
          · exact absurd (Or.inr (Or.inr h)) hz
          · exact h
        rw [if_pos hk]

/-- C14, at the stand-in library with a failing allocation of `sk`. -/
theorem test_dsa_Alice_keygen_failure_witness :
    test_dsa_Alice slackProvider { AliceEnv.allOk with sk_ok := false } FALCON_512
        [some (frame (message.take 20))]
      = .ok { ret := some false, sent := [], rest := [some (frame (message.take 20))] } :=
  test_dsa_Alice_keygen_failure slackProvider { AliceEnv.allOk with sk_ok := false } FALCON_512
    [some (frame (message.take 20))] (Or.inr (Or.inl rfl))

/-- C15 on the code. `crypto_sign_message` does not look at the status of `dsa_signature`: when
its allocation succeeds it returns 0 for the test message, whatever the library and the
algorithm. With a library whose signing returns -1, `test_dsa_Alice` sends the public key and an
envelope without signature, and returns `true` when the peer sends the test message back. -/
theorem sign_failure_not_reported :
    (∀ (P : Provider) (algo : DSA_ALGO) (rnd : Nat) (sk : List Byte),
        (crypto_sign_message P true rnd message (strlen message) sk algo).map (fun so => so.ret)
          = .ok 0)
    ∧ (dsa_signature failingSignProvider FALCON_512 0 message (strlen message) [5]).1 = -1
    ∧ (crypto_sign_message failingSignProvider true 0 message (strlen message) [5]
          FALCON_512).map (fun so => so.ret) = .ok 0
    ∧ (test_dsa_Alice failingSignProvider AliceEnv.allOk FALCON_512
          [some (frame (message.take 20))]).map (fun r => (r.ret, r.sent.map SendCall.payload))
        = .ok (some true, [[5], [0x00, 0x14] ++ message.take 20]) := by
  refine ⟨?_, by rfl, by rfl, by rfl⟩
  intro P algo rnd sk
  cases hs : scheme_of algo with
  | none =>
    simp [crypto_sign_message, malloc, get_signature_length_def, dsa_signature, hs, strlen_message,
      message]
    rfl
  | some s =>
    have hds : dsa_signature P algo rnd message (strlen message) sk
        = ((P.crypto_sign_signature s rnd (message.take (strlen message)) sk).1,
           some (P.crypto_sign_signature s rnd (message.take (strlen message)) sk).2) := by
      simp [dsa_signature, hs]
    rw [crypto_sign_message_ok P rnd message (strlen message) sk algo _ _ (by decide) hds]
    rfl

/-- C16 as stated does not hold: an expired poll does not end `test_dsa_Alice`. After one
timeout the function is still in its wait loop, and when the test message arrives after the
timeout it returns `true`. -/
theorem test_dsa_Alice_timeout_not_failure :
    ¬ (∀ rest : List (Option message_struct_t),
        ∃ r, test_dsa_Alice slackProvider AliceEnv.allOk FALCON_512 (none :: rest) = .ok r
          ∧ r.ret = some false)
    ∧ (test_dsa_Alice slackProvider AliceEnv.allOk FALCON_512 [none]).map (fun r => r.ret)
        = .ok none
    ∧ (test_dsa_Alice slackProvider AliceEnv.allOk FALCON_512
          [none, some (frame (message.take 20))]).map (fun r => r.ret) = .ok (some true) := by
  refine ⟨?_, by rfl, by rfl⟩
  intro h
  obtain ⟨r, hr, hret⟩ := h []
  have h2 : test_dsa_Alice slackProvider AliceEnv.allOk FALCON_512 [none]
      = .ok { ret := none,
              sent := [{ data := [5], length := 1 },
                       { data := [0x00, 0x14] ++ message.take 20 ++ [5, 25], length := 24 }],
              rest := [] } := by rfl
  rw [h2] at hr
  injection hr with hr
  rw [← hr] at hret
  cases hret

/-- C16, amended. After sending the envelope, `test_dsa_Alice` polls the inbox with the 1000 ms
timeout in a loop without a bound: an expired poll is followed by another poll, so that while no
frame arrives the function does not return, after any number of expired polls; it returns at the
first frame that arrives, `true` when the frame is the test message and `false` otherwise. -/
theorem test_dsa_Alice_waits_unbounded (P : Provider) (e : AliceEnv) (algo : DSA_ALGO)
    (s : Scheme)
    (hs : scheme_of algo = some s) (hpk : e.pk_ok = true) (hsk : e.sk_ok = true)
    (hpkl : P.CRYPTO_PUBLICKEYBYTES s ≠ 0) (hskl : P.CRYPTO_SECRETKEYBYTES s ≠ 0)
    (hsigl : P.CRYPTO_BYTES s ≠ 0) (hkg : (P.crypto_sign_keypair s e.rnd_keygen).1 = 0)
    (hsm : e.sm_ok = true) (hscratch : e.scratch_ok = true)
    (hfit : ∀ sk, (P.crypto_sign_signature s e.rnd_sign (message.take 20) sk).2.length + 2
              ≤ P.CRYPTO_BYTES s) :
    (∀ k : Nat, ∃ r, test_dsa_Alice P e algo (List.replicate k none) = .ok r
        ∧ r.ret = none ∧ r.sent.length = 2)
    ∧ (∀ (k : Nat) (payload : List Byte) (post : List (Option message_struct_t)),
        ∃ r, test_dsa_Alice P e algo (List.replicate k none ++ some (frame payload) :: post)
              = .ok r
          ∧ r.ret = some (decide (payload = message.take 20)) ∧ r.rest = post) := by
  obtain ⟨c1, c2, h⟩ := test_dsa_Alice_waits P e algo s hs hpk hsk hpkl hskl hsigl hkg hsm
    hscratch hfit
  constructor
  · intro k
    refine ⟨_, h _, ?_, ?_⟩ <;> rw [wait_frame_only_timeouts]
    rfl
  · intro k payload post
    have hw : wait_frame (List.replicate k none ++ some (frame payload) :: post)
        = some (frame payload, post) := by
      rw [wait_frame_timeouts]; rfl
    refine ⟨_, h _, ?_, ?_⟩
    · rw [hw]
      simp only [Option.some.injEq, decide_eq_decide]
      exact is_message_frame payload
    · rw [hw]

/-- C16 amended, at the stand-in library with two bytes of slack and three expired polls. -/
theorem test_dsa_Alice_waits_unbounded_witness :
    ∃ r, test_dsa_Alice slackProvider AliceEnv.allOk FALCON_512 (List.replicate 3 none) = .ok r
      ∧ r.ret = none ∧ r.sent.length = 2 :=
  (test_dsa_Alice_waits_unbounded slackProvider AliceEnv.allOk FALCON_512 .FALCON512 rfl rfl rfl
    (by decide) (by decide) (by decide) rfl rfl rfl (by intro sk; simp [slackProvider])).1 3

/-! ## The verifier (C12, C13) -/

theorem wait_pk_skip (pk_len : Nat) (pre : List (Option message_struct_t))
    (hpre : ∀ m, some m ∈ pre → m.size ≠ pk_len) (tail : List (Option message_struct_t)) :
    wait_pk pk_len (pre ++ tail) = wait_pk pk_len tail := by
  induction pre with
  | nil => rfl
  | cons p pre ih =>
    have ih2 := ih (fun m hm => hpre m (List.mem_cons_of_mem _ hm))
    cases p with
    | none => simpa [wait_pk] using ih2
    | some m =>
      have hne : m.size ≠ pk_len := hpre m (List.mem_cons_self _ _)
      simpa [wait_pk, hne] using ih2

/-- C13. For every algorithm and every sequence of poll results, `test_dsa_Bob` frees every frame
whose size differs from `get_public_key_length(algo)` and goes on waiting; it takes the first
frame of that size as the public key and the next frame that arrives, whatever its size, as the
signed envelope: what it does then is the reply to that key and that envelope, and the later
poll results stay in the inbox. -/
theorem test_dsa_Bob_selects (P : Provider) (e : BobEnv) (algo : DSA_ALGO)
    (pre : List (Option message_struct_t)) (pk_frame : message_struct_t) (k : Nat)
    (signed : message_struct_t) (post : List (Option message_struct_t))
    (hpre : ∀ m, some m ∈ pre → m.size ≠ get_public_key_length P algo)
    (hpk : pk_frame.size = get_public_key_length P algo) :
    test_dsa_Bob P e algo (pre ++ some pk_frame :: (List.replicate k none ++ some signed :: post))
      = (test_dsa_Bob_reply P e algo pk_frame.content signed).map
          (fun sent => { returned := true, sent := sent, rest := post })
    ∧ test_dsa_Bob P e algo pre = .ok { returned := false, sent := [], rest := [] }
    ∧ test_dsa_Bob P e algo (pre ++ some pk_frame :: List.replicate k none)
      = .ok { returned := false, sent := [], rest := [] } := by
  have h1 : ∀ tail, wait_pk (get_public_key_length P algo) (pre ++ some pk_frame :: tail)
      = some (pk_frame, tail) := by
    intro tail
    rw [wait_pk_skip _ pre hpre]
    simp [wait_pk, hpk]
  have h2 : wait_pk (get_public_key_length P algo) pre = none := by
    have := wait_pk_skip _ pre hpre []
    rw [List.append_nil] at this
    rw [this]; rfl
  refine ⟨?_, ?_, ?_⟩
  · simp only [test_dsa_Bob, h1, wait_frame_timeouts, wait_frame]
    cases test_dsa_Bob_reply P e algo pk_frame.content signed <;> rfl
  · simp only [test_dsa_Bob, h2]
  · simp only [test_dsa_Bob, h1, wait_frame_only_timeouts]

/-- C13, at frames of 2, 1 and 3 bytes for a public key of one byte. -/
theorem test_dsa_Bob_selects_witness :
    test_dsa_Bob slackProvider BobEnv.allOk FALCON_512
        ([some (frame [1, 2])] ++ some (frame [5])
          :: (List.replicate 1 none ++ some (frame [9, 9, 9]) :: []))
      = (test_dsa_Bob_reply slackProvider BobEnv.allOk FALCON_512 (frame [5]).content
          (frame [9, 9, 9])).map (fun sent => { returned := true, sent := sent, rest := [] }) :=
  (test_dsa_Bob_selects slackProvider BobEnv.allOk FALCON_512 [some (frame [1, 2])] (frame [5]) 1
    (frame [9, 9, 9]) [] (by intro m hm; simp at hm; rw [hm]; decide) rfl).1

theorem test_dsa_Bob_reply_in_range (P : Provider) (algo : DSA_ALGO) (pk : List Byte)
    (h0 h1 : Byte) (body : List Byte) (hrange : be16 h0 h1 ≤ body.length)
    (hfit : body.length - be16 h0 h1 ≤ get_signature_length P algo)
    (hcap : be16 h0 h1 ≤ strlen message + 20) :
    ∃ c, test_dsa_Bob_reply P { msg_ok := true, scratch_ok := true } algo pk
          (frame (h0 :: h1 :: body)) = .ok [c]
      ∧ c.payload
          = if dsa_verify P algo (body.drop (be16 h0 h1)) (body.take (be16 h0 h1)) pk < 0
            then failed_message.take (strlen failed_message)
            else body.take (be16 h0 h1) := by
  have hopen := crypto_open_message_in_range P h0 h1 body pk algo hrange hfit
  have hsz : (frame (h0 :: h1 :: body)).size = body.length + 2 := rfl
  have hct : (frame (h0 :: h1 :: body)).content = h0 :: h1 :: body := rfl
  rw [strlen_message] at hcap
  by_cases hv : dsa_verify P algo (body.drop (be16 h0 h1)) (body.take (be16 h0 h1)) pk < 0
  · refine ⟨{ data := failed_message, length := strlen failed_message }, ?_, ?_⟩
    · simp [test_dsa_Bob_reply, malloc, hsz, hct, hopen, hv, write_buf, memcpy]
    · rw [if_pos hv]; rfl
  · refine ⟨{ data := memcpy (List.replicate (strlen message + 20) 0) 0
                (body.take (be16 h0 h1)),
              length := be16 h0 h1 }, ?_, ?_⟩
    · have hlt : ¬ (20 + 20 < min (be16 h0 h1) body.length) := by omega
      simp [test_dsa_Bob_reply, malloc, hsz, hct, hopen, hv, write_buf, strlen_message, hlt]
    · rw [if_neg hv]
      have hb := be16_lt h0 h1
      have hl : (body.take (be16 h0 h1)).length = be16 h0 h1 := by simp [hrange]
      simp only [SendCall.payload, memcpy, List.take_zero, List.nil_append,
        Nat.mod_eq_of_lt hb]
      rw [List.take_append_of_le_length (by omega), List.take_of_length_le (by omega)]

/-- C12 as stated, with no condition on the allocations, does not hold: when the allocation of
`message_to_send` fails, `test_dsa_Bob` sends `"failed"` although `dsa_verify` accepts the
signature of the envelope. -/
theorem test_dsa_Bob_reply_unconditional_fails :
    ¬ (∀ (P : Provider) (e : BobEnv) (algo : DSA_ALGO) (pk : List Byte) (h0 h1 : Byte)
        (body : List Byte),
        0 ≤ dsa_verify P algo (body.drop (be16 h0 h1)) (body.take (be16 h0 h1)) pk →
        ∃ c, test_dsa_Bob_reply P e algo pk (frame (h0 :: h1 :: body)) = .ok [c]
          ∧ c.payload = body.take (be16 h0 h1))
    ∧ dsa_verify slackProvider FALCON_512 [5, 25] (message.take 20) [5] = 0
    ∧ (test_dsa_Bob_reply slackProvider { msg_ok := false, scratch_ok := true } FALCON_512 [5]
          (frame ([0x00, 0x14] ++ message.take 20 ++ [5, 25]))).map
        (fun sent => sent.map SendCall.payload) = .ok [failed_message.take 6] := by
  refine ⟨?_, by rfl, by rfl⟩
  intro h
  obtain ⟨c, hc, hp⟩ := h slackProvider { msg_ok := false, scratch_ok := true } FALCON_512 [5]
    0x00 0x14 (message.take 20 ++ [5, 25]) (by decide)
  have h2 : test_dsa_Bob_reply slackProvider { msg_ok := false, scratch_ok := true } FALCON_512
      [5] (frame (0x00 :: 0x14 :: (message.take 20 ++ [5, 25])))
      = .ok [{ data := failed_message, length := 6 }] := by rfl
  rw [h2] at hc
  injection hc with hc
  injection hc with hc
  rw [← hc] at hp
  revert hp
  decide

/-- C12, amended. Once `test_dsa_Bob` has taken a public key frame and an envelope frame whose
announced message is inside it (`message_length + 2 <= size`), whose signature part is at most
`get_signature_length(algo)` bytes and whose message is at most the `strlen(message) + 20` bytes
of `message_to_send`, it sends exactly one frame. When both allocations succeed, the payload of
that frame is the message of the envelope if `dsa_verify` accepts its signature under the
received key, and the 6 bytes `"failed"` if it rejects; when an allocation fails, the payload is
`"failed"`. -/
theorem test_dsa_Bob_reply_frame (P : Provider) (algo : DSA_ALGO) (pk_frame : message_struct_t)
    (h0 h1 : Byte) (body : List Byte) (post : List (Option message_struct_t))
    (hpk : pk_frame.size = get_public_key_length P algo)
    (hrange : be16 h0 h1 ≤ body.length)
    (hfit : body.length - be16 h0 h1 ≤ get_signature_length P algo)
    (hcap : be16 h0 h1 ≤ strlen message + 20) :
    (∃ c, test_dsa_Bob P { msg_ok := true, scratch_ok := true } algo
            (some pk_frame :: some (frame (h0 :: h1 :: body)) :: post)
          = .ok { returned := true, sent := [c], rest := post }
      ∧ c.payload
          = if dsa_verify P algo (body.drop (be16 h0 h1)) (body.take (be16 h0 h1))
                pk_frame.content < 0
            then failed_message.take (strlen failed_message)
            else body.take (be16 h0 h1))
    ∧ (∀ e : BobEnv, e.msg_ok = false ∨ e.scratch_ok = false →
        test_dsa_Bob P e algo (some pk_frame :: some (frame (h0 :: h1 :: body)) :: post)
          = .ok { returned := true,
                  sent := [{ data := failed_message, length := strlen failed_message }],
                  rest := post })
    ∧ ({ data := failed_message, length := strlen failed_message } : SendCall).payload
        = [0x66, 0x61, 0x69, 0x6c, 0x65, 0x64] := by
  refine ⟨?_, ?_, by decide⟩
  · obtain ⟨c, hc, hp⟩ := test_dsa_Bob_reply_in_range P algo pk_frame.content h0 h1 body hrange
      hfit hcap
    refine ⟨c, ?_, hp⟩
    simp [test_dsa_Bob, wait_pk, hpk, wait_frame, hc]
  · intro e he
    have hreply : test_dsa_Bob_reply P e algo pk_frame.content (frame (h0 :: h1 :: body))
        = .ok [{ data := failed_message, length := strlen failed_message }] := by
      cases hm : e.msg_ok with
      | false => simp [test_dsa_Bob_reply, malloc, hm]
      | true =>
        have hs : e.scratch_ok = false := by
          rcases he with he | he
          · rw [hm] at he; cases he
          · exact he
        simp [test_dsa_Bob_reply, malloc, hm, hs, frame, crypto_open_message, write_buf]
    simp [test_dsa_Bob, wait_pk, hpk, wait_frame, hreply]

/-- C12 amended, at the envelope of the test message signed under the key `[5]`. -/
theorem test_dsa_Bob_reply_frame_witness :
    ∃ c, test_dsa_Bob slackProvider { msg_ok := true, scratch_ok := true } FALCON_512
            (some (frame [5]) :: some (frame (0x00 :: 0x14 :: (message.take 20 ++ [5, 25])))
              :: [])
          = .ok { returned := true, sent := [c], rest := [] }
      ∧ c.payload
          = if dsa_verify slackProvider FALCON_512
                ((message.take 20 ++ [5, 25]).drop (be16 0x00 0x14))
                ((message.take 20 ++ [5, 25]).take (be16 0x00 0x14)) (frame [5]).content < 0
            then failed_message.take (strlen failed_message)
            else (message.take 20 ++ [5, 25]).take (be16 0x00 0x14) :=
  (test_dsa_Bob_reply_frame slackProvider FALCON_512 (frame [5]) 0x00 0x14
    (message.take 20 ++ [5, 25]) [] rfl (by decide) (by decide) (by decide)).1

/-! ## The catalogue (C17) -/

theorem wait_frame_some (polls : List (Option message_struct_t)) (m : message_struct_t)
    (rest : List (Option message_struct_t)) (h : wait_frame polls = some (m, rest)) :
    pending_frames polls = pending_frames rest + 1 := by
  induction polls with
  | nil => simp [wait_frame] at h
  | cons p polls ih =>
    cases p with
    | none => simpa [pending_frames, wait_frame] using ih (by simpa [wait_frame] using h)
    | some m1 =>
      simp only [wait_frame, Option.some.injEq, Prod.mk.injEq] at h
      rw [← h.2]
      simp [pending_frames]

theorem mqtt_send_message_reduced (ret1 ret2 : Int) (c : MQTT.Client) (data : List Byte)
    (length : Nat) (hdata : length % 65536 ≤ data.length) :
    MQTT.send_message ret1 ret2 c data length
      = .ok (ret2, { published := c.published
                      ++ [frame_hdr (length % 65536), data.take (length % 65536)] }) := by
  have h2 : ¬ (frame_hdr (length % 65536)).length < 2 := by simp [frame_hdr]
  have h3 : ¬ data.length < length % 65536 := by omega
  simp [MQTT.send_message, MQTT.esp_mqtt_client_publish, h2, h3, frame_hdr]

theorem uart_send_message_reduced (drv : Nat → Nat → Int)
    (hdrv : ∀ i n, 0 < n → 0 < drv i n ∧ drv i n ≤ n) (fuel : Nat) (port : UART.Port)
    (data : List Byte) (length : Nat) (hdata : length % 65536 ≤ data.length) (hf2 : 2 ≤ fuel)
    (hf : length % 65536 ≤ fuel) :
    ∃ r, UART.send_message drv fuel port data length = .ok r
      ∧ r.1 = ((length % 65536 : Nat) : Int)
      ∧ r.2.wire = port.wire ++ (frame_hdr (length % 65536) ++ data.take (length % 65536)) := by
  have hh : (frame_hdr (length % 65536)).length = 2 := by simp [frame_hdr]
  obtain ⟨r1, hr1, -, hw1⟩ := uart_write_loop_progress drv hdrv (frame_hdr (length % 65536)) 2
    (by omega) fuel port 0 (by omega) (by omega)
  obtain ⟨r2, hr2, hv2, hw2⟩ := uart_write_loop_progress drv hdrv data (length % 65536)
    hdata fuel r1.2 0 (by omega) (by omega)
  refine ⟨r2, ?_, hv2, ?_⟩
  · have h2 : ¬ (frame_hdr (length % 65536)).length < 2 := by omega
    have h3 : ¬ data.length < length % 65536 := by omega
    simp only [UART.send_message, UART.uart_write_all, h2, h3, if_false, hr1]
    exact hr2
  · rw [hw2, hw1]
    have : List.take 2 (frame_hdr (length % 65536)) = frame_hdr (length % 65536) := by
      rw [← hh, List.take_length]
    simp [this]

/-- C20 as stated does not hold: `send_message` has no error return for a long payload. Called
with a buffer of 65539 bytes and that length, the MQTT one publishes the header `[0, 3]` and the
first 3 bytes, and returns what the second publish returns. -/
theorem send_message_oversize_not_rejected :
    ¬ (∀ (ret1 ret2 : Int) (c : MQTT.Client) (data : List Byte) (length : Nat),
        65535 < length → length ≤ data.length →
        ∃ r, MQTT.send_message ret1 ret2 c data length = .ok r ∧ r.1 < 0 ∧ r.2 = c)
    ∧ MQTT.send_message 0 0 { published := [] } (List.replicate 65539 7) 65539
        = .ok (0, { published := [[0x00, 0x03], [7, 7, 7]] }) := by
  have hl : (List.replicate 65539 (7 : Byte)).length = 65539 := List.length_replicate _ _
  have hm : 65539 % 65536 = 3 := by norm_num
  have h := mqtt_send_message_reduced 0 0 { published := [] } (List.replicate 65539 7) 65539
    (by rw [hl, hm]; omega)
  rw [hm] at h
  have ht : List.take 3 (List.replicate 65539 (7 : Byte)) = [7, 7, 7] := by
    rw [show (65539 : Nat) = 65536 + 3 from rfl, List.replicate_succ, List.replicate_succ,
      List.replicate_succ]
    rfl
  rw [ht] at h
  refine ⟨?_, h⟩
  intro hall
  obtain ⟨r, hr, hneg, -⟩ := hall 0 0 { published := [] } (List.replicate 65539 7) 65539
    (by omega) (by rw [hl])
  rw [h] at hr
  injection hr with hr
  rw [← hr] at hneg
  simp at hneg

/-- C20, amended. `send_message` does not check its length argument: the parameter is a
`uint16_t`, so a length above 65535 arrives reduced modulo 65536, and both `send_message` write
the header of the reduced length followed by that many bytes of the buffer, and return what the
transport returns for the payload, not an error (for the UART one with a driver that takes at
least one byte per call and reports no error). -/
theorem send_message_reduces_length (data : List Byte) (length : Nat)
    (hdata : length % 65536 ≤ data.length) :
    (∀ (ret1 ret2 : Int) (c : MQTT.Client),
        MQTT.send_message ret1 ret2 c data length
          = .ok (ret2, { published := c.published
                          ++ [frame_hdr (length % 65536), data.take (length % 65536)] }))
    ∧ (∀ (drv : Nat → Nat → Int) (fuel : Nat) (port : UART.Port),
        (∀ i n, 0 < n → 0 < drv i n ∧ drv i n ≤ n) → 2 ≤ fuel → length % 65536 ≤ fuel →
        ∃ r, UART.send_message drv fuel port data length = .ok r
          ∧ r.1 = ((length % 65536 : Nat) : Int)
          ∧ r.2.wire
              = port.wire ++ (frame_hdr (length % 65536) ++ data.take (length % 65536))) :=
  ⟨fun ret1 ret2 c => mqtt_send_message_reduced ret1 ret2 c data length hdata,
   fun drv fuel port hdrv hf2 hf =>
    uart_send_message_reduced drv hdrv fuel port data length hdata hf2 hf⟩

/-- C20 amended, at a buffer of 5 bytes and the length 65538, which arrives as 2. -/
theorem send_message_reduces_length_witness :
    MQTT.send_message 0 0 { published := [] } [1, 2, 3, 4, 5] 65538
      = .ok (0, { published := [[0x00, 0x02], [1, 2]] }) :=
  (send_message_reduces_length [1, 2, 3, 4, 5] 65538 (by decide)).1 0 0 { published := [] }

/-! ## Failed allocations and failed pushes in the reassembly loop (C18, C19) -/

theorem data_loop_hdr0 (E : Env) (fuel : Nat) (s : MqttState) (b : Byte) (rest : List Byte)
    (h0 : s.hdr_bytes = 0) :
    data_loop E (fuel + 1) s (b :: rest)
      = data_loop E fuel { s with hdr0 := b, hdr_bytes := 1 } rest := by
  simp [data_loop, h0]

theorem data_loop_hdr1_ok (E : Env) (fuel : Nat) (s : MqttState) (b : Byte) (rest : List Byte)
    (h1 : s.hdr_bytes = 1) (hm : E.malloc_ok s.mallocs (be16 s.hdr0 b) = true) :
    data_loop E (fuel + 1) s (b :: rest)
      = data_loop E fuel
          { s with hdr1 := b, hdr_bytes := 2, msg_len := be16 s.hdr0 b,
                   msg_buf := some (List.replicate (be16 s.hdr0 b) 0),
                   mallocs := s.mallocs + 1, msg_copied := 0 } rest := by
  simp [data_loop, h1, malloc, hm]

theorem data_loop_hdr1_fail (E : Env) (fuel : Nat) (s : MqttState) (b : Byte)
    (rest : List Byte) (h1 : s.hdr_bytes = 1)
    (hm : E.malloc_ok s.mallocs (be16 s.hdr0 b) = false) :
    data_loop E (fuel + 1) s (b :: rest)
      = .ok { s with hdr1 := b, hdr_bytes := 0, msg_len := 0, msg_buf := none,
                     mallocs := s.mallocs + 1 } := by
  simp [data_loop, h1, malloc, hm]

/-- One chunk that is the encoding of a non-empty payload, read in the header-reading state with
the allocation and the push succeeding, pushes that payload and leaves the header-reading state. -/
theorem data_loop_whole_frame (E : Env) (s : MqttState) (p : List Byte) (hp : p ≠ [])
    (hlen : p.length ≤ 65535) (h0 : s.hdr_bytes = 0)
    (hm : E.malloc_ok s.mallocs p.length = true) (hq : E.queue_ok s.sends = true)
    (fuel : Nat) :
    data_loop E (fuel + 3) s (wire_of p)
      = .ok { s with hdr0 := Fin.ofNat (p.length >>> 8), hdr1 := Fin.ofNat (p.length &&& 0xFF),
                     hdr_bytes := 0, msg_buf := none, msg_len := 0, msg_copied := 0,
                     mallocs := s.mallocs + 1, sends := s.sends + 1,
                     receive_queue := s.receive_queue ++ [frame p] } := by
  have hb := be16_hdr p.length hlen
  obtain ⟨b, rest, rfl⟩ : ∃ b rest, p = b :: rest := List.exists_cons_of_ne_nil hp
  have hw : wire_of (b :: rest)
      = Fin.ofNat ((b :: rest).length >>> 8) :: Fin.ofNat ((b :: rest).length &&& 0xFF)
          :: b :: rest := rfl
  have hm2 : E.malloc_ok s.mallocs
      (be16 (Fin.ofNat ((b :: rest).length >>> 8)) (Fin.ofNat ((b :: rest).length &&& 0xFF)))
      = true := by rw [hb]; exact hm
  rw [hw, data_loop_hdr0 E (fuel + 2) s _ _ h0,
    data_loop_hdr1_ok E (fuel + 1) _ _ _ rfl hm2]
  simp only [hb]
  have hmin : (b :: rest).length = min ((b :: rest).length - 0) (b :: rest).length := by simp
  rw [data_loop_payload E fuel _ b rest (List.replicate (b :: rest).length 0)
    (b :: rest).length hmin (by simp) (by simp) rfl (by simp)]
  simp only [Nat.zero_add, if_true, hq, List.take_length, List.drop_length, data_loop_nil]
  have hc : memcpy (List.replicate (b :: rest).length 0) 0 (b :: rest) = b :: rest := by
    simp [memcpy]
  rw [hc]
  rfl

/-- C18. When the allocation of the payload buffer fails as the second header byte completes a
header, the loop ends without a push, in the state `hdr_bytes = 0`, `msg_len = 0`,
`msg_buf = NULL`, and drops the rest of the chunk; a later chunk that is the encoding of a
non-empty payload then pushes exactly that payload (allocation and push succeeding). For the
empty payload this fails: after a failed allocation the later chunk `[0x00, 0x00]` pushes
nothing. -/
theorem alloc_failure_non_fatal (E : Env) (s : MqttState) (h0 h1 : Byte) (tail p : List Byte)
    (hs : s.hdr_bytes = 0) (hfail : E.malloc_ok s.mallocs (be16 h0 h1) = false)
    (hp : p ≠ []) (hlen : p.length ≤ 65535)
    (hok : E.malloc_ok (s.mallocs + 1) p.length = true)
    (hpush : E.queue_ok s.sends = true) :
    (∃ s1, mqtt_event_handler E s (MQTT_EVENT_DATA (h0 :: h1 :: tail)) = .ok s1
      ∧ s1.receive_queue = s.receive_queue ∧ s1.hdr_bytes = 0 ∧ s1.msg_len = 0
      ∧ s1.msg_buf = none
      ∧ ∃ s2, mqtt_event_handler E s1 (MQTT_EVENT_DATA (wire_of p)) = .ok s2
          ∧ s2.receive_queue = s.receive_queue ++ [frame p] ∧ s2.hdr_bytes = 0
          ∧ s2.msg_len = 0 ∧ s2.msg_buf = none)
    ∧ (mqtt_run { malloc_ok := fun i _ => decide (i ≠ 0), queue_ok := fun _ => true }
          MqttState.init [MQTT_EVENT_DATA [0x00, 0x05, 0x01, 0x02],
            MQTT_EVENT_DATA [0x00, 0x00]]).map
        (fun s => (s.receive_queue, s.hdr_bytes)) = .ok ([], 2) := by
  refine ⟨?_, by rfl⟩
  have hstep1 : mqtt_event_handler E s (MQTT_EVENT_DATA (h0 :: h1 :: tail))
      = .ok { s with hdr0 := h0, hdr1 := h1, hdr_bytes := 0, msg_len := 0, msg_buf := none,
                     mallocs := s.mallocs + 1 } := by
    show data_loop E (2 * (tail.length + 1 + 1) + 1) s (h0 :: h1 :: tail) = _
    rw [show 2 * (tail.length + 1 + 1) + 1 = (2 * tail.length + 3) + 1 + 1 by omega,
      data_loop_hdr0 E _ s _ _ hs, data_loop_hdr1_fail E _ _ _ _ rfl hfail]
  refine ⟨{ s with hdr0 := h0, hdr1 := h1, hdr_bytes := 0, msg_len := 0, msg_buf := none,
                    mallocs := s.mallocs + 1 }, hstep1, rfl, rfl, rfl, rfl, ?_⟩
  have hwl : (wire_of p).length = p.length + 2 := wire_of_length p
  have hpl : 0 < p.length := List.length_pos.mpr hp
  have hstep2 := data_loop_whole_frame E
    { s with hdr0 := h0, hdr1 := h1, hdr_bytes := 0, msg_len := 0, msg_buf := none,
             mallocs := s.mallocs + 1 } p hp hlen rfl hok hpush (2 * (p.length + 2) + 1 - 3)
  refine ⟨{ s with hdr0 := Fin.ofNat (p.length >>> 8), hdr1 := Fin.ofNat (p.length &&& 0xFF),
                    hdr_bytes := 0, msg_buf := none, msg_len := 0, msg_copied := 0,
                    mallocs := s.mallocs + 1 + 1, sends := s.sends + 1,
                    receive_queue := s.receive_queue ++ [frame p] }, ?_, rfl, rfl, rfl, rfl⟩
  show data_loop E (2 * (wire_of p).length + 1) _ (wire_of p) = _
  rw [hwl, show 2 * (p.length + 2) + 1 = (2 * (p.length + 2) + 1 - 3) + 3 by omega]
  exact hstep2

/-- C18, at a first allocation that fails for the header `[0x00, 0x05]`, followed by the chunk
`[0x00, 0x01, 0x09]`. -/
theorem alloc_failure_non_fatal_witness :
    ∃ s1, mqtt_event_handler { malloc_ok := fun i _ => decide (i ≠ 0), queue_ok := fun _ => true }
            MqttState.init (MQTT_EVENT_DATA (0x00 :: 0x05 :: [0x01, 0x02])) = .ok s1
      ∧ s1.receive_queue = MqttState.init.receive_queue ∧ s1.hdr_bytes = 0 ∧ s1.msg_len = 0
      ∧ s1.msg_buf = none
      ∧ ∃ s2, mqtt_event_handler
                { malloc_ok := fun i _ => decide (i ≠ 0), queue_ok := fun _ => true } s1
                (MQTT_EVENT_DATA (wire_of [0x09])) = .ok s2
          ∧ s2.receive_queue = MqttState.init.receive_queue ++ [frame [0x09]]
          ∧ s2.hdr_bytes = 0 ∧ s2.msg_len = 0 ∧ s2.msg_buf = none :=
  (alloc_failure_non_fatal { malloc_ok := fun i _ => decide (i ≠ 0), queue_ok := fun _ => true }
    MqttState.init 0x00 0x05 [0x01, 0x02] [0x09] rfl rfl (by decide) (by decide) rfl rfl).1

/-- The reassembly loop never reads the inbox, and asks for the outcome of a push only at its
own count of pushes: with another content `q' ++ q` of the inbox and another environment that
agrees from that count on, it does the same, the frames it pushes coming after `q' ++ q`. -/
theorem data_loop_queue_prefix (E E' : Env) (hmal : ∀ i n, E'.malloc_ok i n = E.malloc_ok i n) :
    ∀ (fuel : Nat) (s : MqttState) (q q' : List message_struct_t) (data : List Byte),
      (∀ i, s.sends ≤ i → E'.queue_ok i = E.queue_ok i) →
      data_loop E' fuel { s with receive_queue := q' ++ q } data
        = (data_loop E fuel { s with receive_queue := q } data).map
            (fun r => { r with receive_queue := q' ++ r.receive_queue }) := by
  intro fuel
  induction fuel with
  | zero =>
    intro s q q' data _
    cases data <;> rfl
  | succ fuel ih =>
    intro s q q' data hag
    cases data with
    | nil => rfl
    | cons b rest =>
      by_cases hlt : s.hdr_bytes < 2
      · by_cases h0 : s.hdr_bytes = 0
        · rw [data_loop_hdr0 E' fuel { s with receive_queue := q' ++ q } b rest h0,
            data_loop_hdr0 E fuel { s with receive_queue := q } b rest h0]
          exact ih { s with hdr0 := b, hdr_bytes := 1 } q q' rest hag
        · have h1 : s.hdr_bytes = 1 := by omega
          cases hm : E.malloc_ok s.mallocs (be16 s.hdr0 b) with
          | false =>
            rw [data_loop_hdr1_fail E' fuel { s with receive_queue := q' ++ q } b rest h1
                (by rw [hmal]; exact hm),
              data_loop_hdr1_fail E fuel { s with receive_queue := q } b rest h1 hm]
            rfl
          | true =>
            rw [data_loop_hdr1_ok E' fuel { s with receive_queue := q' ++ q } b rest h1
                (by rw [hmal]; exact hm),
              data_loop_hdr1_ok E fuel { s with receive_queue := q } b rest h1 hm]
            exact ih { s with hdr1 := b, hdr_bytes := 2, msg_len := be16 s.hdr0 b,
                              msg_buf := some (List.replicate (be16 s.hdr0 b) 0),
                              mallocs := s.mallocs + 1, msg_copied := 0 } q q' rest hag
      · by_cases hc : s.msg_len < s.msg_copied
        · simp [data_loop, hlt, hc, Except.map]
        · obtain hb | ⟨buf, hb⟩ : s.msg_buf = none ∨ ∃ buf, s.msg_buf = some buf := by
            cases s.msg_buf <;> simp
          · simp [data_loop, hlt, hc, hb, Except.map]
          · by_cases hfit : buf.length
                < s.msg_copied + min (s.msg_len - s.msg_copied) (b :: rest).length
            · simp only [List.length_cons] at hfit
              simp [data_loop, hlt, hc, hb, hfit, Except.map]
            · rw [data_loop_payload E' fuel { s with receive_queue := q' ++ q } b rest buf _ rfl
                  (by show 2 ≤ s.hdr_bytes; omega) (by show s.msg_copied ≤ s.msg_len; omega) hb
                  (Nat.le_of_not_lt hfit),
                data_loop_payload E fuel { s with receive_queue := q } b rest buf _ rfl
                  (by show 2 ≤ s.hdr_bytes; omega) (by show s.msg_copied ≤ s.msg_len; omega) hb
                  (Nat.le_of_not_lt hfit)]
              have hq : E'.queue_ok s.sends = E.queue_ok s.sends := hag _ (Nat.le_refl _)
              by_cases hdone : s.msg_copied
                  + min (s.msg_len - s.msg_copied) (b :: rest).length = s.msg_len
              · have hd1 : ({ s with receive_queue := q' ++ q } : MqttState).msg_copied
                    + min (({ s with receive_queue := q' ++ q } : MqttState).msg_len
                        - ({ s with receive_queue := q' ++ q } : MqttState).msg_copied)
                        (b :: rest).length
                    = ({ s with receive_queue := q' ++ q } : MqttState).msg_len := hdone
                have hd2 : ({ s with receive_queue := q } : MqttState).msg_copied
                    + min (({ s with receive_queue := q } : MqttState).msg_len
                        - ({ s with receive_queue := q } : MqttState).msg_copied)
                        (b :: rest).length
                    = ({ s with receive_queue := q } : MqttState).msg_len := hdone
                rw [if_pos hd1, if_pos hd2]
                have hag2 : ∀ i, s.sends + 1 ≤ i → E'.queue_ok i = E.queue_ok i :=
                  fun i hi => hag i (by omega)
                cases hqo : E.queue_ok s.sends with
                | false =>
                  have hqo' : E'.queue_ok s.sends = false := by rw [hq]; exact hqo
                  have := ih { s with msg_buf := none, msg_copied := 0, hdr_bytes := 0,
                                      msg_len := 0, sends := s.sends + 1 } q q'
                    ((b :: rest).drop (min (s.msg_len - s.msg_copied) (b :: rest).length)) hag2
                  simpa [hqo, hqo'] using this
                | true =>
                  have hqo' : E'.queue_ok s.sends = true := by rw [hq]; exact hqo
                  have := ih { s with msg_buf := none, msg_copied := 0, hdr_bytes := 0,
                                      msg_len := 0, sends := s.sends + 1 }
                    (q ++ [{ content := memcpy buf s.msg_copied
                              ((b :: rest).take (min (s.msg_len - s.msg_copied)
                                (b :: rest).length)),
                             size := s.msg_len }]) q'
                    ((b :: rest).drop (min (s.msg_len - s.msg_copied) (b :: rest).length)) hag2
                  simpa [hqo, hqo'] using this
              · have hd1 : ¬ (({ s with receive_queue := q' ++ q } : MqttState).msg_copied
                    + min (({ s with receive_queue := q' ++ q } : MqttState).msg_len
                        - ({ s with receive_queue := q' ++ q } : MqttState).msg_copied)
                        (b :: rest).length
                    = ({ s with receive_queue := q' ++ q } : MqttState).msg_len) := hdone
                have hd2 : ¬ (({ s with receive_queue := q } : MqttState).msg_copied
                    + min (({ s with receive_queue := q } : MqttState).msg_len
                        - ({ s with receive_queue := q } : MqttState).msg_copied)
                        (b :: rest).length
                    = ({ s with receive_queue := q } : MqttState).msg_len) := hdone
                rw [if_neg hd1, if_neg hd2]
                exact ih { s with
                    msg_buf := some (memcpy buf s.msg_copied
                      ((b :: rest).take (min (s.msg_len - s.msg_copied) (b :: rest).length))),
                    msg_copied := s.msg_copied
                      + min (s.msg_len - s.msg_copied) (b :: rest).length } q q' _ hag

/-- The number of `xQueueSend` calls does not go down in the reassembly loop. -/
theorem data_loop_sends_le (E : Env) :
    ∀ (fuel : Nat) (s r : MqttState) (data : List Byte),
      data_loop E fuel s data = .ok r → s.sends ≤ r.sends := by
  intro fuel
  induction fuel with
  | zero =>
    intro s r data h
    cases data with
    | nil =>
      have hr : s = r := by simpa [data_loop] using h
      rw [hr]
    | cons b rest => simp [data_loop] at h
  | succ fuel ih =>
    intro s r data h
    cases data with
    | nil =>
      have hr : s = r := by simpa [data_loop] using h
      rw [hr]
    | cons b rest =>
      by_cases hlt : s.hdr_bytes < 2
      · by_cases h0 : s.hdr_bytes = 0
        · rw [data_loop_hdr0 E fuel s b rest h0] at h
          have hle := ih _ _ _ h
          exact hle
        · have h1 : s.hdr_bytes = 1 := by omega
          cases hm : E.malloc_ok s.mallocs (be16 s.hdr0 b) with
          | false =>
            rw [data_loop_hdr1_fail E fuel s b rest h1 hm] at h
            have hr := Except.ok.inj h
            rw [← hr]
          | true =>
            rw [data_loop_hdr1_ok E fuel s b rest h1 hm] at h
            have hle := ih _ _ _ h
            exact hle
      · by_cases hc : s.msg_len < s.msg_copied
        · simp [data_loop, hlt, hc] at h
        · obtain hb | ⟨buf, hb⟩ : s.msg_buf = none ∨ ∃ buf, s.msg_buf = some buf := by
            cases s.msg_buf <;> simp
          · simp [data_loop, hlt, hc, hb] at h
          · by_cases hfit : buf.length
                < s.msg_copied + min (s.msg_len - s.msg_copied) (b :: rest).length
            · simp only [List.length_cons] at hfit
              simp [data_loop, hlt, hc, hb, hfit] at h
            · rw [data_loop_payload E fuel s b rest buf _ rfl (by omega) (by omega) hb
                  (Nat.le_of_not_lt hfit)] at h
              split at h
              · have := ih _ _ _ h
                exact Nat.le_trans (Nat.le_succ _) this
              · have hle := ih _ _ _ h
                exact hle

/-- The event handler neither reads the inbox nor takes anything out of it: with frames put
in front of the inbox it does the same and leaves them in front. The two environments may differ
in the outcome of the pushes made before. -/
theorem mqtt_event_handler_queue_prefix (E E' : Env)
    (hmal : ∀ i n, E'.malloc_ok i n = E.malloc_ok i n)
    (s : MqttState) (q q' : List message_struct_t) (ev : esp_mqtt_event_id_t)
    (hag : ∀ i, s.sends ≤ i → E'.queue_ok i = E.queue_ok i) :
    mqtt_event_handler E' { s with receive_queue := q' ++ q } ev
      = (mqtt_event_handler E { s with receive_queue := q } ev).map
          (fun r => { r with receive_queue := q' ++ r.receive_queue }) := by
  cases ev with
  | MQTT_EVENT_DATA data => exact data_loop_queue_prefix E E' hmal _ s q q' data hag
  | _ => rfl

/-- The number of `xQueueSend` calls does not go down in the event handler. -/
theorem mqtt_event_handler_sends_le (E : Env) (s r : MqttState) (ev : esp_mqtt_event_id_t)
    (h : mqtt_event_handler E s ev = .ok r) : s.sends ≤ r.sends := by
  cases ev with
  | MQTT_EVENT_DATA data => exact data_loop_sends_le E _ s r data h
  | _ =>
    have hr := Except.ok.inj h
    rw [← hr]

/-- A sequence of events is handled in the same way with frames put in front of the inbox, and
leaves them in front. -/
theorem mqtt_run_queue_prefix (E E' : Env) (hmal : ∀ i n, E'.malloc_ok i n = E.malloc_ok i n) :
    ∀ (evs : List esp_mqtt_event_id_t) (s : MqttState) (q q' : List message_struct_t),
      (∀ i, s.sends ≤ i → E'.queue_ok i = E.queue_ok i) →
      mqtt_run E' { s with receive_queue := q' ++ q } evs
        = (mqtt_run E { s with receive_queue := q } evs).map
            (fun r => { r with receive_queue := q' ++ r.receive_queue }) := by
  intro evs
  induction evs with
  | nil => intro s q q' _; rfl
  | cons ev evs ih =>
    intro s q q' hag
    have hstep := mqtt_event_handler_queue_prefix E E' hmal s q q' ev hag
    simp only [mqtt_run]
    rw [hstep]
    cases hr : mqtt_event_handler E { s with receive_queue := q } ev with
    | error f => rfl
    | ok r =>
      have hle : s.sends ≤ r.sends := by
        have hle1 := mqtt_event_handler_sends_le E _ r ev hr
        exact hle1
      have := ih { r with receive_queue := [] } r.receive_queue q'
        (fun i hi => hag i (Nat.le_trans hle hi))
      simpa [Except.map] using this

/-- An iteration of `receive_task` neither reads the inbox nor takes anything out of it. -/
theorem receive_task_iter_queue_prefix (E E' : Env)
    (hmal : ∀ i n, E'.malloc_ok i n = E.malloc_ok i n) (to_ticks : Nat) (st : UART.RxState)
    (q q' : List message_struct_t) (hq : E'.queue_ok st.sends = E.queue_ok st.sends) :
    UART.receive_task_iter E' to_ticks { st with receive_queue := q' ++ q }
      = (UART.receive_task_iter E to_ticks { st with receive_queue := q }).map
          (fun r => { r with receive_queue := q' ++ r.receive_queue }) := by
  unfold UART.receive_task_iter
  simp only [hmal, hq]
  rcases UART.uart_read_exact st.drv 2 to_ticks with _ | ⟨_ | hdr, d1⟩
  · rfl
  · rfl
  · simp only []
    generalize be16 (hdr.getD 0 0) (hdr.getD 1 0) = len
    by_cases hl : len = 0
    · simp [hl]
    · simp only [hl, if_false]
      cases hm : E.malloc_ok st.mallocs len with
      | false => simp [malloc]
      | true =>
        simp only [malloc, if_true]
        rcases UART.uart_read_exact d1 len to_ticks with _ | ⟨_ | data, d2⟩
        · rfl
        · rfl
        · cases E.queue_ok st.sends <;> simp

/-- The number of `xQueueSend` calls does not go down in an iteration of `receive_task`. -/
theorem receive_task_iter_sends_le (E : Env) (to_ticks : Nat) (st r : UART.RxState)
    (h : UART.receive_task_iter E to_ticks st = some r) : st.sends ≤ r.sends := by
  revert h
  unfold UART.receive_task_iter
  rcases UART.uart_read_exact st.drv 2 to_ticks with _ | ⟨_ | hdr, d1⟩
  · intro h
    simp at h
  · intro h
    simp at h
    rw [← h]
  · simp only []
    generalize be16 (hdr.getD 0 0) (hdr.getD 1 0) = len
    by_cases hl : len = 0
    · intro h
      simp [hl] at h
      rw [← h]
    · simp only [hl, if_false]
      cases hm : E.malloc_ok st.mallocs len with
      | false =>
        intro h
        simp [malloc] at h
        rw [← h]
      | true =>
        simp only [malloc, if_true]
        rcases UART.uart_read_exact d1 len to_ticks with _ | ⟨_ | data, d2⟩
        · intro h
          simp at h
        · intro h
          simp at h
          rw [← h]
        · intro h
          simp at h
          rw [← h]
          exact Nat.le_succ _

/-- The iterations of `receive_task` go the same way with frames put in front of the inbox, and
leave them in front. -/
theorem receive_task_queue_prefix (E E' : Env)
    (hmal : ∀ i n, E'.malloc_ok i n = E.malloc_ok i n) (to_ticks : Nat) :
    ∀ (n : Nat) (st : UART.RxState) (q q' : List message_struct_t),
      (∀ i, st.sends ≤ i → E'.queue_ok i = E.queue_ok i) →
      UART.receive_task E' to_ticks n { st with receive_queue := q' ++ q }
        = (UART.receive_task E to_ticks n { st with receive_queue := q }).map
            (fun r => { r with receive_queue := q' ++ r.receive_queue }) := by
  intro n
  induction n with
  | zero => intro st q q' _; rfl
  | succ n ih =>
    intro st q q' hag
    have hstep := receive_task_iter_queue_prefix E E' hmal to_ticks st q q'
      (hag _ (Nat.le_refl _))
    simp only [UART.receive_task]
    rw [hstep]
    cases hr : UART.receive_task_iter E to_ticks { st with receive_queue := q } with
    | none => rfl
    | some r =>
      have hle : st.sends ≤ r.sends := by
        have hle1 := receive_task_iter_sends_le E to_ticks _ r hr
        exact hle1
      have := ih { r with receive_queue := [] } r.receive_queue q'
        (fun i hi => hag i (Nat.le_trans hle hi))
      simpa using this

/-- The step of the reassembly loop at which the frame becomes complete: the push is tried, and
the loop goes on in the header-reading state with the bytes that follow the frame. -/
theorem data_loop_complete_step (E : Env) (fuel : Nat) (s : MqttState) (b : Byte)
    (rest buf : List Byte) (h2 : 2 ≤ s.hdr_bytes) (hcl : s.msg_copied ≤ s.msg_len)
    (hb : s.msg_buf = some buf) (hfit : s.msg_len ≤ buf.length)
    (hcomplete : s.msg_len - s.msg_copied ≤ (b :: rest).length) :
    data_loop E (fuel + 1) s (b :: rest)
      = data_loop E fuel
          { s with
            msg_buf := none, msg_copied := 0, hdr_bytes := 0, msg_len := 0,
            sends := s.sends + 1,
            receive_queue :=
              if E.queue_ok s.sends then
                s.receive_queue
                  ++ [{ content := memcpy buf s.msg_copied
                          ((b :: rest).take (s.msg_len - s.msg_copied)),
                        size := s.msg_len }]
              else s.receive_queue }
          ((b :: rest).drop (s.msg_len - s.msg_copied)) := by
  rw [data_loop_payload E fuel s b rest buf (s.msg_len - s.msg_copied)
      (Nat.min_eq_left hcomplete).symm h2 hcl hb (by omega),
    if_pos (by omega)]

/-- Handling a data event and then further events, written with the reassembly loop. -/
theorem mqtt_run_data_cons (E : Env) (s : MqttState) (data : List Byte)
    (evs : List esp_mqtt_event_id_t) :
    mqtt_run E s (MQTT_EVENT_DATA data :: evs)
      = (data_loop E (2 * data.length + 1) s data).bind (fun s1 => mqtt_run E s1 evs) := by
  simp only [mqtt_run, mqtt_event_handler]
  cases data_loop E (2 * data.length + 1) s data <;> rfl

/-- A chunk that completes the frame in hand, followed by further events: whatever the push of
that frame returns, the run is the one that starts after the frame with the empty inbox, with
the inbox as the push left it put in front. The environment `E'` may differ from `E` in what
that push returns. -/
theorem mqtt_run_complete_frame (E E' : Env)
    (hmal : ∀ i n, E'.malloc_ok i n = E.malloc_ok i n)
    (s : MqttState) (b : Byte) (rest buf : List Byte) (evs : List esp_mqtt_event_id_t)
    (h2 : 2 ≤ s.hdr_bytes) (hcl : s.msg_copied ≤ s.msg_len)
    (hb : s.msg_buf = some buf) (hfit : s.msg_len ≤ buf.length)
    (hcomplete : s.msg_len - s.msg_copied ≤ (b :: rest).length)
    (hag : ∀ i, s.sends + 1 ≤ i → E'.queue_ok i = E.queue_ok i) :
    mqtt_run E' s (MQTT_EVENT_DATA (b :: rest) :: evs)
      = ((data_loop E (2 * (b :: rest).length)
            { s with msg_buf := none, msg_copied := 0, hdr_bytes := 0, msg_len := 0,
                     sends := s.sends + 1, receive_queue := [] }
            ((b :: rest).drop (s.msg_len - s.msg_copied))).bind
          (fun s1 => mqtt_run E s1 evs)).map
          (fun r => { r with receive_queue :=
            (if E'.queue_ok s.sends then
              s.receive_queue
                ++ [{ content := memcpy buf s.msg_copied
                        ((b :: rest).take (s.msg_len - s.msg_copied)),
                      size := s.msg_len }]
            else s.receive_queue) ++ r.receive_queue }) := by
  rw [mqtt_run_data_cons, data_loop_complete_step E' _ s b rest buf h2 hcl hb hfit hcomplete]
  generalize (if E'.queue_ok s.sends then
      s.receive_queue
        ++ [{ content := memcpy buf s.msg_copied ((b :: rest).take (s.msg_len - s.msg_copied)),
              size := s.msg_len }]
    else s.receive_queue) = Q
  have h1 := data_loop_queue_prefix E E' hmal (2 * (b :: rest).length)
    { s with msg_buf := none, msg_copied := 0, hdr_bytes := 0, msg_len := 0,
             sends := s.sends + 1, receive_queue := [] } [] Q
    ((b :: rest).drop (s.msg_len - s.msg_copied)) hag
  simp only [List.append_nil] at h1
  have h1' : data_loop E' (2 * (b :: rest).length)
      { s with msg_buf := none, msg_copied := 0, hdr_bytes := 0, msg_len := 0,
               sends := s.sends + 1, receive_queue := Q }
      ((b :: rest).drop (s.msg_len - s.msg_copied)) = _ := h1
  rw [h1']
  cases hr : data_loop E (2 * (b :: rest).length)
      { s with msg_buf := none, msg_copied := 0, hdr_bytes := 0, msg_len := 0,
               sends := s.sends + 1, receive_queue := [] }
      ((b :: rest).drop (s.msg_len - s.msg_copied)) with
  | error f => rfl
  | ok r =>
    have hle : s.sends + 1 ≤ r.sends := by
      have hle1 := data_loop_sends_le E _ _ r _ hr
      exact hle1
    exact mqtt_run_queue_prefix E E' hmal evs r r.receive_queue Q
      (fun i hi => hag i (Nat.le_trans hle hi))

/-- The iteration of `receive_task` in which header and payload are read and the buffer is
allocated: the push is tried, and the iteration ends with the driver as the payload read left
it. -/
theorem receive_task_iter_push (E : Env) (to_ticks : Nat) (st : UART.RxState)
    (hdr data : List Byte) (d1 d2 : UART.Driver)
    (hhdr : UART.uart_read_exact st.drv 2 to_ticks = some (some hdr, d1))
    (hlen : be16 (hdr.getD 0 0) (hdr.getD 1 0) ≠ 0)
    (hm : E.malloc_ok st.mallocs (be16 (hdr.getD 0 0) (hdr.getD 1 0)) = true)
    (hdata : UART.uart_read_exact d1 (be16 (hdr.getD 0 0) (hdr.getD 1 0)) to_ticks
      = some (some data, d2)) :
    UART.receive_task_iter E to_ticks st
      = some { drv := d2, mallocs := st.mallocs + 1, sends := st.sends + 1,
               receive_queue :=
                 if E.queue_ok st.sends then
                   st.receive_queue
                     ++ [{ content := data, size := be16 (hdr.getD 0 0) (hdr.getD 1 0) }]
                 else st.receive_queue } := by
  unfold UART.receive_task_iter
  rw [hhdr]
  simp only [if_neg hlen, hm, malloc, if_true]
  rw [hdata]

/-- An iteration of `receive_task` that reads a frame, followed by `n` further iterations:
whatever the push of that frame returns, the run is the one that starts after the frame with the
empty inbox, with the inbox as the push left it put in front. -/
theorem receive_task_complete_frame (E E' : Env)
    (hmal : ∀ i n, E'.malloc_ok i n = E.malloc_ok i n) (to_ticks : Nat) (st : UART.RxState)
    (hdr data : List Byte) (d1 d2 : UART.Driver)
    (hhdr : UART.uart_read_exact st.drv 2 to_ticks = some (some hdr, d1))
    (hlen : be16 (hdr.getD 0 0) (hdr.getD 1 0) ≠ 0)
    (hm : E.malloc_ok st.mallocs (be16 (hdr.getD 0 0) (hdr.getD 1 0)) = true)
    (hdata : UART.uart_read_exact d1 (be16 (hdr.getD 0 0) (hdr.getD 1 0)) to_ticks
      = some (some data, d2))
    (hag : ∀ i, st.sends + 1 ≤ i → E'.queue_ok i = E.queue_ok i) (n : Nat) :
    UART.receive_task E' to_ticks (n + 1) st
      = (UART.receive_task E to_ticks n
          { drv := d2, mallocs := st.mallocs + 1, sends := st.sends + 1,
            receive_queue := [] }).map
          (fun r => { r with receive_queue :=
            (if E'.queue_ok st.sends then
              st.receive_queue
                ++ [{ content := data, size := be16 (hdr.getD 0 0) (hdr.getD 1 0) }]
            else st.receive_queue) ++ r.receive_queue }) := by
  have hstep := receive_task_iter_push E' to_ticks st hdr data d1 d2 hhdr hlen
    (by rw [hmal]; exact hm) hdata
  simp only [UART.receive_task]
  rw [hstep]
  generalize (if E'.queue_ok st.sends then
      st.receive_queue ++ [{ content := data, size := be16 (hdr.getD 0 0) (hdr.getD 1 0) }]
    else st.receive_queue) = Q
  have h1 := receive_task_queue_prefix E E' hmal to_ticks n
    { drv := d2, mallocs := st.mallocs + 1, sends := st.sends + 1, receive_queue := [] } [] Q hag
  simp only [List.append_nil] at h1
  exact h1

/-- C19. Inbox overflow drops the newest frame. MQTT reassembly loop: at the step that
completes the frame `msg` while the push fails (`E.queue_ok s.sends = false`), the loop goes on
with the bytes after the frame from `reset`, the header-reading state whose inbox is the one of
before; where that push succeeds (`E.delivering s.sends`) it goes on from the same state with
`msg` appended to the inbox. The run over the rest of the chunk and the events `evs` that
follow ends in both cases in the same state but for the inbox: the inbox of before followed by
the later frames in the one, with `msg` between them in the other. UART `receive_task`: at the
iteration that reads the frame `umsg` while the push fails, the iteration ends in `next` with
the inbox of before; where that push succeeds it ends in the same state with `umsg` appended,
and the iterations that follow end in both cases in the same state but for the inbox. -/
theorem inbox_overflow_drops_newest (E : Env)
    (s reset : MqttState) (b : Byte) (rest buf : List Byte) (evs : List esp_mqtt_event_id_t)
    (msg : message_struct_t)
    (h2 : 2 ≤ s.hdr_bytes) (hcl : s.msg_copied ≤ s.msg_len)
    (hb : s.msg_buf = some buf) (hfit : s.msg_len ≤ buf.length)
    (hcomplete : s.msg_len - s.msg_copied ≤ (b :: rest).length)
    (hmsg : msg = { content := memcpy buf s.msg_copied
                      ((b :: rest).take (s.msg_len - s.msg_copied)),
                    size := s.msg_len })
    (hreset : reset = { s with msg_buf := none, msg_copied := 0, hdr_bytes := 0, msg_len := 0,
                               sends := s.sends + 1 })
    (hfull : E.queue_ok s.sends = false)
    (to_ticks : Nat) (st next : UART.RxState) (hdr data : List Byte) (d1 d2 : UART.Driver)
    (umsg : message_struct_t)
    (hhdr : UART.uart_read_exact st.drv 2 to_ticks = some (some hdr, d1))
    (hlen : be16 (hdr.getD 0 0) (hdr.getD 1 0) ≠ 0)
    (hm : E.malloc_ok st.mallocs (be16 (hdr.getD 0 0) (hdr.getD 1 0)) = true)
    (hdata : UART.uart_read_exact d1 (be16 (hdr.getD 0 0) (hdr.getD 1 0)) to_ticks
      = some (some data, d2))
    (humsg : umsg = { content := data, size := be16 (hdr.getD 0 0) (hdr.getD 1 0) })
    (hnext : next = { drv := d2, receive_queue := st.receive_queue, mallocs := st.mallocs + 1,
                      sends := st.sends + 1 })
    (hfullU : E.queue_ok st.sends = false) :
    (∀ fuel,
      data_loop E (fuel + 1) s (b :: rest)
        = data_loop E fuel reset ((b :: rest).drop (s.msg_len - s.msg_copied))
      ∧ data_loop (E.delivering s.sends) (fuel + 1) s (b :: rest)
        = data_loop (E.delivering s.sends) fuel
            { reset with receive_queue := s.receive_queue ++ [msg] }
            ((b :: rest).drop (s.msg_len - s.msg_copied)))
    ∧ reset.receive_queue = s.receive_queue
    ∧ mqtt_run E s (MQTT_EVENT_DATA (b :: rest) :: evs)
        = ((data_loop E (2 * (b :: rest).length) { reset with receive_queue := [] }
              ((b :: rest).drop (s.msg_len - s.msg_copied))).bind
            (fun s1 => mqtt_run E s1 evs)).map
            (fun r => { r with receive_queue := s.receive_queue ++ r.receive_queue })
    ∧ mqtt_run (E.delivering s.sends) s (MQTT_EVENT_DATA (b :: rest) :: evs)
        = ((data_loop E (2 * (b :: rest).length) { reset with receive_queue := [] }
              ((b :: rest).drop (s.msg_len - s.msg_copied))).bind
            (fun s1 => mqtt_run E s1 evs)).map
            (fun r => { r with receive_queue := s.receive_queue ++ [msg] ++ r.receive_queue })
    ∧ UART.receive_task_iter E to_ticks st = some next
    ∧ UART.receive_task_iter (E.delivering st.sends) to_ticks st
        = some { next with receive_queue := st.receive_queue ++ [umsg] }
    ∧ ∀ n,
        UART.receive_task E to_ticks (n + 1) st
          = (UART.receive_task E to_ticks n { next with receive_queue := [] }).map
              (fun r => { r with receive_queue := st.receive_queue ++ r.receive_queue })
        ∧ UART.receive_task (E.delivering st.sends) to_ticks (n + 1) st
          = (UART.receive_task E to_ticks n { next with receive_queue := [] }).map
              (fun r => { r with
                receive_queue := st.receive_queue ++ [umsg] ++ r.receive_queue }) := by
  subst hmsg hreset humsg hnext
  have hd : (E.delivering s.sends).queue_ok s.sends = true := by simp [Env.delivering]
  have hdU : (E.delivering st.sends).queue_ok st.sends = true := by simp [Env.delivering]
  have hag : ∀ k i, k + 1 ≤ i → (E.delivering k).queue_ok i = E.queue_ok i := by
    intro k i hi
    have hne : i ≠ k := by omega
    simp [Env.delivering, hne]
  refine ⟨fun fuel => ⟨?_, ?_⟩, rfl, ?_, ?_, ?_, ?_, fun n => ⟨?_, ?_⟩⟩
  · rw [data_loop_complete_step E fuel s b rest buf h2 hcl hb hfit hcomplete, hfull]
    rfl
  · rw [data_loop_complete_step (E.delivering s.sends) fuel s b rest buf h2 hcl hb hfit
      hcomplete, hd]
    rfl
  · have h := mqtt_run_complete_frame E E (fun _ _ => rfl) s b rest buf evs h2 hcl hb hfit
      hcomplete (fun _ _ => rfl)
    rw [hfull] at h
    exact h
  · have h := mqtt_run_complete_frame E (E.delivering s.sends) (fun _ _ => rfl) s b rest buf
      evs h2 hcl hb hfit hcomplete (hag s.sends)
    rw [hd] at h
    exact h
  · have h := receive_task_iter_push E to_ticks st hdr data d1 d2 hhdr hlen hm hdata
    rw [hfullU] at h
    exact h
  · have h := receive_task_iter_push (E.delivering st.sends) to_ticks st hdr data d1 d2 hhdr
      hlen hm hdata
    rw [hdU] at h
    exact h
  · have h := receive_task_complete_frame E E (fun _ _ => rfl) to_ticks st hdr data d1 d2 hhdr
      hlen hm hdata (fun _ _ => rfl) n
    rw [hfullU] at h
    exact h
  · have h := receive_task_complete_frame E (E.delivering st.sends) (fun _ _ => rfl) to_ticks
      st hdr data d1 d2 hhdr hlen hm hdata (hag st.sends) n
    rw [hdU] at h
    exact h

/-- C19, with two frames in the inbox and the third push failing: the chunk
`[7, 8, 0, 1, 9]` completes the frame `[7, 8]`, which is dropped, and the frame `[9]` that
follows is delivered behind the two; in `receive_task` the frame `[7, 8]` read from the line is
dropped and the inbox stays as it was. -/
theorem inbox_overflow_drops_newest_witness :
    mqtt_run { malloc_ok := fun _ _ => true, queue_ok := fun i => decide (i ≠ 2) }
        { hdr0 := 0, hdr1 := 2, hdr_bytes := 2, msg_buf := some [0, 0], msg_len := 2,
          msg_copied := 0, initialized := true,
          receive_queue := [{ content := [1], size := 1 }, { content := [2], size := 1 }],
          mallocs := 3, sends := 2 }
        [MQTT_EVENT_DATA [7, 8, 0, 1, 9]]
      = .ok { hdr0 := 0, hdr1 := 1, hdr_bytes := 0, msg_buf := none, msg_len := 0,
              msg_copied := 0, initialized := true,
              receive_queue := [{ content := [1], size := 1 }, { content := [2], size := 1 },
                                { content := [9], size := 1 }],
              mallocs := 4, sends := 4 }
    ∧ UART.receive_task_iter
        { malloc_ok := fun _ _ => true, queue_ok := fun i => decide (i ≠ 2) } 500
        { drv := { ticks := [0, 1, 2, 3, 4], ready := [2, 1, 1], line := [0, 2, 7, 8, 0] },
          receive_queue := [{ content := [1], size := 1 }, { content := [2], size := 1 }],
          mallocs := 2, sends := 2 }
      = some { drv := { ticks := [], ready := [], line := [0] },
               receive_queue := [{ content := [1], size := 1 }, { content := [2], size := 1 }],
               mallocs := 3, sends := 3 } :=
  have h := inbox_overflow_drops_newest
    { malloc_ok := fun _ _ => true, queue_ok := fun i => decide (i ≠ 2) }
    { hdr0 := 0, hdr1 := 2, hdr_bytes := 2, msg_buf := some [0, 0], msg_len := 2,
      msg_copied := 0, initialized := true,
      receive_queue := [{ content := [1], size := 1 }, { content := [2], size := 1 }],
      mallocs := 3, sends := 2 }
    { hdr0 := 0, hdr1 := 2, hdr_bytes := 0, msg_buf := none, msg_len := 0,
      msg_copied := 0, initialized := true,
      receive_queue := [{ content := [1], size := 1 }, { content := [2], size := 1 }],
      mallocs := 3, sends := 3 }
    7 [8, 0, 1, 9] [0, 0] [] { content := [7, 8], size := 2 }
    (by decide) (by decide) rfl (by decide) (by decide) rfl rfl rfl
    500
    { drv := { ticks := [0, 1, 2, 3, 4], ready := [2, 1, 1], line := [0, 2, 7, 8, 0] },
      receive_queue := [{ content := [1], size := 1 }, { content := [2], size := 1 }],
      mallocs := 2, sends := 2 }
    { drv := { ticks := [], ready := [], line := [0] },
      receive_queue := [{ content := [1], size := 1 }, { content := [2], size := 1 }],
      mallocs := 3, sends := 3 }
    [0, 2] [7, 8] { ticks := [2, 3, 4], ready := [1, 1], line := [7, 8, 0] }
    { ticks := [], ready := [], line := [0] } { content := [7, 8], size := 2 }
    rfl (by decide) rfl rfl rfl rfl rfl
  ⟨h.2.2.1, h.2.2.2.2.1⟩

/-! ## Buffer bounds in `main.c` (C26, C27, C28) -/

/-- C26 on the code. `test_dsa_Alice` allocates `strlen(message) + sig_len` bytes for
`signed_message`, and `crypto_sign_message` writes `2 + strlen(message) + siglen` bytes to it:
when the key allocation, the key generation and the two allocations of the signing step succeed
and the signature is longer than `sig_len - 2` bytes, the third `memcpy` of
`crypto_sign_message` writes past the end of `signed_message`. -/
theorem signed_message_overflow (P : Provider) (e : AliceEnv) (algo : DSA_ALGO) (s : Scheme)
    (hs : scheme_of algo = some s) (hpk : e.pk_ok = true) (hsk : e.sk_ok = true)
    (hpkl : P.CRYPTO_PUBLICKEYBYTES s ≠ 0) (hskl : P.CRYPTO_SECRETKEYBYTES s ≠ 0)
    (hsigl : P.CRYPTO_BYTES s ≠ 0) (hkg : (P.crypto_sign_keypair s e.rnd_keygen).1 = 0)
    (hsm : e.sm_ok = true) (hscratch : e.scratch_ok = true)
    (hover : ∀ sk, P.CRYPTO_BYTES s
      < (P.crypto_sign_signature s e.rnd_sign (message.take 20) sk).2.length + 2)
    (polls : List (Option message_struct_t)) :
    test_dsa_Alice P e algo polls = .error .outOfBounds := by
  obtain ⟨sk1, hsk1⟩ : ∃ sk1, sk1 = lib_write (List.replicate (P.CRYPTO_SECRETKEYBYTES s) 0)
      (P.crypto_sign_keypair s e.rnd_keygen).2.2 := ⟨_, rfl⟩
  obtain ⟨sig, hsig⟩ :
      ∃ sig, sig = (P.crypto_sign_signature s e.rnd_sign (message.take 20) sk1).2 := ⟨_, rfl⟩
  have hds : dsa_signature P algo e.rnd_sign message 20 sk1
      = ((P.crypto_sign_signature s e.rnd_sign (message.take 20) sk1).1, some sig) := by
    simp [dsa_signature, hs, hsig]
  have hsign := crypto_sign_message_ok P e.rnd_sign message 20 sk1 algo _ sig (by decide) hds
  have hover2 : P.CRYPTO_BYTES s < sig.length + 2 := by rw [hsig]; exact hover sk1
  simp only [test_dsa_Alice, alloc_space_for_dsa_def, hs, malloc, hpk, hsk, if_true, hpkl, hskl,
    hsigl, or_self, if_false, dsa_keygen, hkg, ne_eq, not_true_eq_false, hsm, strlen_message,
    hscratch, Option.map_some', Option.getD_some, ← hsk1, hsign, write_buf,
    List.length_replicate, List.length_append, List.length_cons, List.length_nil,
    List.length_take]
  have hl : min 20 message.length = 20 := by decide
  simp only [hl]
  rw [if_pos (by omega)]

/-- C26, at the stand-in library whose signatures have the full `CRYPTO_BYTES = 2` bytes. -/
theorem signed_message_overflow_witness :
    test_dsa_Alice toyProvider AliceEnv.allOk FALCON_512 [] = .error .outOfBounds :=
  signed_message_overflow toyProvider AliceEnv.allOk FALCON_512 .FALCON512 rfl rfl rfl
    (by decide) (by decide) (by decide) rfl rfl rfl
    (fun _ => (by decide : (2 : Nat) < 2 + 2)) []

/-- C27 on the code. `crypto_open_message` copies `smlen - mlen - 2` bytes into the scratch
buffer of `get_signature_length(algo)` bytes without comparing the two: on an envelope whose
announced message lies inside it and whose signature part is longer than
`get_signature_length(algo)`, the `memcpy` writes past the end of the scratch buffer. -/
theorem crypto_open_message_scratch_overflow (P : Provider) (h0 h1 : Byte)
    (body pk : List Byte) (algo : DSA_ALGO) (hrange : be16 h0 h1 ≤ body.length)
    (hover : get_signature_length P algo < body.length - be16 h0 h1) :
    crypto_open_message P true (h0 :: h1 :: body) (body.length + 2) pk algo
      = .error .outOfBounds := by
  have hs1 : size_sub (body.length + 2) (be16 h0 h1) = body.length + 2 - be16 h0 h1 := by
    unfold size_sub; rw [if_pos (by omega)]
  have hs2 : size_sub (body.length + 2 - be16 h0 h1) 2 = body.length - be16 h0 h1 := by
    unfold size_sub; rw [if_pos (by omega)]; omega
  simp only [crypto_open_message, malloc, List.length_cons, hs1, hs2, if_true,
    List.length_replicate, hover, true_or]

/-- C27, at the envelope `[0x00, 0x00, 1, 2, 3]` (no message, three signature bytes) and a
scratch buffer of two bytes. -/
theorem crypto_open_message_scratch_overflow_witness :
    crypto_open_message toyProvider true [0x00, 0x00, 1, 2, 3] 5 [5] FALCON_512
      = .error .outOfBounds :=
  crypto_open_message_scratch_overflow toyProvider 0x00 0x00 [1, 2, 3] [5] FALCON_512
    (by decide) (by decide)

/-- C28 on the code. `test_dsa_Bob` allocates `strlen(message) + 20 = 40` bytes for
`message_to_send`, and `crypto_open_message` copies the `message_length` bytes announced by the
envelope to it without comparing the two: on an envelope that the library accepts and whose
message is longer than 40 bytes, the `memcpy` writes past the end of `message_to_send`. -/
theorem message_to_send_overflow (P : Provider) (algo : DSA_ALGO) (pk : List Byte)
    (h0 h1 : Byte) (body : List Byte) (hrange : be16 h0 h1 ≤ body.length)
    (hfit : body.length - be16 h0 h1 ≤ get_signature_length P algo)
    (hacc : 0 ≤ dsa_verify P algo (body.drop (be16 h0 h1)) (body.take (be16 h0 h1)) pk)
    (hlong : strlen message + 20 < be16 h0 h1) :
    test_dsa_Bob_reply P { msg_ok := true, scratch_ok := true } algo pk
        (frame (h0 :: h1 :: body)) = .error .outOfBounds := by
  have hopen := crypto_open_message_in_range P h0 h1 body pk algo hrange hfit
  have hsz : (frame (h0 :: h1 :: body)).size = body.length + 2 := rfl
  have hct : (frame (h0 :: h1 :: body)).content = h0 :: h1 :: body := rfl
  rw [strlen_message] at hlong
  have hv : ¬ dsa_verify P algo (body.drop (be16 h0 h1)) (body.take (be16 h0 h1)) pk < 0 := by
    omega
  have hlt : 20 + 20 < min (be16 h0 h1) body.length := by omega
  simp [test_dsa_Bob_reply, malloc, hsz, hct, hopen, hv, write_buf, strlen_message, hlt]

/-- C28, at an envelope with a message of 41 bytes, signed under the key `[5]` of the stand-in
library. -/
theorem message_to_send_overflow_witness :
    test_dsa_Bob_reply toyProvider { msg_ok := true, scratch_ok := true } FALCON_512 [5]
        (frame (0x00 :: 0x29 :: (List.replicate 41 0x41 ++ [5, 46]))) = .error .outOfBounds :=
  message_to_send_overflow toyProvider FALCON_512 [5] 0x00 0x29
    (List.replicate 41 0x41 ++ [5, 46]) (by decide) (by decide) (by decide) (by decide)

/-! ## The length tables of `dsa.c` (C29) -/

/-- C29. The length tables agree. For every value of `algo`, named or not, the lengths that
`alloc_space_for_dsa` stores in `*pk_len`, `*sk_len` and `*sig_len` are the values that
`get_public_key_length`, `get_secret_key_length` and `get_signature_length` return for it. For
every value outside the enum (19 and above) the six results are 0 and `alloc_space_for_dsa`
leaves `*pk` and `*sk` as they were. -/
theorem length_tables_agree (P : Provider) (pk_ok sk_ok : Bool) (pk0 sk0 : Option (List Byte)) :
    (∀ algo : DSA_ALGO,
      (alloc_space_for_dsa P pk_ok sk_ok algo pk0 sk0).pk_len = get_public_key_length P algo
      ∧ (alloc_space_for_dsa P pk_ok sk_ok algo pk0 sk0).sk_len = get_secret_key_length P algo
      ∧ (alloc_space_for_dsa P pk_ok sk_ok algo pk0 sk0).sig_len = get_signature_length P algo)
    ∧ ∀ n : Nat,
        alloc_space_for_dsa P pk_ok sk_ok (n + 19) pk0 sk0
          = { pk := pk0, sk := sk0, pk_len := 0, sk_len := 0, sig_len := 0 }
        ∧ get_public_key_length P (n + 19) = 0
        ∧ get_secret_key_length P (n + 19) = 0
        ∧ get_signature_length P (n + 19) = 0 := by
  refine ⟨fun algo => ?_, fun n => ⟨rfl, rfl, rfl, rfl⟩⟩
  obtain ⟨a, ha⟩ : ∃ a : Nat, a = algo := ⟨algo, rfl⟩
  subst ha
  by_cases h : a < 19
  · interval_cases a <;> exact ⟨rfl, rfl, rfl⟩
  · obtain ⟨n, rfl⟩ : ∃ n, a = n + 19 := ⟨a - 19, by omega⟩
    exact ⟨rfl, rfl, rfl⟩

/-! ## Receiving over UART (C24) -/

/-- The loop of `uart_read_exact` takes its bytes from the front of the line, in order, and
never more than `len`. -/
theorem uart_read_loop_line (start to_ticks len : Nat) :
    ∀ (ticks ready : List Nat) (line got r : List Byte) (d : UART.Driver),
      UART.uart_read_loop start to_ticks len ticks ready line got = some (r, d) →
      got.length ≤ len → r ++ d.line = got ++ line ∧ r.length ≤ len := by
  intro ticks
  induction ticks with
  | nil =>
    intro ready line got r d h hg
    unfold UART.uart_read_loop at h
    by_cases hlt : got.length < len
    · simp [hlt] at h
    · simp only [hlt, if_false, Option.some.injEq, Prod.mk.injEq] at h
      obtain ⟨hr, hd⟩ := h
      subst hr hd
      exact ⟨rfl, hg⟩
  | cons now ticks ih =>
    intro ready line got r d h hg
    unfold UART.uart_read_loop at h
    by_cases hlt : got.length < len
    · simp only [hlt, if_true] at h
      by_cases hto : to_ticks < (now % 2 ^ 32 + 2 ^ 32 - start % 2 ^ 32) % 2 ^ 32
      · simp only [hto, if_true, Option.some.injEq, Prod.mk.injEq] at h
        obtain ⟨hr, hd⟩ := h
        subst hr hd
        exact ⟨rfl, hg⟩
      · simp only [hto, if_false] at h
        cases ready with
        | nil => simp at h
        | cons a ready1 =>
          simp only [] at h
          have hn : min (len - got.length) (min a line.length) ≤ len - got.length :=
            Nat.min_le_left _ _
          have := ih ready1 _ _ r d h (by
            rw [List.length_append, List.length_take]
            have := Nat.min_le_left (min (len - got.length) (min a line.length)) line.length
            omega)
          refine ⟨?_, this.2⟩
          rw [this.1, List.append_assoc, List.take_append_drop]
    · simp only [hlt, if_false, Option.some.injEq, Prod.mk.injEq] at h
      obtain ⟨hr, hd⟩ := h
      subst hr hd
      exact ⟨rfl, hg⟩

/-- What `uart_read_exact` returns as read is the first `len` bytes of the line, and it leaves
the bytes after them on the line. -/
theorem uart_read_exact_line (d d1 : UART.Driver) (len to_ticks : Nat) (got : List Byte)
    (h : UART.uart_read_exact d len to_ticks = some (some got, d1)) :
    got = d.line.take len ∧ got.length = len ∧ d1.line = d.line.drop len := by
  unfold UART.uart_read_exact at h
  cases ht : d.ticks with
  | nil => simp [ht] at h
  | cons start ticks =>
    simp only [ht] at h
    cases hl : UART.uart_read_loop start to_ticks len ticks d.ready d.line [] with
    | none => simp [hl] at h
    | some p =>
      obtain ⟨r, d2⟩ := p
      simp only [hl, Option.some.injEq, Prod.mk.injEq] at h
      obtain ⟨hr, hd⟩ := h
      subst hd
      by_cases hlen : r.length = len
      · simp only [hlen, if_true, Option.some.injEq] at hr
        subst hr
        have hline := (uart_read_loop_line start to_ticks len ticks d.ready d.line [] r d2 hl
          (Nat.zero_le _)).1
        rw [List.nil_append] at hline
        refine ⟨?_, hlen, ?_⟩
        · rw [← hline, ← hlen, List.take_left]
        · rw [← hline, ← hlen, List.drop_left]
      · simp [hlen] at hr

/-- C24 as stated does not hold for the declared length 0: with the header `[0x00, 0x00]` read
in time, and the allocation and the push succeeding, `receive_task` pushes nothing and goes on
to the next header. -/
theorem receive_task_skips_empty_frame :
    ¬ (∀ (E : Env) (to_ticks : Nat) (st : UART.RxState) (hdr data : List Byte)
        (d1 d2 : UART.Driver),
        UART.uart_read_exact st.drv 2 to_ticks = some (some hdr, d1) →
        UART.uart_read_exact d1 (be16 (hdr.getD 0 0) (hdr.getD 1 0)) to_ticks
          = some (some data, d2) →
        E.malloc_ok st.mallocs (be16 (hdr.getD 0 0) (hdr.getD 1 0)) = true →
        E.queue_ok st.sends = true →
        ∃ st1, UART.receive_task_iter E to_ticks st = some st1
          ∧ st1.receive_queue
              = st.receive_queue
                  ++ [{ content := data, size := be16 (hdr.getD 0 0) (hdr.getD 1 0) }])
    ∧ UART.receive_task_iter Env.allOk 500
        { drv := { ticks := [0, 1, 2], ready := [2], line := [0x00, 0x00] },
          receive_queue := [], mallocs := 0, sends := 0 }
      = some { drv := { ticks := [2], ready := [], line := [] },
               receive_queue := [], mallocs := 0, sends := 0 } := by
  refine ⟨?_, by rfl⟩
  intro hall
  obtain ⟨st1, h1, h2⟩ := hall Env.allOk 500
    { drv := { ticks := [0, 1, 2], ready := [2], line := [0x00, 0x00] },
      receive_queue := [], mallocs := 0, sends := 0 }
    [0x00, 0x00] [] { ticks := [2], ready := [], line := [] }
    { ticks := [], ready := [], line := [] } (by rfl) (by rfl) rfl rfl
  have h3 : UART.receive_task_iter Env.allOk 500
      { drv := { ticks := [0, 1, 2], ready := [2], line := [0x00, 0x00] },
        receive_queue := [], mallocs := 0, sends := 0 }
    = some { drv := { ticks := [2], ready := [], line := [] },
             receive_queue := [], mallocs := 0, sends := 0 } := by rfl
  rw [h3] at h1
  have h4 := Option.some.inj h1
  rw [← h4] at h2
  simp at h2

/-- C24, amended. When `receive_task` reads a 2-byte header in time, the header and the bytes
read are the first two bytes of the line. For a header value of 0 the iteration ends there, by
the guard `if (len == 0) continue`, with nothing allocated and nothing pushed. For every header
value from 1 to 65535, when the allocation succeeds, the payload is read in time and the push
succeeds, the iteration pushes exactly one message, whose size is the big-endian header value
and whose content is the bytes of the line that follow the header, that many. -/
theorem receive_task_delivers (E : Env) (to_ticks : Nat) (st : UART.RxState)
    (hdr : List Byte) (d1 : UART.Driver)
    (hhdr : UART.uart_read_exact st.drv 2 to_ticks = some (some hdr, d1)) :
    hdr = st.drv.line.take 2 ∧ hdr.length = 2
    ∧ be16 (hdr.getD 0 0) (hdr.getD 1 0) ≤ 65535
    ∧ (be16 (hdr.getD 0 0) (hdr.getD 1 0) = 0 →
        UART.receive_task_iter E to_ticks st = some { st with drv := d1 })
    ∧ (be16 (hdr.getD 0 0) (hdr.getD 1 0) ≠ 0 →
        E.malloc_ok st.mallocs (be16 (hdr.getD 0 0) (hdr.getD 1 0)) = true →
        E.queue_ok st.sends = true →
        ∀ (data : List Byte) (d2 : UART.Driver),
          UART.uart_read_exact d1 (be16 (hdr.getD 0 0) (hdr.getD 1 0)) to_ticks
            = some (some data, d2) →
          UART.receive_task_iter E to_ticks st
            = some { drv := d2, mallocs := st.mallocs + 1, sends := st.sends + 1,
                     receive_queue :=
                       st.receive_queue
                         ++ [{ content := data,
                               size := be16 (hdr.getD 0 0) (hdr.getD 1 0) }] }
          ∧ data = (st.drv.line.drop 2).take (be16 (hdr.getD 0 0) (hdr.getD 1 0))
          ∧ data.length = be16 (hdr.getD 0 0) (hdr.getD 1 0)
          ∧ d2.line = st.drv.line.drop (2 + be16 (hdr.getD 0 0) (hdr.getD 1 0))) := by
  obtain ⟨hh1, hh2, hh3⟩ := uart_read_exact_line st.drv d1 2 to_ticks hdr hhdr
  have hb := be16_lt (hdr.getD 0 0) (hdr.getD 1 0)
  refine ⟨hh1, hh2, by omega, ?_, ?_⟩
  · intro hz
    unfold UART.receive_task_iter
    rw [hhdr]
    simp only [hz, if_true]
  · intro hnz hm hq data d2 hdata
    obtain ⟨hd1, hd2, hd3⟩ := uart_read_exact_line d1 d2 _ to_ticks data hdata
    have hstep := receive_task_iter_push E to_ticks st hdr data d1 d2 hhdr hnz hm hdata
    rw [hq] at hstep
    refine ⟨hstep, ?_, hd2, ?_⟩
    · rw [hd1, hh3]
    · rw [hd3, hh3, List.drop_drop]

/-- C24 amended, at the line `[0x00, 0x02, 7, 8, 0x00]` read in three calls. -/
theorem receive_task_delivers_witness :
    UART.receive_task_iter Env.allOk 500
        { drv := { ticks := [0, 1, 2, 3, 4], ready := [2, 1, 1],
                   line := [0x00, 0x02, 7, 8, 0x00] },
          receive_queue := [], mallocs := 0, sends := 0 }
      = some { drv := { ticks := [], ready := [], line := [0x00] },
               mallocs := 1, sends := 1,
               receive_queue := [{ content := [7, 8], size := 2 }] } :=
  ((receive_task_delivers Env.allOk 500
      { drv := { ticks := [0, 1, 2, 3, 4], ready := [2, 1, 1],
                 line := [0x00, 0x02, 7, 8, 0x00] },
        receive_queue := [], mallocs := 0, sends := 0 }
      [0x00, 0x02] { ticks := [2, 3, 4], ready := [1, 1], line := [7, 8, 0x00] }
      (by rfl)).2.2.2.2 (by decide) rfl rfl [7, 8]
      { ticks := [], ready := [], line := [0x00] } (by rfl)).1

/-! ## Termination of the handshake (C21) -/

/-- With only timeouts and `"ack"` frames in the inbox, `synchronize(BOB)` returns at the first
`"ack"` without a fault, having sent one `"ready"` for each poll before it. -/
theorem synchronize_BOB_returns (post : List (Option message_struct_t)) :
    ∀ pre : List (Option message_struct_t),
      (∀ f, some f ∈ pre → f = frame [0x61, 0x63, 0x6b]) →
      ∃ r, synchronize_BOB (pre ++ some (frame [0x61, 0x63, 0x6b]) :: post) = .ok r
        ∧ r.returned = true ∧ r.sent.length ≤ pre.length
        ∧ ∀ c ∈ r.sent, c = { data := ready_message, length := 5 } := by
  intro pre
  induction pre with
  | nil => intro _; exact ⟨_, rfl, rfl, Nat.le_refl _, by simp⟩
  | cons p pre ih =>
    intro hall
    obtain ⟨r, hr, hret, hlen, hsent⟩ := ih (fun f hf => hall f (List.mem_cons_of_mem _ hf))
    rw [List.cons_append]
    cases p with
    | none =>
      rw [synchronize_BOB_none, hr]
      refine ⟨_, rfl, hret, ?_, ?_⟩
      · simp only [List.length_cons]; omega
      · intro c hc
        simp only [List.mem_cons] at hc
        rcases hc with hc | hc
        · exact hc
        · exact hsent c hc
    | some f =>
      have hf := hall f (List.mem_cons_self _ _)
      subst hf
      exact ⟨_, rfl, rfl, Nat.zero_le _, by simp⟩

/-- Once a `"ready"` frame is among the poll results, `synchronize(ALICE)` returns and has sent
exactly one frame, `"ack"`. -/
theorem synchronize_ALICE_returns (post : List (Option message_struct_t)) :
    ∀ pre : List (Option message_struct_t),
      synchronize_ALICE (pre ++ some (frame [0x72, 0x65, 0x61, 0x64, 0x79]) :: post)
        = { returned := true, sent := [{ data := ack_message, length := 3 }],
            rest := (synchronize_ALICE
              (pre ++ some (frame [0x72, 0x65, 0x61, 0x64, 0x79]) :: post)).rest } := by
  intro pre
  induction pre with
  | nil => rfl
  | cons p pre ih =>
    rw [List.cons_append]
    cases p with
    | none =>
      simp only [synchronize_ALICE]
      exact ih
    | some m =>
      unfold synchronize_ALICE
      split
      · rfl
      · exact ih

/-- C21. The handshake terminates. `pollsA` is what the inbox polls of `synchronize(ALICE)`
(which answers) return, `preB ++ some (frame c.payload) :: postB` what those of
`synchronize(BOB)` (which sends `"ready"`) return, `c` being the call of `send_message` that
`synchronize(ALICE)` makes in reply. The channel may lose or delay frames: before the reply the
polls of `synchronize(BOB)` time out or return frames that `synchronize(ALICE)` sent. If at
least one `"ready"` frame reaches `synchronize(ALICE)` and its reply reaches
`synchronize(BOB)`, both calls return without a fault: `synchronize(ALICE)` after sending the
one `"ack"`, `synchronize(BOB)` at the poll that returns the reply or before, after at most one
`"ready"` per poll before it. -/
theorem handshake_terminates (pollsA preB postB : List (Option message_struct_t))
    (rA : SyncOut) (c : SendCall)
    (hA : synchronize .ALICE pollsA = .ok rA)
    (hready : some (frame [0x72, 0x65, 0x61, 0x64, 0x79]) ∈ pollsA)
    (hc : c ∈ rA.sent)
    (hchan : ∀ f, some f ∈ preB → ∃ c1 ∈ rA.sent, f = frame c1.payload) :
    rA.returned = true
    ∧ rA.sent = [{ data := ack_message, length := 3 }]
    ∧ ∃ rB, synchronize .BOB (preB ++ some (frame c.payload) :: postB) = .ok rB
        ∧ rB.returned = true
        ∧ (∀ c2 ∈ rB.sent, c2 = { data := ready_message, length := 5 })
        ∧ rB.sent.length ≤ preB.length := by
  obtain ⟨preA, postA, hpA⟩ := List.append_of_mem hready
  have hAl := synchronize_ALICE_returns postA preA
  rw [← hpA] at hAl
  have hrA : rA = synchronize_ALICE pollsA := (Except.ok.inj hA).symm
  have hsent : rA.sent = [{ data := ack_message, length := 3 }] := by rw [hrA, hAl]
  have hret : rA.returned = true := by rw [hrA, hAl]
  have hp2 : ({ data := ack_message, length := 3 } : SendCall).payload = [0x61, 0x63, 0x6b] := by
    decide
  have hall : ∀ f, some f ∈ preB → f = frame [0x61, 0x63, 0x6b] := by
    intro f hf
    obtain ⟨c1, hc1, hfc⟩ := hchan f hf
    rw [hsent, List.mem_singleton] at hc1
    rw [hfc, hc1, hp2]
  rw [hsent, List.mem_singleton] at hc
  rw [hc, hp2]
  obtain ⟨rB, hrB, hretB, hlenB, hsentB⟩ := synchronize_BOB_returns postB preB hall
  exact ⟨hret, hsent, rB, hrB, hretB, hsentB, hlenB⟩

/-- C21, with the first two `"ready"` unanswered, the third answered, and a further frame
behind the answer. -/
theorem handshake_terminates_witness :
    ∃ rB, synchronize .BOB
          ([none, none] ++ some (frame ({ data := ack_message, length := 3 } : SendCall).payload)
            :: [some (frame [5, 5])]) = .ok rB
      ∧ rB.returned = true
      ∧ (∀ c2 ∈ rB.sent, c2 = { data := ready_message, length := 5 })
      ∧ rB.sent.length ≤ [none, (none : Option message_struct_t)].length :=
  (handshake_terminates [some (frame [0x72, 0x65, 0x61, 0x64, 0x79])]
    [none, none] [some (frame [5, 5])]
    { returned := true, sent := [{ data := ack_message, length := 3 }], rest := [] }
    { data := ack_message, length := 3 }
    (by rfl) (by simp) (by simp) (by intro f hf; simp at hf)).2.2

/-! ## The state invariant and chunking (C22, C23) -/

/-- C23. The state invariant of the reassembly loop. From the initial state, for every sequence
of data events with any data, any outcome of the allocations and any outcome of the pushes, the
run ends without a fault (no copy leaves the buffer), in a state with `hdr_bytes <= 2`; with
`msg_buf = NULL` when `hdr_bytes < 2`; and, when `hdr_bytes = 2`, with `msg_buf` a buffer of
`msg_len` bytes, `msg_len` the big-endian value of the two header bytes, and
`msg_copied <= msg_len`. -/
theorem reassembly_state_invariant (E : Env) (chunks : List (List Byte)) :
    ∃ s, mqtt_run E MqttState.init (chunks.map MQTT_EVENT_DATA) = .ok s
      ∧ s.hdr_bytes ≤ 2
      ∧ (s.hdr_bytes < 2 → s.msg_buf = none)
      ∧ (s.hdr_bytes = 2 →
          ∃ buf, s.msg_buf = some buf ∧ buf.length = s.msg_len
            ∧ s.msg_len = be16 s.hdr0 s.hdr1 ∧ s.msg_copied ≤ s.msg_len) := by
  obtain ⟨s, hs, -, hst, -⟩ := mqtt_run_inv E chunks MqttState.init [] (CodecInv_init E)
  refine ⟨s, hs, ?_, ?_, ?_⟩
  · rcases hst with ⟨h0, -⟩ | ⟨h1, -, -⟩ | ⟨h2, -⟩ <;> omega
  · intro hlt
    rcases hst with ⟨-, hb⟩ | ⟨-, hb, -⟩ | ⟨h2, -⟩
    · exact hb
    · exact hb
    · omega
  · intro h2
    rcases hst with ⟨h0, -⟩ | ⟨h1, -, -⟩ | ⟨-, buf, hb, hbl, hlen, hcl, -, -⟩
    · omega
    · omega
    · exact ⟨buf, hb, hbl, hlen, hcl⟩

/-- One more iteration than needed changes nothing: an iteration of the reassembly loop takes at
least one byte, or leaves the payload state for the header state. -/
theorem data_loop_fuel_succ (E : Env) :
    ∀ (fuel : Nat) (s : MqttState) (data : List Byte),
      2 * data.length + (if s.hdr_bytes < 2 then 0 else 1) ≤ fuel →
      data_loop E (fuel + 1) s data = data_loop E fuel s data := by
  intro fuel
  induction fuel with
  | zero =>
    intro s data hf
    cases data with
    | nil => rfl
    | cons b rest => simp at hf
  | succ fuel ih =>
    intro s data hf
    cases data with
    | nil => rfl
    | cons b rest =>
      simp only [List.length_cons] at hf
      by_cases hlt : s.hdr_bytes < 2
      · by_cases h0 : s.hdr_bytes = 0
        · rw [data_loop_hdr0 E (fuel + 1) s b rest h0, data_loop_hdr0 E fuel s b rest h0]
          exact ih _ rest (by simp only [if_pos (by decide : (1 : Nat) < 2)]; omega)
        · have h1 : s.hdr_bytes = 1 := by omega
          cases hm : E.malloc_ok s.mallocs (be16 s.hdr0 b) with
          | false =>
            rw [data_loop_hdr1_fail E (fuel + 1) s b rest h1 hm,
              data_loop_hdr1_fail E fuel s b rest h1 hm]
          | true =>
            rw [data_loop_hdr1_ok E (fuel + 1) s b rest h1 hm,
              data_loop_hdr1_ok E fuel s b rest h1 hm]
            exact ih _ rest (by simp only [if_neg (by decide : ¬ (2 : Nat) < 2)]; omega)
      · simp only [if_neg hlt] at hf
        by_cases hc : s.msg_len < s.msg_copied
        · simp [data_loop, hlt, hc]
        · obtain hb | ⟨buf, hb⟩ : s.msg_buf = none ∨ ∃ buf, s.msg_buf = some buf := by
            cases s.msg_buf <;> simp
          · simp [data_loop, hlt, hc, hb]
          · by_cases hfit : buf.length
                < s.msg_copied + min (s.msg_len - s.msg_copied) (b :: rest).length
            · simp only [List.length_cons] at hfit
              simp [data_loop, hlt, hc, hb, hfit]
            · rw [data_loop_payload E (fuel + 1) s b rest buf _ rfl (by omega) (by omega) hb
                  (Nat.le_of_not_lt hfit),
                data_loop_payload E fuel s b rest buf _ rfl (by omega) (by omega) hb
                  (Nat.le_of_not_lt hfit)]
              have hdl : ((b :: rest).drop
                  (min (s.msg_len - s.msg_copied) (b :: rest).length)).length
                  = rest.length + 1 - min (s.msg_len - s.msg_copied) (rest.length + 1) := by
                simp
              split
              · exact ih _ _ (by
                  simp only [if_pos (by decide : (0 : Nat) < 2)]
                  rw [hdl]; omega)
              · rename_i hne
                simp only [List.length_cons] at hne
                exact ih _ _ (by
                  simp only [if_neg hlt]
                  rw [hdl]
                  have : 1 ≤ min (s.msg_len - s.msg_copied) (rest.length + 1) := by
                    rw [Nat.le_min]
                    constructor <;> omega
                  omega)

/-- With enough iterations for the data, the bound on the iterations does not matter. -/
theorem data_loop_fuel_ge (E : Env) (s : MqttState) (data : List Byte) (fuel : Nat)
    (hf : 2 * data.length + (if s.hdr_bytes < 2 then 0 else 1) ≤ fuel) :
    ∀ k, data_loop E (fuel + k) s data = data_loop E fuel s data := by
  intro k
  induction k with
  | zero => rfl
  | succ k ih =>
    rw [← Nat.add_assoc, data_loop_fuel_succ E (fuel + k) s data (by omega), ih]

/-- Copying one byte and then the bytes that follow it is copying them at once. -/
theorem memcpy_cons (dst : List Byte) (off : Nat) (x : Byte) (src : List Byte)
    (h : off + (src.length + 1) ≤ dst.length) :
    memcpy (memcpy dst off [x]) (off + 1) src = memcpy dst off (x :: src) := by
  have hA : (dst.take off).length = off := by rw [List.length_take]; omega
  have h1 : List.take (off + 1) (dst.take off ++ [x] ++ dst.drop (off + 1))
      = dst.take off ++ [x] := by
    apply List.take_left'
    simp [hA]
  have h2 : List.drop (off + 1 + src.length) (dst.take off ++ [x] ++ dst.drop (off + 1))
      = dst.drop (off + (src.length + 1)) := by
    have hl : (dst.take off ++ [x]).length = off + 1 := by simp [hA]
    rw [show off + 1 + src.length = (dst.take off ++ [x]).length + src.length by rw [hl],
      List.drop_append, List.drop_drop]
    congr 1
    omega
  simp only [memcpy, List.length_singleton, List.length_cons, List.length_nil, Nat.zero_add]
  rw [h1, h2]
  simp

/-- The copy step of the reassembly loop when the bytes to copy do not fit the buffer. -/
theorem data_loop_payload_fault (E : Env) (fuel : Nat) (s : MqttState) (b : Byte)
    (rest buf : List Byte) (h2 : 2 ≤ s.hdr_bytes) (hcl : s.msg_copied ≤ s.msg_len)
    (hb : s.msg_buf = some buf)
    (hno : buf.length < s.msg_copied + min (s.msg_len - s.msg_copied) (b :: rest).length) :
    data_loop E (fuel + 1) s (b :: rest) = .error .outOfBounds := by
  have h1 : ¬ s.hdr_bytes < 2 := by omega
  have h3 : ¬ s.msg_len < s.msg_copied := by omega
  simp only [data_loop, h1, h3, hb, hno, if_false, if_true]

/-- Handling a chunk is handling its first byte and then the bytes after it, provided no
allocation fails. -/
theorem data_loop_cons_split (E : Env) (hmal : ∀ i n, E.malloc_ok i n = true) (s : MqttState)
    (x : Byte) (t : List Byte) :
    data_loop E (2 * (x :: t).length + 1) s (x :: t)
      = (data_loop E (2 * [x].length + 1) s [x]).bind
          (fun s1 => data_loop E (2 * t.length + 1) s1 t) := by
  have hL : 2 * (x :: t).length + 1 = 2 * t.length + 1 + 1 + 1 := by
    simp only [List.length_cons]; omega
  have hR : 2 * [x].length + 1 = 1 + 1 + 1 := rfl
  rw [hL, hR]
  by_cases hlt : s.hdr_bytes < 2
  · by_cases h0 : s.hdr_bytes = 0
    · rw [data_loop_hdr0 E _ s x t h0, data_loop_hdr0 E _ s x [] h0, data_loop_nil]
      exact data_loop_fuel_succ E _ _ t (by simp)
    · have h1 : s.hdr_bytes = 1 := by omega
      have hm := hmal s.mallocs (be16 s.hdr0 x)
      rw [data_loop_hdr1_ok E _ s x t h1 hm, data_loop_hdr1_ok E _ s x [] h1 hm, data_loop_nil]
      exact data_loop_fuel_succ E _ _ t (by simp)
  · have h2 : 2 ≤ s.hdr_bytes := by omega
    by_cases hc : s.msg_len < s.msg_copied
    · simp [data_loop, hlt, hc, Except.bind]
    · have hcl : s.msg_copied ≤ s.msg_len := by omega
      obtain hb | ⟨buf, hb⟩ : s.msg_buf = none ∨ ∃ buf, s.msg_buf = some buf := by
        cases s.msg_buf <;> simp
      · simp [data_loop, hlt, hc, hb, Except.bind]
      · by_cases hz : s.msg_copied = s.msg_len
        · -- the frame is complete before the byte is looked at
          by_cases hfA : buf.length < s.msg_copied
          · rw [hz] at hfA
            simp [data_loop, hlt, hc, hb, hz, hfA, Except.bind]
          · rw [data_loop_payload E _ s x t buf 0 (by rw [hz]; simp) h2 hcl hb (by omega),
              data_loop_payload E _ s x [] buf 0 (by rw [hz]; simp) h2 hcl hb (by omega),
              if_pos (show s.msg_copied + 0 = s.msg_len by omega),
              if_pos (show s.msg_copied + 0 = s.msg_len by omega)]
            simp only [List.take_zero, List.drop_zero]
            rw [data_loop_hdr0, data_loop_hdr0, data_loop_nil]
            · rfl
            · rfl
            · rfl
        · have hnd : 1 ≤ s.msg_len - s.msg_copied := by omega
          by_cases hf1 : buf.length < s.msg_copied + 1
          · -- not even the first byte fits
            have hm1 : min (s.msg_len - s.msg_copied) 1 = 1 := by omega
            have hmj : buf.length
                < s.msg_copied + min (s.msg_len - s.msg_copied) (t.length + 1) := by omega
            simp [data_loop, hlt, hc, hb, hm1, hmj, hf1, Except.bind]
          · by_cases h1 : s.msg_copied + 1 = s.msg_len
            · -- the byte completes the frame
              have ht1 : 1 = min (s.msg_len - s.msg_copied) (x :: t).length := by
                simp only [List.length_cons]; omega
              have ht2 : 1 = min (s.msg_len - s.msg_copied) [x].length := by
                simp only [List.length_cons, List.length_nil]; omega
              rw [data_loop_payload E _ s x t buf 1 ht1 h2 hcl hb (by omega),
                data_loop_payload E _ s x [] buf 1 ht2 h2 hcl hb (by omega),
                if_pos h1, if_pos h1]
              simp only [List.take_succ_cons, List.take_zero, List.drop_succ_cons,
                List.drop_zero, List.take_nil, data_loop_nil]
              exact data_loop_fuel_succ E _ _ t (by simp)
            · -- the byte leaves the frame incomplete
              have hnd2 : s.msg_copied + 2 ≤ s.msg_len := by omega
              have ht2 : 1 = min (s.msg_len - s.msg_copied) [x].length := by
                simp only [List.length_cons, List.length_nil]; omega
              obtain ⟨s1, hs1⟩ : ∃ s1 : MqttState, s1
                  = { s with msg_buf := some (memcpy buf s.msg_copied [x]),
                             msg_copied := s.msg_copied + 1 } := ⟨_, rfl⟩
              have hR1 : ∀ fuel, data_loop E (fuel + 1 + 1) s [x] = .ok s1 := by
                intro fuel
                rw [data_loop_payload E _ s x [] buf 1 ht2 h2 hcl hb (by omega), if_neg h1, hs1]
                simp only [List.take_succ_cons, List.take_zero, List.drop_succ_cons,
                  List.drop_zero, List.take_nil, data_loop_nil]
              rw [hR1 1]
              show _ = data_loop E (2 * t.length + 1) s1 t
              cases t with
              | nil =>
                rw [data_loop_nil]
                exact hR1 _
              | cons y t' =>
                have hx1 : s.msg_copied + [x].length ≤ buf.length := by
                  simp only [List.length_cons, List.length_nil]; omega
                have hbl1 : (memcpy buf s.msg_copied [x]).length = buf.length :=
                  memcpy_length buf s.msg_copied [x] hx1
                have h21 : 2 ≤ s1.hdr_bytes := by rw [hs1]; exact h2
                have hcl1 : s1.msg_copied ≤ s1.msg_len := by
                  rw [hs1]; show s.msg_copied + 1 ≤ s.msg_len; omega
                have hb1 : s1.msg_buf = some (memcpy buf s.msg_copied [x]) := by rw [hs1]
                have hl1 : s1.msg_len = s.msg_len := by rw [hs1]
                have hk1 : s1.msg_copied = s.msg_copied + 1 := by rw [hs1]
                obtain ⟨k, hk⟩ : ∃ k, k = min (s1.msg_len - s1.msg_copied) (y :: t').length :=
                  ⟨_, rfl⟩
                have htj : k + 1 = min (s.msg_len - s.msg_copied) (x :: y :: t').length := by
                  rw [hk, hl1, hk1]; simp only [List.length_cons]; omega
                have hkle : k ≤ t'.length + 1 := by
                  rw [hk]; simp only [List.length_cons]; omega
                by_cases hfj : buf.length < s.msg_copied + (k + 1)
                · rw [data_loop_payload_fault E _ s x (y :: t') buf h2 hcl hb
                      (by rw [← htj]; exact hfj),
                    data_loop_payload_fault E _ s1 y t' _ h21 hcl1 hb1
                      (by rw [← hk, hbl1, hk1]; omega)]
                · have hfitL : s.msg_copied + (k + 1) ≤ buf.length := by omega
                  rw [data_loop_payload E _ s x (y :: t') buf (k + 1) htj h2 hcl hb hfitL,
                    data_loop_payload E _ s1 y t' _ k hk h21 hcl1 hb1
                      (by rw [hbl1, hk1]; omega)]
                  have hkv : k = min (s.msg_len - (s.msg_copied + 1)) (t'.length + 1) := by
                    rw [hk, hl1, hk1]; simp only [List.length_cons]
                  have htk : (List.take k (y :: t')).length = k := by
                    rw [List.length_take]; simp only [List.length_cons]; omega
                  have hmc := memcpy_cons buf s.msg_copied x (List.take k (y :: t'))
                    (by rw [htk]; omega)
                  have hdk : (List.drop k (y :: t')).length = t'.length + 1 - k := by
                    rw [List.length_drop]; simp only [List.length_cons]
                  by_cases hcomp : s.msg_copied + (k + 1) = s.msg_len
                  · have hcompR : s1.msg_copied + k = s1.msg_len := by rw [hk1, hl1]; omega
                    rw [if_pos hcomp, if_pos hcompR]
                    subst hs1
                    simp only [List.take_succ_cons, List.drop_succ_cons]
                    rw [hmc]
                    exact data_loop_fuel_ge E _ _ (2 * (y :: t').length)
                      (by simp only [if_pos (by decide : (0 : Nat) < 2), List.length_cons]
                          rw [hdk]; omega) 2
                  · have hcompR : ¬ s1.msg_copied + k = s1.msg_len := by rw [hk1, hl1]; omega
                    rw [if_neg hcomp, if_neg hcompR]
                    subst hs1
                    simp only [List.take_succ_cons, List.drop_succ_cons]
                    rw [hmc, show s.msg_copied + 1 + k = s.msg_copied + (k + 1) by omega]
                    exact data_loop_fuel_ge E _ _ (2 * (y :: t').length)
                      (by simp only [if_neg hlt, List.length_cons]
                          rw [hdk]; omega) 2

/-- Handling a chunk `a ++ b` is handling `a` and then `b`, provided no allocation fails. -/
theorem data_loop_append (E : Env) (hmal : ∀ i n, E.malloc_ok i n = true) (b : List Byte) :
    ∀ (a : List Byte) (s : MqttState),
      data_loop E (2 * (a ++ b).length + 1) s (a ++ b)
        = (data_loop E (2 * a.length + 1) s a).bind
            (fun s1 => data_loop E (2 * b.length + 1) s1 b) := by
  intro a
  induction a with
  | nil => intro s; rfl
  | cons x a ih =>
    intro s
    rw [List.cons_append, data_loop_cons_split E hmal s x (a ++ b),
      data_loop_cons_split E hmal s x a]
    cases data_loop E (2 * [x].length + 1) s [x] with
    | error f => rfl
    | ok s1 => exact ih s1

/-- C22. Chunking independence. For every state `s` that the reassembly loop reaches from the
initial state through data events, and all byte strings `a` and `b`, when no allocation fails
(whatever the pushes return): the data event with `a` and then the data event with `b` end
without a fault, and the one data event with `a ++ b` ends in the same state, the inbox and the
counters of calls included. -/
theorem chunking_independence (E : Env) (hmal : ∀ i n, E.malloc_ok i n = true)
    (chunks : List (List Byte)) (s : MqttState)
    (hreach : mqtt_run E MqttState.init (chunks.map MQTT_EVENT_DATA) = .ok s)
    (a b : List Byte) :
    ∃ s1 s2, mqtt_event_handler E s (MQTT_EVENT_DATA a) = .ok s1
      ∧ mqtt_event_handler E s1 (MQTT_EVENT_DATA b) = .ok s2
      ∧ mqtt_event_handler E s (MQTT_EVENT_DATA (a ++ b)) = .ok s2 := by
  obtain ⟨s0, hs0, hinv⟩ := mqtt_run_inv E chunks MqttState.init [] (CodecInv_init E)
  rw [hreach] at hs0
  have hss : s = s0 := Except.ok.inj hs0
  subst hss
  obtain ⟨s1, h1, hinv1⟩ := data_loop_inv E (2 * a.length + 1) s a _ hinv (by split <;> omega)
  obtain ⟨s2, h2, -⟩ := data_loop_inv E (2 * b.length + 1) s1 b _ hinv1 (by split <;> omega)
  refine ⟨s1, s2, h1, h2, ?_⟩
  show data_loop E (2 * (a ++ b).length + 1) s (a ++ b) = _
  rw [data_loop_append E hmal b a s, h1]
  exact h2

/-- C22, at the state reached by `[0x00, 0x03, 0x01]` and the chunks `[0x02]` and
`[0x03, 0x00]`. -/
theorem chunking_independence_witness :
    ∃ s1 s2,
      mqtt_event_handler Env.allOk
          { hdr0 := 0x00, hdr1 := 0x03, hdr_bytes := 2, msg_buf := some [0x01, 0, 0],
            msg_len := 3, msg_copied := 1, initialized := false, receive_queue := [],
            mallocs := 1, sends := 0 }
          (MQTT_EVENT_DATA [0x02]) = .ok s1
      ∧ mqtt_event_handler Env.allOk s1 (MQTT_EVENT_DATA [0x03, 0x00]) = .ok s2
      ∧ mqtt_event_handler Env.allOk
          { hdr0 := 0x00, hdr1 := 0x03, hdr_bytes := 2, msg_buf := some [0x01, 0, 0],
            msg_len := 3, msg_copied := 1, initialized := false, receive_queue := [],
            mallocs := 1, sends := 0 }
          (MQTT_EVENT_DATA ([0x02] ++ [0x03, 0x00])) = .ok s2 :=
  chunking_independence Env.allOk (fun _ _ => rfl) [[0x00, 0x03, 0x01]]
    { hdr0 := 0x00, hdr1 := 0x03, hdr_bytes := 2, msg_buf := some [0x01, 0, 0],
      msg_len := 3, msg_copied := 1, initialized := false, receive_queue := [],
      mallocs := 1, sends := 0 }
    (by rfl) [0x02] [0x03, 0x00]

/-! ## The two roles after a failure (C25) -/

/-- The first loop of `test_dsa_Bob` takes at least one frame out of the inbox when it ends. -/
theorem wait_pk_pending (pk_len : Nat) :
    ∀ (polls : List (Option message_struct_t)) (m : message_struct_t)
      (rest : List (Option message_struct_t)),
      wait_pk pk_len polls = some (m, rest) → pending_frames rest < pending_frames polls := by
  intro polls
  induction polls with
  | nil => intro m rest h; simp [wait_pk] at h
  | cons p polls ih =>
    intro m rest h
    cases p with
    | none =>
      have := ih m rest (by simpa [wait_pk] using h)
      simpa [pending_frames] using this
    | some m1 =>
      by_cases hsz : m1.size = pk_len
      · simp only [wait_pk, hsz, if_true, Option.some.injEq, Prod.mk.injEq] at h
        rw [← h.2]
        simp [pending_frames]
      · have := ih m rest (by simpa [wait_pk, hsz] using h)
        simp only [pending_frames, List.countP_cons, Option.isSome_some, if_true] at this ⊢
        omega

/-- A call of `test_dsa_Bob` takes the first frame of the inbox, whatever it is: what it leaves
holds fewer frames than the inbox it started with. -/
theorem test_dsa_Bob_takes_first (P : Provider) (e : BobEnv) (algo : DSA_ALGO)
    (f : message_struct_t) (polls : List (Option message_struct_t)) (r : BobOut)
    (h : test_dsa_Bob P e algo (some f :: polls) = .ok r) :
    pending_frames r.rest ≤ pending_frames polls := by
  have hp : pending_frames (some f :: polls) = pending_frames polls + 1 := by
    simp [pending_frames]
  unfold test_dsa_Bob at h
  simp only [] at h
  cases hw : wait_pk (get_public_key_length P algo) (some f :: polls) with
  | none =>
    simp only [hw, Except.ok.injEq] at h
    rw [← h]
    exact Nat.zero_le _
  | some mp =>
    obtain ⟨pk_frame, polls1⟩ := mp
    have h1 := wait_pk_pending _ _ _ _ hw
    simp only [hw] at h
    cases hw2 : wait_frame polls1 with
    | none =>
      simp only [hw2, Except.ok.injEq] at h
      rw [← h]
      exact Nat.zero_le _
    | some mr =>
      obtain ⟨signed, rest⟩ := mr
      have h2 := wait_frame_some _ _ _ hw2
      simp only [hw2] at h
      cases hr : test_dsa_Bob_reply P e algo pk_frame.content signed with
      | error f => simp [hr] at h
      | ok sent =>
        simp only [hr, Except.ok.injEq] at h
        rw [← h]
        show pending_frames rest ≤ _
        omega

/-- C25 on the code. With a library whose key generation fails for the first entry of the
catalogue: the signer, after the handshake, reports the first entry as failed without sending
anything, and sends the public key and the envelope of the second entry; it then waits for the
reply. The verifier, given exactly the frames the signer sent, is still in `test_dsa_Bob` of
the first entry: it takes both frames of the second entry out of the inbox, frees them because
their size is not that of the key it expects, sends nothing and does not return. In general a
call of `test_dsa_Bob` takes the first frame of the inbox whichever entry it was sent for. -/
theorem keygen_failure_breaks_lockstep :
    (test_dsa_alice_bob keygenFailProvider (fun _ => AliceEnv.allOk) (fun _ => BobEnv.allOk)
        .ALICE [some (frame [0x72, 0x65, 0x61, 0x64, 0x79])]).map
        (fun r => (r.finished, r.outcomes, r.sent.map SendCall.payload, r.rest))
      = .ok (false, [(FALCON_512, false)],
             [[0x61, 0x63, 0x6b], [5, 5], [0x00, 0x14] ++ message.take 20 ++ [5, 25]], [])
    ∧ test_dsa_alice_bob keygenFailProvider (fun _ => AliceEnv.allOk) (fun _ => BobEnv.allOk)
        .BOB [none, some (frame [0x61, 0x63, 0x6b]), some (frame [5, 5]),
              some (frame ([0x00, 0x14] ++ message.take 20 ++ [5, 25]))]
      = .ok { finished := false, outcomes := [],
              sent := [{ data := ready_message, length := 5 }], rest := [] }
    ∧ test_dsa_Bob keygenFailProvider BobEnv.allOk FALCON_512
        [some (frame [5, 5]), some (frame ([0x00, 0x14] ++ message.take 20 ++ [5, 25]))]
      = .ok { returned := false, sent := [], rest := [] }
    ∧ ∀ (P : Provider) (e : BobEnv) (algo : DSA_ALGO) (f : message_struct_t)
        (polls : List (Option message_struct_t)) (r : BobOut),
        test_dsa_Bob P e algo (some f :: polls) = .ok r →
        pending_frames r.rest ≤ pending_frames polls :=
  ⟨by rfl, by rfl, by rfl, test_dsa_Bob_takes_first⟩

end SignatureEsp32
